import Mathlib

/-!
Verification of the mmqlint rule-evaluation engine.

Shallow embedding of `src/mmqlint/core.py`, `src/mmqlint/profiles.py` and
`tests/dataset_checks.py` into Lean 4.  Python values that appear in JSONL
records and dataset rows are modelled by the inductive type `Json`
(numbers are modelled as integers: the records and rows this repository
processes carry integer and string payloads, and the claims under study do
not involve floating point).  Python dicts are modelled as association
lists in insertion order, with lookup on the first matching key and
assignment replacing the first matching key in place (appending when the
key is new), exactly the observable behaviour of a Python dict.  Fallible
Python code is modelled with `Except`, an uncaught Python exception being
an `Except.error`.
-/

namespace Mmqlint

/-- JSON-like Python values (the result of `json.loads` and the content of
dataset rows).  Numbers are modelled as integers, see the file comment. -/
inductive Json where
  | null
  | bool (b : Bool)
  | int (n : Int)
  | str (s : String)
  | arr (elems : List Json)
  | obj (entries : List (String × Json))
deriving Repr, Inhabited

/-- Python `d[key]` lookup over an association list: first matching key. -/
def alistGet {α : Type} : List (String × α) → String → Option α
  | [], _ => none
  | (k, v) :: rest, key => if k = key then some v else alistGet rest key

/-- Python `d[key] = v`: replace the first binding of `key` in place, or
append a new binding at the end (dict insertion order). -/
def alistSet {α : Type} : List (String × α) → String → α → List (String × α)
  | [], key, v => [(key, v)]
  | (k, w) :: rest, key, v =>
    if k = key then (key, v) :: rest else (k, w) :: alistSet rest key v

namespace Json

/-- Lookup of a key on a JSON value; `none` when the value is not an object
or the key is absent. -/
def get? : Json → String → Option Json
  | .obj es, key => alistGet es key
  | _, _ => none

/-- Python `d.get(key)` with its default `None`. -/
def getD (j : Json) (key : String) : Json := (j.get? key).getD .null

/-- Python `key in d`. -/
def hasKey (j : Json) (key : String) : Bool := (j.get? key).isSome

/-- Python `d[key] = v` on a JSON object (identity on non-objects, which
never happens on the paths that use it). -/
def set (j : Json) (key : String) (v : Json) : Json :=
  match j with
  | .obj es => .obj (alistSet es key v)
  | _ => j

/-- Python `isinstance(x, list)`. -/
def isList : Json → Bool
  | .arr _ => true
  | _ => false

/-- Python `isinstance(x, dict)`. -/
def isObj : Json → Bool
  | .obj _ => true
  | _ => false

/-- Python `isinstance(x, str)`. -/
def isStr : Json → Bool
  | .str _ => true
  | _ => false

/-- The element list of a JSON array (only used where the value is known to
be a list). -/
def toList : Json → List Json
  | .arr xs => xs
  | _ => []

/-- Python `x == s` for a string literal `s` (equality with a `str` is
`False` for every non-`str` value). -/
def eqStr (j : Json) (s : String) : Bool :=
  match j with
  | .str t => t = s
  | _ => false

/-- Python `isinstance(x, int)` together with the integer value: Python
`bool` is a subclass of `int`, so `True`/`False` count as `1`/`0`. -/
def pyIntVal : Json → Option Int
  | .int n => some n
  | .bool b => some (if b then 1 else 0)
  | _ => none

/-- Python `isinstance(x, (int, float))` together with the numeric value
(numbers are modelled as integers, see the file comment). -/
def pyNumVal : Json → Option Int
  | .int n => some n
  | .bool b => some (if b then 1 else 0)
  | _ => none

end Json

/-- Helper: the size of the second component of a pair is below the size
of the pair. -/
lemma sizeOf_snd_lt {α β : Type} [SizeOf α] [SizeOf β] (e : α × β) :
    sizeOf e.2 < sizeOf e := by
  rcases e with ⟨a, b⟩
  simp only [Prod.mk.sizeOf_spec]
  omega

/-- Python `repr` of the modelled values (used by `f"{x!r}"` and by the
`str` of containers). -/
def pyRepr (j : Json) : String :=
  match j with
  | .null => "None"
  | .bool true => "True"
  | .bool false => "False"
  | .int n => toString n
  | .str s => "'" ++ s ++ "'"
  | .arr xs =>
    "[" ++ String.intercalate ", " (xs.attach.map (fun x => pyRepr x.1)) ++ "]"
  | .obj es =>
    "\x7b" ++
      String.intercalate ", "
        (es.attach.map (fun e => "'" ++ e.1.1 ++ "': " ++ pyRepr e.1.2)) ++
      "\x7d"
termination_by sizeOf j
decreasing_by
  · have := List.sizeOf_lt_of_mem x.2
    simp only [Json.arr.sizeOf_spec]
    omega
  · have h1 := List.sizeOf_lt_of_mem e.2
    have h2 := sizeOf_snd_lt e.1
    simp only [Json.obj.sizeOf_spec]
    omega

/-- Python `str()` of the modelled values (`str` of a `str` is itself,
`str(None)` is `"None"`, containers print as their `repr`). -/
def pyStr (j : Json) : String :=
  match j with
  | .str s => s
  | _ => pyRepr j

/-- The whitespace characters stripped by Python `str.strip()` (ASCII). -/
def charIsSpace (c : Char) : Bool :=
  c = ' ' || c = '\t' || c = '\n' || c = '\r' || c = '\x0b' || c = '\x0c'

/-- Python `s.strip() == ""`, i.e. the string is all whitespace. -/
def strBlank (s : String) : Bool := s.data.all charIsSpace

-- ---------------------------------------------------------------------
-- Issue model (core.py)
-- ---------------------------------------------------------------------

/-- One diagnostic record (`core.Issue`). -/
structure Issue where
  level : String
  code : String
  line : Nat
  sample_id : String
  path : String
  message : String
deriving Repr, DecidableEq

/-- Constructor `core._issue`: an unknown level string is coerced to
`ERROR` (the keys of `_LEVEL_ORDER` are INFO, WARN, ERROR). -/
def mkIssue (level code : String) (line : Nat) (sample_id path message : String) : Issue :=
  { level := if level = "INFO" || level = "WARN" || level = "ERROR" then level else "ERROR"
    code := code, line := line, sample_id := sample_id, path := path, message := message }

-- ---------------------------------------------------------------------
-- Profiles (profiles.py)
-- ---------------------------------------------------------------------

/-- A policy profile (`profiles.Profile`). -/
structure Profile where
  name : String
  require_system : Bool := true
  system_visible : Bool := true
  fold_system_into_user : Bool := false
  system_invisible_level : String := "ERROR"
deriving Repr, DecidableEq

/-- Method `Profile.validate`: the four checks in source order, a failing
check raising `ValueError`. -/
def Profile.validate (p : Profile) : Except String Unit :=
  if ¬(p.system_invisible_level = "WARN" ∨ p.system_invisible_level = "ERROR") then
    .error ("system_invisible_level must be WARN|ERROR, got " ++ p.system_invisible_level)
  else if p.require_system ∧ ¬p.system_visible then
    .error ("profile " ++ p.name ++ ": require_system=True implies system_visible=True")
  else if p.require_system ∧ p.fold_system_into_user then
    .error ("profile " ++ p.name ++ ": fold_system_into_user must be False when require_system=True")
  else if p.fold_system_into_user ∧ p.system_visible then
    .error ("profile " ++ p.name ++ ": fold_system_into_user=True conflicts with system_visible=True")
  else
    .ok ()

/-- The three built-in profiles (`profiles.DEFAULT_PROFILES`), in insertion
order. -/
def DEFAULT_PROFILES : List (String × Profile) :=
  [("generic", { name := "generic" }),
   ("my-vlm", { name := "my-vlm" }),
   ("qwen3-vl", { name := "qwen3-vl" })]

/-- One named override from a profile file, each field optional (absent
fields fall back to the same-named existing profile, or to a fresh default
profile).  The YAML/JSON file mechanics are an external collaborator; an
override source is modelled as the parsed per-profile field mapping. -/
structure OverrideCfg where
  require_system : Option Bool := none
  system_visible : Option Bool := none
  fold_system_into_user : Option Bool := none
  system_invisible_level : Option String := none
deriving Repr, DecidableEq

/-- The merge of one override onto the registry (`load_profiles`, the
`merged = { ... }` dictionary): each field defaults to the same-named
profile already in the registry, or to `Profile(name=name)`. -/
def mergeOne (profs : List (String × Profile)) (name : String) (cfg : OverrideCfg) : Profile :=
  let base := (alistGet profs name).getD { name := name }
  { name := name
    require_system := cfg.require_system.getD base.require_system
    system_visible := cfg.system_visible.getD base.system_visible
    fold_system_into_user := cfg.fold_system_into_user.getD base.fold_system_into_user
    system_invisible_level := cfg.system_invisible_level.getD base.system_invisible_level }

/-- The override loop of `load_profiles`: merge, validate (a failure
aborts the whole load), store. -/
def mergeLoop : List (String × Profile) → List (String × OverrideCfg) →
    Except String (List (String × Profile))
  | profs, [] => .ok profs
  | profs, (name, cfg) :: rest =>
    let p := mergeOne profs name cfg
    match p.validate with
    | .error e => .error e
    | .ok () => mergeLoop (alistSet profs name p) rest

/-- The final `for p in profs.values(): p.validate()` loop. -/
def validateAll : List (String × Profile) → Except String Unit
  | [] => .ok ()
  | e :: rest =>
    match e.2.validate with
    | .error msg => .error msg
    | .ok () => validateAll rest

/-- Function `profiles.load_profiles`: built-ins plus optional overrides;
`none` is the no-profile-file call. -/
def load_profiles (overrides : Option (List (String × OverrideCfg))) :
    Except String (List (String × Profile)) :=
  match overrides with
  | none =>
    match validateAll DEFAULT_PROFILES with
    | .error e => .error e
    | .ok () => .ok DEFAULT_PROFILES
  | some raw =>
    match mergeLoop DEFAULT_PROFILES raw with
    | .error e => .error e
    | .ok profs =>
      match validateAll profs with
      | .error e => .error e
      | .ok () => .ok profs

/-- The three profile invariants of the spec together with the level
constraint. -/
def profileInvariants (p : Profile) : Prop :=
  (p.require_system = true → p.system_visible = true) ∧
  (p.require_system = true → p.fold_system_into_user = false) ∧
  (p.fold_system_into_user = true → p.system_visible = false) ∧
  (p.system_invisible_level = "WARN" ∨ p.system_invisible_level = "ERROR")

instance (p : Profile) : Decidable (profileInvariants p) := by
  unfold profileInvariants; infer_instance

lemma validate_ok_iff (p : Profile) : p.validate = .ok () ↔ profileInvariants p := by
  rcases p with ⟨n, rs, sv, fd, lvl⟩
  by_cases hL : lvl = "WARN" ∨ lvl = "ERROR" <;>
    cases rs <;> cases sv <;> cases fd <;>
      simp [Profile.validate, profileInvariants, hL]

lemma validateAll_ok {l : List (String × Profile)} (h : validateAll l = .ok ()) :
    ∀ e ∈ l, e.2.validate = .ok () := by
  induction l with
  | nil => intro e he; cases he
  | cons x rest ih =>
    intro e he
    unfold validateAll at h
    rcases hx : x.2.validate with msg | u
    · rw [hx] at h; cases h
    · cases u
      rw [hx] at h
      rcases List.mem_cons.mp he with rfl | hmem
      · exact hx
      · exact ih h e hmem

/-- C3: for every override source `load_profiles` either raises a
configuration error or returns a registry every profile of which satisfies
the three invariants (`require_system → system_visible`,
`require_system → ¬fold_system_into_user`,
`fold_system_into_user → ¬system_visible`) and has
`system_invisible_level ∈ {WARN, ERROR}`; a failing validation yields no
registry at all (the `Except.error` branch carries none), and a profile
violating an invariant is rejected by `Profile.validate`. -/
theorem load_profiles_invariants :
    (∀ (ov : Option (List (String × OverrideCfg))) (regs : List (String × Profile)),
      load_profiles ov = .ok regs → ∀ e ∈ regs, profileInvariants e.2) ∧
    (∀ p : Profile, ¬ profileInvariants p → ∃ msg, p.validate = .error msg) := by
  constructor
  · intro ov regs h e he
    have hall : validateAll regs = .ok () := by
      cases ov with
      | none =>
        have : load_profiles none = .ok DEFAULT_PROFILES := by rfl
        rw [this] at h
        simp only [Except.ok.injEq] at h
        rw [← h]; rfl
      | some raw =>
        simp only [load_profiles] at h
        rcases hm : mergeLoop DEFAULT_PROFILES raw with msg | profs
        · rw [hm] at h; cases h
        · rw [hm] at h; dsimp only at h
          rcases hv : validateAll profs with msg | u
          · rw [hv] at h; cases h
          · cases u; rw [hv] at h
            simp only [Except.ok.injEq] at h
            rw [← h]; exact hv
    exact (validate_ok_iff e.2).mp (validateAll_ok hall e he)
  · intro p hp
    rcases hv : p.validate with msg | u
    · exact ⟨msg, rfl⟩
    · cases u
      exact absurd ((validate_ok_iff p).mp hv) hp

/-- Witness for C3: the no-override load succeeds and the `generic`
profile of the returned registry satisfies the invariants; a profile with
`require_system` and `fold_system_into_user` both set is rejected. -/
theorem load_profiles_invariants_witness :
    profileInvariants
      { name := "generic", require_system := true, system_visible := true,
        fold_system_into_user := false, system_invisible_level := "ERROR" } ∧
    ∃ msg,
      Profile.validate
        { name := "bad", require_system := true, system_visible := true,
          fold_system_into_user := true, system_invisible_level := "ERROR" } = .error msg := by
  constructor
  · exact load_profiles_invariants.1 none DEFAULT_PROFILES rfl
      ("generic", { name := "generic" }) (by simp [DEFAULT_PROFILES])
  · exact load_profiles_invariants.2
      { name := "bad", require_system := true, system_visible := true,
        fold_system_into_user := true, system_invisible_level := "ERROR" }
      (by decide)

-- ---------------------------------------------------------------------
-- System presence / non-empty check (core.py)
-- ---------------------------------------------------------------------

/-- Function `core._is_blank_text`: a `str` that strips to empty. -/
def is_blank_text (x : Json) : Bool :=
  match x with
  | .str s => strBlank s
  | _ => false

/-- The per-item condition of `core._typed_text_of_content`: a dict with
`type == "text"` and a `str`-valued `text` field yields its text. -/
def textItemOf (it : Json) : Option String :=
  match it with
  | .obj es =>
    match alistGet es "type", alistGet es "text" with
    | some (.str tp), some (.str t) => if tp = "text" then some t else none
    | _, _ => none
  | _ => none

/-- Function `core._typed_text_of_content`: raw strings pass through, a
single text-typed dict yields its text (else the empty string), a list
yields its text-typed items joined by newline, anything else the empty
string. -/
def typed_text_of_content (content : Json) : String :=
  match content with
  | .str s => s
  | .obj es => (textItemOf (.obj es)).getD ""
  | .arr items => String.intercalate "\n" (items.filterMap textItemOf)
  | _ => ""

/-- Python `m.get("role") == "system"`. -/
def isSystemMsg (m : Json) : Bool := (m.getD "role").eqStr "system"

/-- The system-empty issue of `core._system_presence_and_nonempty`. -/
def emptySystemIssue (line_no : Nat) (sample_id : String) : Issue :=
  mkIssue "ERROR" "E002_SYSTEM_EMPTY" line_no sample_id "messages"
    "Profile requires a non-empty role='system' message, but system content is empty/blank."

/-- The `for sm in sys_msgs` loop of `core._system_presence_and_nonempty`:
the first system message whose extracted text is blank appends one issue
and breaks. -/
def firstBlankSystemIssue : List Json → Nat → String → List Issue
  | [], _, _ => []
  | sm :: rest, line_no, sample_id =>
    if is_blank_text (.str (typed_text_of_content (sm.getD "content"))) then
      [emptySystemIssue line_no sample_id]
    else firstBlankSystemIssue rest line_no sample_id

/-- Function `core._system_presence_and_nonempty`. -/
def system_presence_and_nonempty (messages : List Json) (line_no : Nat)
    (sample_id : String) (profile_obj : Profile) : List Issue :=
  if !profile_obj.require_system then []
  else
    let sys_msgs := messages.filter isSystemMsg
    if sys_msgs.isEmpty then
      [mkIssue "ERROR" "E002_SYSTEM_REQUIRED" line_no sample_id "messages"
        "Profile requires a role='system' message, but none is present."]
    else firstBlankSystemIssue sys_msgs line_no sample_id

/-- Modelled from the spec's wording for comparison: the newline
concatenation of the extracted text of all system messages of a record
(the claim's condition refers to this string being blank). -/
def systemConcatText (messages : List Json) : String :=
  String.intercalate "\n"
    ((messages.filter isSystemMsg).map (fun m => typed_text_of_content (m.getD "content")))

/-- C1 counterexample: a record whose system messages are one blank and
one non-blank text.  The newline concatenation of all system texts is not
blank, yet the check emits the system-empty issue (the source tests each
system message separately and reports on the first blank one), refuting
the claimed equivalence and its particular-case clause. -/
theorem system_empty_counterexample :
    strBlank
        (systemConcatText
          [.obj [("role", .str "system"), ("content", .str "   ")],
           .obj [("role", .str "system"), ("content", .str "hello")],
           .obj [("role", .str "user"), ("content", .str "hi")]]) = false ∧
    system_presence_and_nonempty
        [.obj [("role", .str "system"), ("content", .str "   ")],
         .obj [("role", .str "system"), ("content", .str "hello")],
         .obj [("role", .str "user"), ("content", .str "hi")]]
        1 "t" { name := "generic" } =
      [emptySystemIssue 1 "t"] :=
  ⟨rfl, rfl⟩

lemma firstBlank_spec (l : List Json) (n : Nat) (s : String) :
    (firstBlankSystemIssue l n s = [emptySystemIssue n s] ↔
      ∃ m ∈ l, is_blank_text (.str (typed_text_of_content (m.getD "content"))) = true) ∧
    ((¬ ∃ m ∈ l, is_blank_text (.str (typed_text_of_content (m.getD "content"))) = true) →
      firstBlankSystemIssue l n s = []) := by
  induction l with
  | nil =>
    constructor
    · constructor
      · intro h; simp [firstBlankSystemIssue] at h
      · rintro ⟨m, hm, _⟩; cases hm
    · intro _; rfl
  | cons x rest ih =>
    by_cases hx : is_blank_text (.str (typed_text_of_content (x.getD "content"))) = true
    · constructor
      · constructor
        · intro _; exact ⟨x, List.mem_cons_self x rest, hx⟩
        · intro _; simp [firstBlankSystemIssue, hx]
      · intro hno; exact absurd ⟨x, List.mem_cons_self x rest, hx⟩ hno
    · have step : firstBlankSystemIssue (x :: rest) n s = firstBlankSystemIssue rest n s := by
        simp [firstBlankSystemIssue, hx]
      constructor
      · rw [step, ih.1]
        constructor
        · rintro ⟨m, hm, hb⟩; exact ⟨m, List.mem_cons_of_mem x hm, hb⟩
        · rintro ⟨m, hm, hb⟩
          rcases List.mem_cons.mp hm with rfl | hmem
          · exact absurd hb hx
          · exact ⟨m, hmem, hb⟩
      · intro hno
        rw [step]
        exact ih.2 (fun ⟨m, hm, hb⟩ => hno ⟨m, List.mem_cons_of_mem x hm, hb⟩)

/-- C1 amended: for a record with at least one system message, checked
under a profile requiring system messages, the check emits the
system-empty error (code E002_SYSTEM_EMPTY at path `messages`) exactly
when SOME system message's individually extracted text is blank (not when
the concatenation of all of them is blank), and it emits at most one such
issue per record (the output is the singleton or empty). -/
theorem system_empty_iff_some_blank :
    ∀ (messages : List Json) (line_no : Nat) (sid : String) (p : Profile),
      p.require_system = true →
      (∃ m ∈ messages, isSystemMsg m = true) →
      ((system_presence_and_nonempty messages line_no sid p = [emptySystemIssue line_no sid]) ↔
        (∃ m ∈ messages, isSystemMsg m = true ∧
          is_blank_text (.str (typed_text_of_content (m.getD "content"))) = true)) ∧
      ((¬ ∃ m ∈ messages, isSystemMsg m = true ∧
          is_blank_text (.str (typed_text_of_content (m.getD "content"))) = true) →
        system_presence_and_nonempty messages line_no sid p = []) := by
  intro messages line_no sid p hrs hex
  have hne : (messages.filter isSystemMsg).isEmpty = false := by
    rcases hex with ⟨m, hm, hsys⟩
    have hmem : m ∈ messages.filter isSystemMsg := List.mem_filter.mpr ⟨hm, hsys⟩
    cases hfe : (messages.filter isSystemMsg).isEmpty
    · rfl
    · rw [List.isEmpty_iff] at hfe
      rw [hfe] at hmem; cases hmem
  have hout : system_presence_and_nonempty messages line_no sid p =
      firstBlankSystemIssue (messages.filter isSystemMsg) line_no sid := by
    simp [system_presence_and_nonempty, hrs, hne]
  have hspec := firstBlank_spec (messages.filter isSystemMsg) line_no sid
  have hexeq : (∃ m ∈ messages.filter isSystemMsg,
      is_blank_text (.str (typed_text_of_content (m.getD "content"))) = true) ↔
      (∃ m ∈ messages, isSystemMsg m = true ∧
        is_blank_text (.str (typed_text_of_content (m.getD "content"))) = true) := by
    constructor
    · rintro ⟨m, hm, hb⟩
      rcases List.mem_filter.mp hm with ⟨hmem, hsys⟩
      exact ⟨m, hmem, hsys, hb⟩
    · rintro ⟨m, hm, hsys, hb⟩
      exact ⟨m, List.mem_filter.mpr ⟨hm, hsys⟩, hb⟩
  constructor
  · rw [hout, hspec.1, hexeq]
  · intro hno
    rw [hout]
    exact hspec.2 (fun h => hno (hexeq.mp h))

/-- Witness for the amended C1: the spec's Scenario B record (one blank
system message) yields exactly the system-empty issue. -/
theorem system_empty_iff_some_blank_witness :
    system_presence_and_nonempty
        [.obj [("role", .str "system"), ("content", .str "   ")],
         .obj [("role", .str "user"), ("content", .str "hi")]]
        7 "t2" { name := "generic" } = [emptySystemIssue 7 "t2"] :=
  ((system_empty_iff_some_blank
      [.obj [("role", .str "system"), ("content", .str "   ")],
       .obj [("role", .str "user"), ("content", .str "hi")]]
      7 "t2" { name := "generic" } rfl
      ⟨.obj [("role", .str "system"), ("content", .str "   ")],
        List.mem_cons_self _ _, rfl⟩).1).mpr
    ⟨.obj [("role", .str "system"), ("content", .str "   ")],
      List.mem_cons_self _ _, rfl, rfl⟩

-- ---------------------------------------------------------------------
-- Schema validation and per-record lint (core.py)
-- ---------------------------------------------------------------------

/-- Python truthiness of the modelled values (`if not t:`). -/
def pyFalsy (j : Json) : Bool :=
  match j with
  | .null => true
  | .bool b => !b
  | .int n => n = 0
  | .str s => s = ""
  | .arr xs => xs.isEmpty
  | .obj es => es.isEmpty

/-- Python `role in _ALLOWED_ROLES` (membership in a set of strings is
false for every non-string value). -/
def allowedRole (r : Json) : Bool :=
  r.eqStr "system" || r.eqStr "user" || r.eqStr "assistant" || r.eqStr "tool"

/-- One strict-typed content item of `core._validate_messages_schema`
(the inner `for ci, it` loop body); `pth` is `messages[mi].content[ci]`. -/
def strictItemIssues (pth : String) (line_no : Nat) (sample_id : String)
    (it : Json) : List Issue :=
  if ¬it.isObj then
    [mkIssue "ERROR" "E003_SCHEMA_MISMATCH" line_no sample_id pth
      "Typed content item must be an object."]
  else
    let t := it.getD "type"
    if pyFalsy t then
      [mkIssue "ERROR" "E003_SCHEMA_MISMATCH" line_no sample_id pth
        "Typed content item missing key `type`."]
    else if t.eqStr "text" then
      if ¬(it.getD "text").isStr then
        [mkIssue "ERROR" "E012_BAD_FIELD_TYPE" line_no sample_id (pth ++ ".text")
          "type='text' field 'text' must be str."]
      else []
    else if t.eqStr "image" then
      if ¬it.hasKey "image" then
        [mkIssue "ERROR" "E011_MISSING_TYPE_FIELDS" line_no sample_id pth
          "type='image' missing required fields: ['image']"]
      else []
    else []

/-- One message of `core._validate_messages_schema` (the `for mi, m` loop
body). -/
def messageIssues (strict_typed : Bool) (line_no : Nat) (sample_id : String)
    (mi : Nat) (m : Json) : List Issue :=
  let base := "messages[" ++ toString mi ++ "]"
  if ¬m.isObj then
    [mkIssue "ERROR" "E003_SCHEMA_MISMATCH" line_no sample_id base
      "Each message must be an object."]
  else
    let roleIssues :=
      if ¬allowedRole (m.getD "role") then
        [mkIssue "ERROR" "E003_SCHEMA_MISMATCH" line_no sample_id (base ++ ".role")
          ("Invalid role: " ++ pyRepr (m.getD "role") ++ ".")]
      else []
    if ¬m.hasKey "content" then
      roleIssues ++
        [mkIssue "ERROR" "E003_SCHEMA_MISMATCH" line_no sample_id (base ++ ".content")
          "Missing required field `content`."]
    else
      let content := m.getD "content"
      roleIssues ++
        (if strict_typed then
          if ¬content.isList then
            [mkIssue "ERROR" "E003_SCHEMA_MISMATCH" line_no sample_id (base ++ ".content")
              "With --strict-typed, `content` must be a list of typed items."]
          else
            (content.toList.enum.map (fun ci =>
              strictItemIssues (base ++ ".content[" ++ toString ci.1 ++ "]")
                line_no sample_id ci.2)).flatten
        else
          if ¬(content.isStr || content.isList || content.isObj) then
            [mkIssue "ERROR" "E012_BAD_FIELD_TYPE" line_no sample_id (base ++ ".content")
              "content must be str or typed list/object."]
          else [])

/-- Function `core._validate_messages_schema`. -/
def validate_messages_schema (messages : Json) (line_no : Nat)
    (sample_id : String) (strict_typed : Bool) : List Issue :=
  if ¬messages.isList then
    [mkIssue "ERROR" "E003_SCHEMA_MISMATCH" line_no sample_id "messages"
      "`messages` must be a list."]
  else
    (messages.toList.enum.map (fun mi =>
      messageIssues strict_typed line_no sample_id mi.1 mi.2)).flatten

/-- Python `s.lower()` on ASCII letters. -/
def pyLower (s : String) : String :=
  ⟨s.data.map (fun c => if 'A' ≤ c ∧ c ≤ 'Z' then Char.ofNat (c.toNat + 32) else c)⟩

/-- Function `core._mode_specific_checks`. -/
def mode_specific_checks (messages : List Json) (line_no : Nat)
    (sample_id : String) (mode : String) : List Issue :=
  let md := pyLower (if mode = "" then "train" else mode)
  let has_assistant := messages.any (fun x => (x.getD "role").eqStr "assistant")
  if md = "infer" then
    if has_assistant then
      let pth :=
        match messages.findIdx? (fun x => (x.getD "role").eqStr "assistant") with
        | some i => "messages[" ++ toString i ++ "].role"
        | none => "messages"
      [mkIssue "ERROR" "E001_INFER_HAS_ASSISTANT" line_no sample_id pth
        "Inference sample contains an assistant turn (risk of label leakage / wrong prompt)."]
    else []
  else
    if ¬has_assistant then
      [mkIssue "ERROR" "E001_TRAIN_MISSING_ASSISTANT" line_no sample_id "messages"
        "Train sample contains no assistant turn (no supervision label)."]
    else []

/-- The `i.code in {...}` membership test of `core.lint_jsonl`. -/
def lintSkipCode (c : String) : Bool :=
  c = "E003_SCHEMA_MISMATCH" || c = "E004_BAD_JSON" || c = "E012_BAD_FIELD_TYPE"

/-- The per-record body of `core.lint_jsonl` (lines 186-199): sample id,
schema check, the hard stop when `messages` is not a list, then the two
policy checks. -/
def lint_record (profile_obj : Profile) (mode : String) (strict_typed : Bool)
    (obj : Json) (line_no : Nat) : List Issue :=
  let sample_id := pyStr ((obj.get? "id").getD (.str ("line_" ++ toString line_no)))
  let messages := obj.getD "messages"
  let sch := validate_messages_schema messages line_no sample_id strict_typed
  if (¬sch.isEmpty) ∧ sch.any (fun i => lintSkipCode i.code) ∧ ¬messages.isList then
    sch
  else
    sch ++ system_presence_and_nonempty messages.toList line_no sample_id profile_obj
        ++ mode_specific_checks messages.toList line_no sample_id mode

/-- C6: for every record parsing as a JSON object whose `messages` value
is not a list, the linter produces exactly one issue for that record — a
schema mismatch (E003_SCHEMA_MISMATCH) at path `messages` — and runs no
deeper checks (no per-message schema checks, no system-presence check, no
mode-specific check contribute anything: the output is exactly that
singleton). -/
theorem lint_record_messages_not_list :
    ∀ (kvs : List (String × Json)) (line_no : Nat) (p : Profile) (mode : String)
      (strict : Bool),
      ((Json.obj kvs).getD "messages").isList = false →
      lint_record p mode strict (.obj kvs) line_no =
        [mkIssue "ERROR" "E003_SCHEMA_MISMATCH" line_no
          (pyStr ((alistGet kvs "id").getD (.str ("line_" ++ toString line_no))))
          "messages" "`messages` must be a list."] := by
  intro kvs line_no p mode strict hnl
  unfold lint_record
  have hsch : validate_messages_schema ((Json.obj kvs).getD "messages") line_no
      (pyStr (((Json.obj kvs).get? "id").getD (.str ("line_" ++ toString line_no)))) strict =
      [mkIssue "ERROR" "E003_SCHEMA_MISMATCH" line_no
        (pyStr (((Json.obj kvs).get? "id").getD (.str ("line_" ++ toString line_no))))
        "messages" "`messages` must be a list."] := by
    unfold validate_messages_schema
    rw [hnl]
    simp
  simp only [hsch, hnl]
  simp [mkIssue, lintSkipCode, Json.get?]

/-- Witness for C6: a record whose `messages` is a string yields exactly
the one schema-mismatch issue. -/
theorem lint_record_messages_not_list_witness :
    lint_record { name := "generic" } "train" false
        (.obj [("id", .str "x"), ("messages", .str "oops")]) 3 =
      [mkIssue "ERROR" "E003_SCHEMA_MISMATCH" 3 "x" "messages"
        "`messages` must be a list."] :=
  lint_record_messages_not_list [("id", .str "x"), ("messages", .str "oops")]
    3 { name := "generic" } "train" false rfl

-- ---------------------------------------------------------------------
-- Dataset checks, stricter variant (tests/dataset_checks.py)
-- ---------------------------------------------------------------------

/-- Python `x is None`. -/
def Json.isNull : Json → Bool
  | .null => true
  | _ => false

/-- One diagnostic of the stricter dataset checker
(`dataset_checks.DatasetIssue`, 0-based row index). -/
structure DatasetIssue where
  level : String
  code : String
  row : Nat
  sample_id : String
  path : String
  message : String
deriving Repr, DecidableEq

/-- The coordinate part of the per-row body of
`dataset_checks.lint_dataset_on_disk` (lines 126-175): read `image_w`,
`image_h` and the coordinates mapping; skip when any of the four
configured keys is missing or `None`; otherwise classify by the four
codes E102 (non-numeric), E103 (negative), E104 (generic out-of-bounds)
and E105 (the 1000-space heuristic, chosen when both image sides are at
most 600 and `max(x1, y1)` lies in `[800, 1200]`). -/
def coordBody (i : Nat) (sid cpath : String) (iwv ihv : Json) (w h : Int)
    (v0 v1 v2 v3 : Json) : List DatasetIssue :=
  match v0.pyNumVal, v1.pyNumVal, v2.pyNumVal, v3.pyNumVal with
  | some x0, some y0, some x1, some y1 =>
    (if x0 < 0 ∨ y0 < 0 ∨ x1 < 0 ∨ y1 < 0 then
      [⟨"ERROR", "E103_coordinates_NEGATIVE", i, sid, cpath,
        "coordinates has negative coords: " ++ pyRepr (.arr [v0, v1, v2, v3])⟩]
    else []) ++
    (if x1 > w ∨ y1 > h then
      let looks_like_1000 :=
        w ≤ 600 ∧ h ≤ 600 ∧ max x1 y1 ≥ 800 ∧ max x1 y1 ≤ 1200
      [⟨"ERROR",
        if looks_like_1000 then "E105_coordinates_SPACE_MISMATCH"
        else "E104_coordinates_OUT_OF_BOUNDS",
        i, sid, cpath,
        "coordinates exceeds image size " ++ pyStr iwv ++ "x" ++ pyStr ihv ++
          ": (" ++ pyStr v0 ++ ", " ++ pyStr v1 ++ ", " ++ pyStr v2 ++ ", " ++
          pyStr v3 ++ ")" ++
          (if looks_like_1000 then
            " (looks like 1000-space coords; expected pixel space)"
          else "")⟩]
    else [])
  | _, _, _, _ =>
    [⟨"ERROR", "E102_coordinates_BAD_TYPE", i, sid, cpath,
      "coordinates coords must be numeric; got " ++ pyRepr (.arr [v0, v1, v2, v3])⟩]

/-- The guards of the coordinate part (lines 126-139): the `isinstance`
tests on `image_w`/`image_h`/`coordinates` and the skip when any of the
four values is missing or `None`; the classification itself is
`coordBody`. -/
def coordCheckRow (row : Json) (i : Nat) (sid : String)
    (image_w_field image_h_field coordinates_path : String)
    (k0 k1 k2 k3 : String) : List DatasetIssue :=
  let iwv := row.getD image_w_field
  let ihv := row.getD image_h_field
  match row.getD coordinates_path with
  | .obj ces =>
    match iwv.pyIntVal, ihv.pyIntVal with
    | some w, some h =>
      let v0 := (alistGet ces k0).getD .null
      let v1 := (alistGet ces k1).getD .null
      let v2 := (alistGet ces k2).getD .null
      let v3 := (alistGet ces k3).getD .null
      if v0.isNull || v1.isNull || v2.isNull || v3.isNull then []
      else coordBody i sid coordinates_path iwv ihv w h v0 v1 v2 v3
    | _, _ => []
  | _ => []

lemma coordCheckRow_reduce (row : Json) (i : Nat)
    (sid wf hf cf k0 k1 k2 k3 : String) (w h : Int) (ces : List (String × Json))
    (hw : (row.getD wf).pyIntVal = some w) (hh : (row.getD hf).pyIntVal = some h)
    (hc : row.getD cf = .obj ces)
    (h0 : ((alistGet ces k0).getD .null).isNull = false)
    (h1 : ((alistGet ces k1).getD .null).isNull = false)
    (h2 : ((alistGet ces k2).getD .null).isNull = false)
    (h3 : ((alistGet ces k3).getD .null).isNull = false) :
    coordCheckRow row i sid wf hf cf k0 k1 k2 k3 =
      coordBody i sid cf (row.getD wf) (row.getD hf) w h
        ((alistGet ces k0).getD .null) ((alistGet ces k1).getD .null)
        ((alistGet ces k2).getD .null) ((alistGet ces k3).getD .null) := by
  unfold coordCheckRow
  rw [hc]
  dsimp only
  rw [hw, hh]
  dsimp only
  simp only [h0, h1, h2, h3, Bool.or_self, Bool.or_false, Bool.false_eq_true, if_false]

lemma pyNumVal_isSome_not_null (v : Json) (hv : v.pyNumVal.isSome = true) :
    v.isNull = false := by
  cases v <;> simp_all [Json.pyNumVal, Json.isNull]

/-- C8: for a row with integral image_w/image_h and a coordinates mapping
with its four configured keys present (non-null), the stricter checker
reports the four outcomes under four distinct codes: any non-numeric
value yields exactly the code E102, and for numeric values the emitted
codes are exactly E103 when some coordinate is negative together with a
bounds code exactly when `x1 > w` or `y1 > h` — that bounds code being
the alternate-space heuristic E105 precisely when both image sides are at
most 600 and the offending coordinate — `max x1 y1`, the larger of the
two bound-checked values, itself out of bounds whenever this region
applies — lies in [800, 1200], and the generic E104 otherwise. -/
theorem coord_check_four_codes :
    ∀ (row : Json) (i : Nat) (sid wf hf cf k0 k1 k2 k3 : String)
      (w h : Int) (ces : List (String × Json)),
      (row.getD wf).pyIntVal = some w →
      (row.getD hf).pyIntVal = some h →
      row.getD cf = .obj ces →
      ((alistGet ces k0).getD .null).isNull = false →
      ((alistGet ces k1).getD .null).isNull = false →
      ((alistGet ces k2).getD .null).isNull = false →
      ((alistGet ces k3).getD .null).isNull = false →
      ((¬(((alistGet ces k0).getD .null).pyNumVal.isSome = true ∧
          ((alistGet ces k1).getD .null).pyNumVal.isSome = true ∧
          ((alistGet ces k2).getD .null).pyNumVal.isSome = true ∧
          ((alistGet ces k3).getD .null).pyNumVal.isSome = true) →
        (coordCheckRow row i sid wf hf cf k0 k1 k2 k3).map DatasetIssue.code =
          ["E102_coordinates_BAD_TYPE"]) ∧
      (∀ x0 y0 x1 y1 : Int,
        ((alistGet ces k0).getD .null).pyNumVal = some x0 →
        ((alistGet ces k1).getD .null).pyNumVal = some y0 →
        ((alistGet ces k2).getD .null).pyNumVal = some x1 →
        ((alistGet ces k3).getD .null).pyNumVal = some y1 →
        (coordCheckRow row i sid wf hf cf k0 k1 k2 k3).map DatasetIssue.code =
          (if x0 < 0 ∨ y0 < 0 ∨ x1 < 0 ∨ y1 < 0 then
            ["E103_coordinates_NEGATIVE"]
          else []) ++
          (if x1 > w ∨ y1 > h then
            [if w ≤ 600 ∧ h ≤ 600 ∧ max x1 y1 ≥ 800 ∧ max x1 y1 ≤ 1200 then
              "E105_coordinates_SPACE_MISMATCH"
            else "E104_coordinates_OUT_OF_BOUNDS"]
          else []))) := by
  intro row i sid wf hf cf k0 k1 k2 k3 w h ces hw hh hc h0 h1 h2 h3
  have hred := coordCheckRow_reduce row i sid wf hf cf k0 k1 k2 k3 w h ces
    hw hh hc h0 h1 h2 h3
  constructor
  · intro hall
    rcases hv0 : ((alistGet ces k0).getD .null).pyNumVal with _ | x0 <;>
      rcases hv1 : ((alistGet ces k1).getD .null).pyNumVal with _ | y0 <;>
        rcases hv2 : ((alistGet ces k2).getD .null).pyNumVal with _ | x1 <;>
          rcases hv3 : ((alistGet ces k3).getD .null).pyNumVal with _ | y1 <;>
            rw [hred] <;> unfold coordBody <;> rw [hv0, hv1, hv2, hv3] <;>
              first
              | rfl
              | exact absurd
                  ⟨by rw [hv0]; rfl, by rw [hv1]; rfl, by rw [hv2]; rfl,
                    by rw [hv3]; rfl⟩ hall
  · intro x0 y0 x1 y1 hx0 hy0 hx1 hy1
    rw [hred]
    unfold coordBody
    rw [hx0, hy0, hx1, hy1]
    dsimp only
    by_cases hneg : x0 < 0 ∨ y0 < 0 ∨ x1 < 0 ∨ y1 < 0 <;>
      by_cases hbnd : x1 > w ∨ y1 > h <;>
        by_cases hlook : w ≤ 600 ∧ h ≤ 600 ∧ max x1 y1 ≥ 800 ∧ max x1 y1 ≤ 1200 <;>
          simp [hneg, hbnd, hlook]

/-- Witness for C8: the spec's Scenario E — a 512x512 image with
coordinates (50, 80, 900, 950) gets exactly one issue and its code is the
alternate-space E105 (512 ≤ 600 and max(900, 950) = 950 lies in
[800, 1200]). -/
theorem coord_check_four_codes_witness :
    (coordCheckRow
        (.obj [("image_w", .int 512), ("image_h", .int 512),
               ("coordinates", .obj [("x0", .int 50), ("y0", .int 80),
                                     ("x1", .int 900), ("y1", .int 950)])])
        0 "r0" "image_w" "image_h" "coordinates" "x0" "y0" "x1" "y1").map
      DatasetIssue.code = ["E105_coordinates_SPACE_MISMATCH"] :=
  ((coord_check_four_codes
      (.obj [("image_w", .int 512), ("image_h", .int 512),
             ("coordinates", .obj [("x0", .int 50), ("y0", .int 80),
                                   ("x1", .int 900), ("y1", .int 950)])])
      0 "r0" "image_w" "image_h" "coordinates" "x0" "y0" "x1" "y1"
      512 512 [("x0", .int 50), ("y0", .int 80), ("x1", .int 900), ("y1", .int 950)]
      rfl rfl rfl rfl rfl rfl rfl).2
    50 80 900 950 rfl rfl rfl rfl).trans (by decide)

/-- C10: the stricter coordinate check bounds-checks only the third and
fourth configured keys (`x1` against `image_w`, `y1` against `image_h`):
with numeric non-negative coordinates satisfying `x1 ≤ w` and `y1 ≤ h`
the check emits nothing at all — no constraint on `x0`/`y0` versus the
image bounds is imposed; and when any of the four values is missing or
null the coordinate check emits nothing. -/
theorem coord_check_only_x1_y1 :
    ∀ (row : Json) (i : Nat) (sid wf hf cf k0 k1 k2 k3 : String)
      (w h : Int) (ces : List (String × Json)),
      (row.getD wf).pyIntVal = some w →
      (row.getD hf).pyIntVal = some h →
      row.getD cf = .obj ces →
      ((((alistGet ces k0).getD .null).isNull = true ∨
        ((alistGet ces k1).getD .null).isNull = true ∨
        ((alistGet ces k2).getD .null).isNull = true ∨
        ((alistGet ces k3).getD .null).isNull = true) →
        coordCheckRow row i sid wf hf cf k0 k1 k2 k3 = []) ∧
      (∀ x0 y0 x1 y1 : Int,
        ((alistGet ces k0).getD .null).pyNumVal = some x0 →
        ((alistGet ces k1).getD .null).pyNumVal = some y0 →
        ((alistGet ces k2).getD .null).pyNumVal = some x1 →
        ((alistGet ces k3).getD .null).pyNumVal = some y1 →
        0 ≤ x0 → 0 ≤ y0 → 0 ≤ x1 → 0 ≤ y1 →
        x1 ≤ w → y1 ≤ h →
        coordCheckRow row i sid wf hf cf k0 k1 k2 k3 = []) := by
  intro row i sid wf hf cf k0 k1 k2 k3 w h ces hw hh hc
  constructor
  · intro hnull
    unfold coordCheckRow
    rw [hc]
    dsimp only
    rw [hw, hh]
    dsimp only
    have hcond : (((alistGet ces k0).getD .null).isNull ||
        ((alistGet ces k1).getD .null).isNull ||
        ((alistGet ces k2).getD .null).isNull ||
        ((alistGet ces k3).getD .null).isNull) = true := by
      rcases hnull with hx | hx | hx | hx <;> simp [hx]
    simp only [hcond, if_true]
  · intro x0 y0 x1 y1 hx0 hy0 hx1 hy1 hn0 hn1 hn2 hn3 hbx hby
    have hred := coordCheckRow_reduce row i sid wf hf cf k0 k1 k2 k3 w h ces
      hw hh hc
      (pyNumVal_isSome_not_null _ (by rw [hx0]; rfl))
      (pyNumVal_isSome_not_null _ (by rw [hy0]; rfl))
      (pyNumVal_isSome_not_null _ (by rw [hx1]; rfl))
      (pyNumVal_isSome_not_null _ (by rw [hy1]; rfl))
    rw [hred]
    unfold coordBody
    rw [hx0, hy0, hx1, hy1]
    dsimp only
    have hneg : ¬(x0 < 0 ∨ y0 < 0 ∨ x1 < 0 ∨ y1 < 0) := by omega
    have hbnd : ¬(x1 > w ∨ y1 > h) := by omega
    simp [hneg, hbnd]

/-- Witness for C10: a 512x512 image with coordinates (700, 80, 500, 400)
— x0 exceeding the width — produces no issue; and a row with a null y1
produces no issue. -/
theorem coord_check_only_x1_y1_witness :
    coordCheckRow
        (.obj [("image_w", .int 512), ("image_h", .int 512),
               ("coordinates", .obj [("x0", .int 700), ("y0", .int 80),
                                     ("x1", .int 500), ("y1", .int 400)])])
        0 "r0" "image_w" "image_h" "coordinates" "x0" "y0" "x1" "y1" = [] ∧
    coordCheckRow
        (.obj [("image_w", .int 512), ("image_h", .int 512),
               ("coordinates", .obj [("x0", .int 50), ("y0", .int 80),
                                     ("x1", .int 500), ("y1", .null)])])
        0 "r0" "image_w" "image_h" "coordinates" "x0" "y0" "x1" "y1" = [] :=
  ⟨(coord_check_only_x1_y1
      (.obj [("image_w", .int 512), ("image_h", .int 512),
             ("coordinates", .obj [("x0", .int 700), ("y0", .int 80),
                                   ("x1", .int 500), ("y1", .int 400)])])
      0 "r0" "image_w" "image_h" "coordinates" "x0" "y0" "x1" "y1"
      512 512 [("x0", .int 700), ("y0", .int 80), ("x1", .int 500), ("y1", .int 400)]
      rfl rfl rfl).2 700 80 500 400 rfl rfl rfl rfl
      (by decide) (by decide) (by decide) (by decide) (by decide) (by decide),
   (coord_check_only_x1_y1
      (.obj [("image_w", .int 512), ("image_h", .int 512),
             ("coordinates", .obj [("x0", .int 50), ("y0", .int 80),
                                   ("x1", .int 500), ("y1", .null)])])
      0 "r0" "image_w" "image_h" "coordinates" "x0" "y0" "x1" "y1"
      512 512 [("x0", .int 50), ("y0", .int 80), ("x1", .int 500), ("y1", .null)]
      rfl rfl rfl).1 (Or.inr (Or.inr (Or.inr rfl)))⟩


-- ---------------------------------------------------------------------
-- Dataset consistency checker (core.py check_dataset_on_disk)
-- ---------------------------------------------------------------------

/-- Function `core._walk_none`: the dotted/bracketed paths of all `None`
leaves of a row, in traversal order.  The Python recursion is unbounded;
`fuel` bounds the nesting depth and is always taken large enough for the
rows at hand. -/
def walkNone : Nat → Json → String → List String
  | 0, _, _ => []
  | fuel+1, j, pfx =>
    match j with
    | .null => [if pfx = "" then "$" else pfx]
    | .obj es =>
      (es.map (fun e =>
        walkNone fuel e.2 (if pfx = "" then e.1 else pfx ++ "." ++ e.1))).flatten
    | .arr xs =>
      (xs.enum.map (fun iv =>
        walkNone fuel iv.2 (pfx ++ "[" ++ toString iv.1 ++ "]"))).flatten
    | _ => []

/-- The image-column part of `core._get_size_from_row`: the first image
column whose value carries integral width/height.  A decoded in-memory
image (the PIL case, `hasattr(img, "size")`) is modelled by its
width/height mapping form; the image payloads are an external
collaborator. -/
def imageColsSize (row : Json) : List String → Option (Int × Int)
  | [] => none
  | c :: rest =>
    match row.getD c with
    | .obj es =>
      match (Json.obj es).getD "width" |>.pyIntVal, (Json.obj es).getD "height" |>.pyIntVal with
      | some w, some h => some (w, h)
      | _, _ => imageColsSize row rest
    | _ => imageColsSize row rest

/-- Function `core._get_size_from_row`: prefer explicit integral
width/height columns, else the first usable image column. -/
def get_size_from_row (row : Json) (image_cols : List String)
    (w_col h_col : Option String) : Option (Int × Int) :=
  match w_col, h_col with
  | some wc, some hc =>
    match (row.getD wc).pyIntVal, (row.getD hc).pyIntVal with
    | some w, some h => some (w, h)
    | _, _ => imageColsSize row image_cols
  | _, _ => imageColsSize row image_cols

/-- The `cur = row; for part in coord_field.split(".")` walk of
`core.check_dataset_on_disk`. -/
def walkField : Json → List String → Option Json
  | cur, [] => some cur
  | cur, p :: rest =>
    match cur with
    | .obj es =>
      match alistGet es p with
      | some v => walkField v rest
      | none => none
    | _ => none

/-- Python `k.lower().endswith(("x", "x0", "x1", "cx"))`. -/
def keyIsX (k : String) : Bool :=
  let lk := pyLower k
  lk.endsWith "x" || lk.endsWith "x0" || lk.endsWith "x1" || lk.endsWith "cx"

/-- Python `k.lower().endswith(("y", "y0", "y1", "cy"))`. -/
def keyIsY (k : String) : Bool :=
  let lk := pyLower k
  lk.endsWith "y" || lk.endsWith "y0" || lk.endsWith "y1" || lk.endsWith "cy"

/-- The optional coordinate sanity part of the per-row loop of
`core.check_dataset_on_disk` (lines 439-466). -/
def coreCoordIssues (row : Json) (row_no : Nat) (sid : String)
    (coord_field : String) (coord_keys : List String)
    (size : Option (Int × Int)) : List Issue :=
  match walkField row (coord_field.splitOn ".") with
  | none => []
  | some cur =>
    match cur with
    | .obj ces =>
      let vals := coord_keys.map (fun k => (alistGet ces k).getD .null)
      if vals.all (fun v => v.pyNumVal.isSome) then
        match size with
        | some (w, h) =>
          let bad := (coord_keys.zip vals).any (fun kv =>
            let v := kv.2.pyNumVal.getD 0
            (keyIsX kv.1 && (v < 0 || v > w)) || (keyIsY kv.1 && (v < 0 || v > h)))
          if bad then
            [mkIssue "WARN" "W301_COORD_OUT_OF_BOUNDS" row_no sid coord_field
              ("Coordinates out of bounds for image " ++ toString w ++ "x" ++
                toString h ++ ": " ++
                pyRepr (.obj (coord_keys.map (fun k => (k, (alistGet ces k).getD .null)))))]
          else []
        | none => []
      else []
    | _ => []

/-- Python truthiness of the optional `coord_field`/`coord_keys`
arguments (`if coord_field and coord_keys:`). -/
def truthyOptStr : Option String → Bool
  | some s => s ≠ ""
  | none => false

/-- Truthiness of an optional list argument. -/
def truthyOptList : Option (List String) → Bool
  | some l => ¬l.isEmpty
  | none => false

/-- The per-row body of the split loop of `core.check_dataset_on_disk`
(lines 417-466): the nested-None scan, the size resolution with the
per-row E201/W202 issues, and the optional coordinate check.  Returns
the row's issues and its resolved size. -/
def dsRowIssues (row : Json) (row_no : Nat) (split_name : String)
    (image_cols : List String) (w_col h_col : Option String)
    (expect_size : Option (Int × Int)) (coord_field : Option String)
    (coord_keys : Option (List String)) (fuel : Nat) :
    List Issue × Option (Int × Int) :=
  let sid := pyStr ((row.get? "id").getD (.str (split_name ++ ":" ++ toString row_no)))
  let noneIssues := (walkNone fuel row "").map (fun p =>
    mkIssue "ERROR" "E102_DATASET_NONE_VALUE" row_no sid p
      (p ++ " is None (often happens when missing nested key gets filled as None after cast/save)."))
  let size := get_size_from_row row image_cols w_col h_col
  let sizeIssues :=
    match size with
    | some sz =>
      match expect_size with
      | some ex =>
        if sz ≠ ex then
          [mkIssue "ERROR" "E201_IMAGE_SIZE_MISMATCH" row_no sid "image"
            ("Image size " ++ toString sz.1 ++ "x" ++ toString sz.2 ++
              " != expected " ++ toString ex.1 ++ "x" ++ toString ex.2 ++ ".")]
        else []
      | none => []
    | none =>
      [mkIssue "WARN" "W202_IMAGE_SIZE_UNKNOWN" row_no sid "image"
        "Cannot determine image size (no Image column and no width/height columns)."]
  let coordIssues :=
    if truthyOptStr coord_field && truthyOptList coord_keys then
      coreCoordIssues row row_no sid (coord_field.getD "") (coord_keys.getD []) size
    else []
  (noneIssues ++ sizeIssues ++ coordIssues, size)

/-- Python `seen_sizes[size] = seen_sizes.get(size, 0) + 1` on a dict in
insertion order. -/
def tallyAdd : List ((Int × Int) × Nat) → (Int × Int) → List ((Int × Int) × Nat)
  | [], sz => [(sz, 1)]
  | (k, c) :: rest, sz =>
    if k = sz then (k, c + 1) :: rest else (k, c) :: tallyAdd rest sz

/-- The `for idx, row in enumerate(ds)` loop: accumulate the per-row
issues in order together with the size tally. -/
def splitRows (image_cols : List String) (w_col h_col : Option String)
    (expect_size : Option (Int × Int)) (coord_field : Option String)
    (coord_keys : Option (List String)) (fuel : Nat) (split_name : String) :
    List Json → Nat → List ((Int × Int) × Nat) →
      List Issue × List ((Int × Int) × Nat)
  | [], _, seen => ([], seen)
  | row :: rest, idx, seen =>
    let ri := dsRowIssues row (idx + 1) split_name image_cols w_col h_col
      expect_size coord_field coord_keys fuel
    let seen1 := match ri.2 with
      | some sz => tallyAdd seen sz
      | none => seen
    let next := splitRows image_cols w_col h_col expect_size coord_field
      coord_keys fuel split_name rest (idx + 1) seen1
    (ri.1 ++ next.1, next.2)

/-- Stable insertion into a list sorted by descending count: the new
element goes before the first element whose count is not larger, so
earlier elements win ties. -/
def insertDesc (x : (Int × Int) × Nat) :
    List ((Int × Int) × Nat) → List ((Int × Int) × Nat)
  | [] => [x]
  | y :: ys => if y.2 > x.2 then y :: insertDesc x ys else x :: y :: ys

/-- Stable sort by descending count, modelling Python
`sorted(seen_sizes.items(), key=lambda kv: kv[1], reverse=True)` (Python's
sort is stable; a stable descending sort of a given list is unique, so
insertion sort yields the same list). -/
def sortDesc : List ((Int × Int) × Nat) → List ((Int × Int) × Nat)
  | [] => []
  | x :: xs => insertDesc x (sortDesc xs)

/-- The after-split part of `core.check_dataset_on_disk` (lines 469-479):
under policy `consistent`, more than one tallied size yields the one
aggregated W201 warning listing the five most frequent sizes with counts,
an empty tally yields the one split-level W202 warning, and exactly one
size yields nothing. -/
def splitSizeIssues (size_policy : String) (split_name : String)
    (seen : List ((Int × Int) × Nat)) : List Issue :=
  if pyLower (if size_policy = "" then "any" else size_policy) = "consistent" then
    if seen.length > 1 then
      let top := (sortDesc seen).take 5
      [mkIssue "WARN" "W201_IMAGE_SIZE_INCONSISTENT" 1 split_name "image"
        ("Inconsistent image sizes in split " ++ split_name ++ ": " ++
          String.intercalate ", " (top.map (fun kv =>
            toString kv.1.1 ++ "x" ++ toString kv.1.2 ++ " (" ++ toString kv.2 ++ ")")))]
    else if seen.length = 0 then
      [mkIssue "WARN" "W202_IMAGE_SIZE_UNKNOWN" 1 split_name "image"
        "Cannot determine image sizes for this split."]
    else []
  else []

/-- One split of `core.check_dataset_on_disk`: features are modelled as
the column names with a flag for image-typed columns (`_find_image_columns`
keeps those whose feature class is named Image); the loading of the
dataset from disk and the split iteration are the external collaborator. -/
def checkSplit (split_name : String) (features : List (String × Bool))
    (rows : List Json) (expect_size : Option (Int × Int)) (size_policy : String)
    (coord_field : Option String) (coord_keys : Option (List String))
    (fuel : Nat) : List Issue :=
  let image_cols := (features.filter (fun f => f.2)).map (fun f => f.1)
  let w_col := if (alistGet features "image_w").isSome then some "image_w"
    else if (alistGet features "width").isSome then some "width" else none
  let h_col := if (alistGet features "image_h").isSome then some "image_h"
    else if (alistGet features "height").isSome then some "height" else none
  let res := splitRows image_cols w_col h_col expect_size coord_field
    coord_keys fuel split_name rows 0 []
  res.1 ++ splitSizeIssues size_policy split_name res.2

/-- The issues the after-split size-policy step can emit: the aggregated
W201 warning, or the split-level W202 warning (distinguished from the
per-row W202 by its message). -/
def isSplitSizeIssue (i : Issue) : Bool :=
  i.code = "W201_IMAGE_SIZE_INCONSISTENT" ||
    (i.code = "W202_IMAGE_SIZE_UNKNOWN" &&
      i.message = "Cannot determine image sizes for this split.")


lemma coreCoordIssues_code (row : Json) (row_no : Nat) (sid cfld : String)
    (cks : List String) (size : Option (Int × Int)) (issue : Issue)
    (h : issue ∈ coreCoordIssues row row_no sid cfld cks size) :
    issue.code = "W301_COORD_OUT_OF_BOUNDS" := by
  unfold coreCoordIssues at h
  repeat' first
    | (exact absurd h (List.not_mem_nil issue))
    | (rw [List.mem_singleton.mp h]; rfl)
    | (dsimp only at h)
    | (split at h)

lemma dsRowIssues_no_split_issue (row : Json) (row_no : Nat) (sn : String)
    (ic : List String) (wc hc : Option String) (ex : Option (Int × Int))
    (cf : Option String) (ck : Option (List String)) (fuel : Nat) (issue : Issue)
    (h : issue ∈ (dsRowIssues row row_no sn ic wc hc ex cf ck fuel).1) :
    isSplitSizeIssue issue = false := by
  unfold dsRowIssues at h
  dsimp only at h
  rw [List.mem_append, List.mem_append] at h
  rcases h with (h | h) | h
  · rcases List.mem_map.mp h with ⟨p, _, rfl⟩
    rfl
  · rcases hs : get_size_from_row row ic wc hc with _ | sz <;>
      rw [hs] at h <;> dsimp only at h
    · rw [List.mem_singleton.mp h]; rfl
    · rcases ex with _ | exv
      · exact absurd h (List.not_mem_nil issue)
      · dsimp only at h
        by_cases hne : sz ≠ exv
        · rw [if_pos hne] at h
          rw [List.mem_singleton.mp h]; rfl
        · rw [if_neg hne] at h
          exact absurd h (List.not_mem_nil issue)
  · rcases htr : (truthyOptStr cf && truthyOptList ck) with _ | _ <;>
      rw [htr] at h
    · exact absurd h (List.not_mem_nil issue)
    · rw [if_pos rfl] at h
      have := coreCoordIssues_code row row_no
        (pyStr ((row.get? "id").getD (.str (sn ++ ":" ++ toString row_no))))
        (cf.getD "") (ck.getD []) (get_size_from_row row ic wc hc) issue h
      simp [isSplitSizeIssue, this]

lemma splitRows_no_split_issue (ic : List String) (wc hc : Option String)
    (ex : Option (Int × Int)) (cf : Option String) (ck : Option (List String))
    (fuel : Nat) (sn : String) :
    ∀ (rows : List Json) (idx : Nat) (seen : List ((Int × Int) × Nat)),
      ∀ issue ∈ (splitRows ic wc hc ex cf ck fuel sn rows idx seen).1,
        isSplitSizeIssue issue = false := by
  intro rows
  induction rows with
  | nil => intro idx seen issue h; exact absurd h (List.not_mem_nil issue)
  | cons row rest ih =>
    intro idx seen issue h
    unfold splitRows at h
    dsimp only at h
    rw [List.mem_append] at h
    rcases h with h | h
    · exact dsRowIssues_no_split_issue row (idx + 1) sn ic wc hc ex cf ck fuel issue h
    · exact ih (idx + 1) _ issue h

lemma insertDesc_perm (x : (Int × Int) × Nat) (l : List ((Int × Int) × Nat)) :
    List.Perm (insertDesc x l) (x :: l) := by
  induction l with
  | nil => exact List.Perm.refl _
  | cons y ys ih =>
    unfold insertDesc
    by_cases hy : y.2 > x.2
    · rw [if_pos hy]
      exact (ih.cons y).trans (List.Perm.swap x y ys)
    · rw [if_neg hy]

lemma sortDesc_perm (l : List ((Int × Int) × Nat)) : List.Perm (sortDesc l) l := by
  induction l with
  | nil => exact List.Perm.refl _
  | cons x xs ih => exact (insertDesc_perm x (sortDesc xs)).trans (ih.cons x)

lemma insertDesc_sorted (x : (Int × Int) × Nat) (l : List ((Int × Int) × Nat))
    (h : l.Sorted (fun a b => b.2 ≤ a.2)) :
    (insertDesc x l).Sorted (fun a b => b.2 ≤ a.2) := by
  induction l with
  | nil => simp [insertDesc]
  | cons y ys ih =>
    rw [List.sorted_cons] at h
    unfold insertDesc
    by_cases hy : y.2 > x.2
    · rw [if_pos hy]
      rw [List.sorted_cons]
      constructor
      · intro b hb
        rcases List.mem_cons.mp ((insertDesc_perm x ys).mem_iff.mp hb) with rfl | hmem
        · omega
        · exact h.1 b hmem
      · exact ih h.2
    · rw [if_neg hy]
      rw [List.sorted_cons]
      constructor
      · intro b hb
        rcases List.mem_cons.mp hb with rfl | hmem
        · omega
        · have := h.1 b hmem
          omega
      · rw [List.sorted_cons]
        exact h

lemma sortDesc_sorted (l : List ((Int × Int) × Nat)) :
    (sortDesc l).Sorted (fun a b => b.2 ≤ a.2) := by
  induction l with
  | nil => simp [sortDesc]
  | cons x xs ih => exact insertDesc_sorted x (sortDesc xs) ih

/-- C7: under size policy `consistent`, after iterating a split the
checker emits exactly one aggregated W201 warning when more than one
distinct size was tallied — its message listing the (at most) five most
frequent sizes, each with its count, read off a stable
descending-by-count ordering of the tally — exactly one split-level
size-unknown W202 warning when no size was resolved, and no split-level
size issue when exactly one distinct size was resolved; the per-row
issues never contribute a split-level size issue. -/
theorem consistent_policy_split_issue :
    ∀ (split_name : String) (features : List (String × Bool)) (rows : List Json)
      (expect_size : Option (Int × Int)) (coord_field : Option String)
      (coord_keys : Option (List String)) (fuel : Nat)
      (image_cols : List String) (w_col h_col : Option String)
      (seen : List ((Int × Int) × Nat)) (out : List Issue),
      image_cols = (features.filter (fun f => f.2)).map (fun f => f.1) →
      w_col = (if (alistGet features "image_w").isSome then some "image_w"
        else if (alistGet features "width").isSome then some "width" else none) →
      h_col = (if (alistGet features "image_h").isSome then some "image_h"
        else if (alistGet features "height").isSome then some "height" else none) →
      seen = (splitRows image_cols w_col h_col expect_size coord_field
        coord_keys fuel split_name rows 0 []).2 →
      out = checkSplit split_name features rows expect_size "consistent"
        coord_field coord_keys fuel →
      (1 < seen.length →
        out.filter isSplitSizeIssue =
          [mkIssue "WARN" "W201_IMAGE_SIZE_INCONSISTENT" 1 split_name "image"
            ("Inconsistent image sizes in split " ++ split_name ++ ": " ++
              String.intercalate ", " (((sortDesc seen).take 5).map (fun kv =>
                toString kv.1.1 ++ "x" ++ toString kv.1.2 ++ " (" ++
                  toString kv.2 ++ ")")))]) ∧
      (seen.length = 0 →
        out.filter isSplitSizeIssue =
          [mkIssue "WARN" "W202_IMAGE_SIZE_UNKNOWN" 1 split_name "image"
            "Cannot determine image sizes for this split."]) ∧
      (seen.length = 1 → out.filter isSplitSizeIssue = []) ∧
      (sortDesc seen).Sorted (fun a b => b.2 ≤ a.2) ∧
      List.Perm (sortDesc seen) seen := by
  intro sn features rows ex cf ck fuel ic wc hc seen out hic hwc hhc hseen hout
  have hrows : (splitRows ic wc hc ex cf ck fuel sn rows 0 []).1.filter
      isSplitSizeIssue = [] := by
    rw [List.filter_eq_nil_iff]
    intro a ha
    rw [splitRows_no_split_issue ic wc hc ex cf ck fuel sn rows 0 [] a ha]
    exact Bool.false_ne_true
  have houtsplit : out = (splitRows ic wc hc ex cf ck fuel sn rows 0 []).1 ++
      splitSizeIssues "consistent" sn seen := by
    rw [hout]
    unfold checkSplit
    rw [← hic, ← hwc, ← hhc]
    dsimp only
    rw [← hseen]
  have hpol : pyLower (if ("consistent" : String) = "" then "any" else "consistent") =
      "consistent" := by decide
  have hfilter : out.filter isSplitSizeIssue =
      (splitSizeIssues "consistent" sn seen).filter isSplitSizeIssue := by
    rw [houtsplit, List.filter_append, hrows, List.nil_append]
  refine ⟨?_, ?_, ?_, sortDesc_sorted seen, sortDesc_perm seen⟩
  · intro hgt
    rw [hfilter]
    unfold splitSizeIssues
    rw [hpol, if_pos rfl, if_pos hgt]
    rfl
  · intro hz
    rw [hfilter]
    unfold splitSizeIssues
    rw [hpol, if_pos rfl, if_neg (by omega), if_pos hz]
    rfl
  · intro h1
    rw [hfilter]
    unfold splitSizeIssues
    rw [hpol, if_pos rfl, if_neg (by omega), if_neg (by omega)]
    rfl

/-- Witness for C7: the spec's Scenario F — a split of nine 512x512 rows
and one 640x480 row under policy `consistent` yields exactly one
aggregated W201 issue naming both sizes with their counts. -/
theorem consistent_policy_split_issue_witness :
    (checkSplit "train"
        [("image_w", false), ("image_h", false)]
        [.obj [("image_w", .int 512), ("image_h", .int 512)],
         .obj [("image_w", .int 512), ("image_h", .int 512)],
         .obj [("image_w", .int 512), ("image_h", .int 512)],
         .obj [("image_w", .int 512), ("image_h", .int 512)],
         .obj [("image_w", .int 512), ("image_h", .int 512)],
         .obj [("image_w", .int 512), ("image_h", .int 512)],
         .obj [("image_w", .int 512), ("image_h", .int 512)],
         .obj [("image_w", .int 512), ("image_h", .int 512)],
         .obj [("image_w", .int 512), ("image_h", .int 512)],
         .obj [("image_w", .int 640), ("image_h", .int 480)]]
        none "consistent" none none 3).filter isSplitSizeIssue =
      [mkIssue "WARN" "W201_IMAGE_SIZE_INCONSISTENT" 1 "train" "image"
        "Inconsistent image sizes in split train: 512x512 (9), 640x480 (1)"] :=
  ((consistent_policy_split_issue "train"
      [("image_w", false), ("image_h", false)]
      [.obj [("image_w", .int 512), ("image_h", .int 512)],
       .obj [("image_w", .int 512), ("image_h", .int 512)],
       .obj [("image_w", .int 512), ("image_h", .int 512)],
       .obj [("image_w", .int 512), ("image_h", .int 512)],
       .obj [("image_w", .int 512), ("image_h", .int 512)],
       .obj [("image_w", .int 512), ("image_h", .int 512)],
       .obj [("image_w", .int 512), ("image_h", .int 512)],
       .obj [("image_w", .int 512), ("image_h", .int 512)],
       .obj [("image_w", .int 512), ("image_h", .int 512)],
       .obj [("image_w", .int 640), ("image_h", .int 480)]]
      none none none 3 [] (some "image_w") (some "image_h") _ _
      rfl rfl rfl rfl rfl).1 (by decide)).trans (by decide)

-- ---------------------------------------------------------------------
-- Model of the external json library (json.loads / json.dumps)
-- ---------------------------------------------------------------------

/-- Hex digit character (lowercase) for `\uXXXX` escapes. -/
def hexDigitChar (n : Nat) : Char :=
  if n < 10 then Char.ofNat ('0'.toNat + n) else Char.ofNat ('a'.toNat + (n - 10))

/-- The escape `json.dumps` (with `ensure_ascii=False`) applies to one
string character. -/
def escapeChar (c : Char) : List Char :=
  if c = '"' then ['\\', '"']
  else if c = '\\' then ['\\', '\\']
  else if c = '\n' then ['\\', 'n']
  else if c = '\r' then ['\\', 'r']
  else if c = '\t' then ['\\', 't']
  else if c = '\x08' then ['\\', 'b']
  else if c = '\x0c' then ['\\', 'f']
  else if c.toNat < 0x20 then
    ['\\', 'u', '0', '0', hexDigitChar (c.toNat / 16), hexDigitChar (c.toNat % 16)]
  else [c]

/-- The serialized body of a JSON string. -/
def escapeString (s : List Char) : List Char := (s.map escapeChar).flatten

/-- Decimal digits of a natural number, most significant first.  The
fuel argument only drives structural recursion; `n + 1` always
suffices. -/
def natDigitsAux : Nat → Nat → List Char → List Char
  | 0, _, acc => acc
  | fuel+1, n, acc =>
    let d := Char.ofNat ('0'.toNat + n % 10)
    if n < 10 then d :: acc else natDigitsAux fuel (n / 10) (d :: acc)

/-- Python `str(n)` for a natural number. -/
def natToChars (n : Nat) : List Char := natDigitsAux (n + 1) n []

/-- Python `str(n)` for an integer. -/
def intToChars (n : Int) : List Char :=
  if n < 0 then '-' :: natToChars n.natAbs else natToChars n.toNat

/-- Join serialized items with the default `json.dumps` item separator
`", "`. -/
def joinComma : List (List Char) → List Char
  | [] => []
  | [x] => x
  | x :: y :: xs => x ++ ',' :: ' ' :: joinComma (y :: xs)

/-- Model of `json.dumps(obj, ensure_ascii=False)` with the default
separators `", "` and `": "`.  The fuel bounds the nesting depth (the
Python recursion is unbounded); every call site passes a fuel larger
than the depth of the value at hand. -/
def dumpFuel : Nat → Json → List Char
  | 0, _ => []
  | fuel+1, j =>
    match j with
    | .null => "null".data
    | .bool true => "true".data
    | .bool false => "false".data
    | .int n => intToChars n
    | .str s => '"' :: escapeString s.data ++ ['"']
    | .arr xs => '[' :: joinComma (xs.map (dumpFuel fuel)) ++ [']']
    | .obj es =>
      '\x7b' :: joinComma (es.map (fun e =>
        '"' :: escapeString e.1.data ++ '"' :: ':' :: ' ' :: dumpFuel fuel e.2)) ++
        ['\x7d']

/-- JSON whitespace (the characters `json.loads` skips between tokens). -/
def jsonWs (c : Char) : Bool := c = ' ' || c = '\t' || c = '\n' || c = '\r'

/-- Drop leading JSON whitespace. -/
def skipWs : List Char → List Char
  | [] => []
  | c :: cs => if jsonWs c then skipWs cs else c :: cs

/-- Value of one hex digit. -/
def hexVal (c : Char) : Option Nat :=
  if '0' ≤ c ∧ c ≤ '9' then some (c.toNat - '0'.toNat)
  else if 'a' ≤ c ∧ c ≤ 'f' then some (c.toNat - 'a'.toNat + 10)
  else if 'A' ≤ c ∧ c ≤ 'F' then some (c.toNat - 'A'.toNat + 10)
  else none

/-- The body of a JSON string: characters up to the closing quote, with
the standard escapes. -/
def parseStrChars : List Char → List Char → Option (List Char × List Char)
  | [], _ => none
  | c :: cs, acc =>
    if c = '"' then some (acc.reverse, cs)
    else if c = '\\' then
      match cs with
      | [] => none
      | e :: cs2 =>
        if e = '"' then parseStrChars cs2 ('"' :: acc)
        else if e = '\\' then parseStrChars cs2 ('\\' :: acc)
        else if e = '/' then parseStrChars cs2 ('/' :: acc)
        else if e = 'n' then parseStrChars cs2 ('\n' :: acc)
        else if e = 't' then parseStrChars cs2 ('\t' :: acc)
        else if e = 'r' then parseStrChars cs2 ('\r' :: acc)
        else if e = 'b' then parseStrChars cs2 ('\x08' :: acc)
        else if e = 'f' then parseStrChars cs2 ('\x0c' :: acc)
        else if e = 'u' then
          match cs2 with
          | h1 :: h2 :: h3 :: h4 :: cs3 =>
            match hexVal h1, hexVal h2, hexVal h3, hexVal h4 with
            | some a, some b, some c3, some d =>
              parseStrChars cs3 (Char.ofNat (((a * 16 + b) * 16 + c3) * 16 + d) :: acc)
            | _, _, _, _ => none
          | _ => none
        else none
    else parseStrChars cs (c :: acc)

/-- The longest leading run of decimal digits. -/
def takeDigits : List Char → List Char × List Char
  | [] => ([], [])
  | c :: cs =>
    if c.isDigit then
      let r := takeDigits cs
      (c :: r.1, r.2)
    else ([], c :: cs)

/-- The value of a digit string. -/
def digitsToNat (ds : List Char) : Nat :=
  ds.foldl (fun acc c => acc * 10 + (c.toNat - '0'.toNat)) 0

/-- One or more decimal digits and their value. -/
def parseDigits (cs : List Char) : Option (Nat × List Char) :=
  let r := takeDigits cs
  if r.1.isEmpty then none else some (digitsToNat r.1, r.2)

/-- Parser continuations: a value, the rest of an array after an
element, or the members of an object. -/
inductive PTask where
  | value
  | arrRest (acc : List Json)
  | objRest (acc : List (String × Json))

/-- Whether a character list begins with the given character. -/
def headEq (cs : List Char) (c : Char) : Bool :=
  match cs with
  | [] => false
  | h :: _ => h = c

/-- Model of the `json.loads` grammar (numbers restricted to integers,
see the file comment).  The fuel only drives structural recursion: every
recursive call strictly consumes input, so `length + 1` always
suffices. -/
def parseF : Nat → PTask → List Char → Option (Json × List Char)
  | 0, _, _ => none
  | fuel+1, task, cs =>
    match task with
    | .value =>
      match skipWs cs with
      | [] => none
      | c :: rest =>
        if c = '"' then
          match parseStrChars rest [] with
          | some (chars, rest2) => some (.str ⟨chars⟩, rest2)
          | none => none
        else if c = '[' then
          let rest1 := skipWs rest
          if headEq rest1 ']' then some (.arr [], rest1.tail)
          else
            match parseF fuel .value rest1 with
            | some (v, rest2) => parseF fuel (.arrRest [v]) rest2
            | none => none
        else if c = '\x7b' then
          let rest1 := skipWs rest
          if headEq rest1 '\x7d' then some (.obj [], rest1.tail)
          else parseF fuel (.objRest []) rest1
        else if c = 'n' then
          match rest with
          | 'u' :: 'l' :: 'l' :: r => some (.null, r)
          | _ => none
        else if c = 't' then
          match rest with
          | 'r' :: 'u' :: 'e' :: r => some (.bool true, r)
          | _ => none
        else if c = 'f' then
          match rest with
          | 'a' :: 'l' :: 's' :: 'e' :: r => some (.bool false, r)
          | _ => none
        else if c = '-' then
          match parseDigits rest with
          | some (n, r) => some (.int (-(n : Int)), r)
          | none => none
        else if c.isDigit then
          match parseDigits (c :: rest) with
          | some (n, r) => some (.int (n : Int), r)
          | none => none
        else none
    | .arrRest acc =>
      let cs1 := skipWs cs
      if headEq cs1 ']' then some (.arr acc, cs1.tail)
      else if headEq cs1 ',' then
        match parseF fuel .value cs1.tail with
        | some (v, r2) => parseF fuel (.arrRest (acc ++ [v])) r2
        | none => none
      else none
    | .objRest acc =>
      let cs1 := skipWs cs
      if headEq cs1 '"' then
        match parseStrChars cs1.tail [] with
        | some (kchars, r2) =>
          let cs2 := skipWs r2
          if headEq cs2 ':' then
            match parseF fuel .value cs2.tail with
            | some (v, r4) =>
              let cs3 := skipWs r4
              if headEq cs3 '\x7d' then some (.obj (alistSet acc ⟨kchars⟩ v), cs3.tail)
              else if headEq cs3 ',' then
                parseF fuel (.objRest (alistSet acc ⟨kchars⟩ v)) cs3.tail
              else none
            | none => none
          else none
        | none => none
      else none

/-- Model of `json.loads` on a character list: parse one value and
require only whitespace after it. -/
def pyLoadsChars (cs : List Char) : Option Json :=
  match parseF (cs.length + 1) .value cs with
  | some (v, rest) => if (skipWs rest).isEmpty then some v else none
  | none => none

/-- Model of `json.loads`. -/
def pyLoads (s : String) : Option Json := pyLoadsChars s.data

-- ---------------------------------------------------------------------
-- Safe-fix transform (core.py fix_jsonl)
-- ---------------------------------------------------------------------

/-- An uncaught Python exception. -/
inductive PyErr where
  | typeError (msg : String)
  | attributeError (msg : String)
  | otherError (msg : String)
deriving Repr, DecidableEq

/-- The strict-typed item rewrite of `core.fix_jsonl`: a mapping with a
`text` key but no `type` key gains `type: "text"` (the flag records that
the rewrite fired, for the INFO issue). -/
def fix_item (it : Json) : Json × Bool :=
  if it.isObj && !it.hasKey "type" && it.hasKey "text" then
    (it.set "type" (.str "text"), true)
  else (it, false)

/-- The per-message body of `core.fix_jsonl`: the `usr` → `user` role
rewrite, then (under strict-typed) the per-item `type: "text"` rewrite. -/
def fix_message (strict_typed : Bool) (line_no : Nat) (sample_id : String)
    (m : Json) : Json × List Issue :=
  let r1 :=
    if (m.getD "role").eqStr "usr" then
      (m.set "role" (.str "user"),
       [mkIssue "INFO" "I901_FIX_ROLE_USR" line_no sample_id "messages[].role"
         "Fixed role 'usr' -> 'user'."])
    else (m, [])
  if strict_typed && (r1.1.getD "content").isList then
    let results := (r1.1.getD "content").toList.map fix_item
    (r1.1.set "content" (.arr (results.map Prod.fst)),
     r1.2 ++ results.filterMap (fun r =>
       if r.2 then
         some (mkIssue "INFO" "I902_FIX_ADD_TYPE_TEXT" line_no sample_id
           "messages[].content[].type"
           "Added missing type='text' for item with 'text' field.")
       else none))
  else r1

/-- The `for m in msgs` loop of `core.fix_jsonl` (non-mapping messages
pass through untouched). -/
def fix_msgs (strict_typed : Bool) (line_no : Nat) (sample_id : String) :
    List Json → List Json × List Issue
  | [] => ([], [])
  | m :: rest =>
    let r1 := if m.isObj then fix_message strict_typed line_no sample_id m
      else (m, [])
    let r2 := fix_msgs strict_typed line_no sample_id rest
    (r1.1 :: r2.1, r1.2 ++ r2.2)

/-- The per-record body of `core.fix_jsonl`: when `messages` is a list,
rewrite its messages in place. -/
def fix_obj (strict_typed : Bool) (line_no : Nat) (obj : Json) :
    Json × List Issue :=
  let sample_id := pyStr ((obj.get? "id").getD (.str ("line_" ++ toString line_no)))
  let msgs := obj.getD "messages"
  if msgs.isList then
    let r := fix_msgs strict_typed line_no sample_id msgs.toList
    (obj.set "messages" (.arr r.1), r.2)
  else (obj, [])

/-- Python `line.rstrip("\n")`. -/
def rstripNl (s : List Char) : List Char :=
  ((s.reverse.dropWhile (fun c => c = '\n')).reverse)

/-- One line of `core.fix_jsonl` (lines 221-246).  A blank line is
skipped silently, an unparsable line is skipped with one E004 issue (the
exception detail in its message is opaque and modelled by a fixed
placeholder), and a parsed record is rewritten and re-serialized with
`json.dumps`; `obj.get(...)` on a parsed non-mapping raises
AttributeError, which nothing catches.  `none` in the first component
means no output line is written for this input line.  The serializer
fuel `length + 1` bounds the nesting depth of any value parsed from the
line, and the fixes do not deepen the record. -/
def fix_line (strict_typed : Bool) (line_no : Nat) (line : String) :
    Except PyErr (Option String × List Issue) :=
  let raw := rstripNl line.data
  if raw.all charIsSpace then .ok (none, [])
  else
    match pyLoadsChars raw with
    | none =>
      .ok (none, [mkIssue "ERROR" "E004_BAD_JSON" line_no
        ("line_" ++ toString line_no) "$" "Invalid JSON: <parse error>"])
    | some obj =>
      if obj.isObj then
        let r := fix_obj strict_typed line_no obj
        .ok (some ⟨dumpFuel (raw.length + 1) r.1⟩, r.2)
      else .error (.attributeError "no attribute get")

/-- The line loop of `core.fix_jsonl`: 1-based line numbers, output
lines in order, an uncaught exception aborting the whole call. -/
def fixLines (strict_typed : Bool) :
    List String → Nat → Except PyErr (List String × List Issue)
  | [], _ => .ok ([], [])
  | l :: rest, line_no =>
    match fix_line strict_typed line_no l with
    | .error e => .error e
    | .ok r =>
      match fixLines strict_typed rest (line_no + 1) with
      | .error e => .error e
      | .ok r2 => .ok (r.1.toList ++ r2.1, r.2 ++ r2.2)

/-- Function `core.fix_jsonl` over the input lines (file handling is the
external collaborator; each line is given without its trailing
newline). -/
def fix_jsonl (strict_typed : Bool) (lines : List String) :
    Except PyErr (List String × List Issue) :=
  fixLines strict_typed lines 1

/-- C9: the Safe-Fix Transform drops unusable lines rather than passing
them through: a blank (all-whitespace) line yields no output line and no
issue; a non-blank line that fails to parse yields no output line and
exactly one E004_BAD_JSON issue with synthetic sample id `line_<n>` at
path `$`; and over a whole file the number of output lines is exactly
the number of lines that are neither blank nor unparsable. -/
theorem fix_drops_blank_and_malformed :
    (∀ (strict : Bool) (line_no : Nat) (line : String),
      (rstripNl line.data).all charIsSpace = true →
      fix_line strict line_no line = .ok (none, [])) ∧
    (∀ (strict : Bool) (line_no : Nat) (line : String),
      (rstripNl line.data).all charIsSpace = false →
      pyLoadsChars (rstripNl line.data) = none →
      fix_line strict line_no line = .ok (none,
        [mkIssue "ERROR" "E004_BAD_JSON" line_no ("line_" ++ toString line_no)
          "$" "Invalid JSON: <parse error>"])) ∧
    (∀ (strict : Bool) (lines : List String) (outs : List String)
      (iss : List Issue),
      fix_jsonl strict lines = .ok (outs, iss) →
      outs.length = (lines.filter (fun l =>
        !(rstripNl l.data).all charIsSpace &&
          (pyLoadsChars (rstripNl l.data)).isSome)).length) := by
  refine ⟨?_, ?_, ?_⟩
  · intro strict line_no line hblank
    unfold fix_line
    rw [if_pos hblank]
  · intro strict line_no line hblank hparse
    unfold fix_line
    rw [if_neg (by rw [hblank]; exact Bool.false_ne_true), hparse]
  · intro strict lines
    have main : ∀ (ls : List String) (n : Nat) (outs : List String)
        (iss : List Issue), fixLines strict ls n = .ok (outs, iss) →
        outs.length = (ls.filter (fun l =>
          !(rstripNl l.data).all charIsSpace &&
            (pyLoadsChars (rstripNl l.data)).isSome)).length := by
      intro ls
      induction ls with
      | nil =>
        intro n outs iss h
        unfold fixLines at h
        simp only [Except.ok.injEq, Prod.mk.injEq] at h
        rw [← h.1]
        rfl
      | cons l rest ih =>
        intro n outs iss h
        unfold fixLines at h
        rcases hl : fix_line strict n l with e | r
        · rw [hl] at h; cases h
        · rw [hl] at h
          rcases hr : fixLines strict rest (n + 1) with e | r2
          · rw [hr] at h; cases h
          · rw [hr] at h
            simp only [Except.ok.injEq, Prod.mk.injEq] at h
            have hlen := ih (n + 1) r2.1 r2.2 (by rw [hr])
            by_cases hblank : (rstripNl l.data).all charIsSpace = true
            · have hre : r = (none, []) := by
                unfold fix_line at hl
                rw [if_pos hblank] at hl
                exact (Except.ok.inj hl).symm
              rw [← h.1, List.filter_cons]
              simp only [hblank, Bool.not_true, Bool.false_and]
              rw [hre]
              simpa using hlen
            · rw [← h.1, List.filter_cons]
              have hbf : (rstripNl l.data).all charIsSpace = false :=
                Bool.eq_false_iff.mpr hblank
              rcases hp : pyLoadsChars (rstripNl l.data) with _ | obj
              · have hre : r = (none,
                    [mkIssue "ERROR" "E004_BAD_JSON" n ("line_" ++ toString n)
                      "$" "Invalid JSON: <parse error>"]) := by
                  unfold fix_line at hl
                  rw [if_neg (by rw [hbf]; exact Bool.false_ne_true), hp] at hl
                  exact (Except.ok.inj hl).symm
                simp only [hbf, hp, Option.isSome_none, Bool.not_false,
                  Bool.and_false]
                rw [hre]
                simpa using hlen
              · have hl2 : fix_line strict n l =
                    (if obj.isObj = true then
                      Except.ok (some ⟨dumpFuel ((rstripNl l.data).length + 1)
                          (fix_obj strict n obj).1⟩, (fix_obj strict n obj).2)
                    else .error (.attributeError "no attribute get")) := by
                  unfold fix_line
                  rw [if_neg (by rw [hbf]; exact Bool.false_ne_true), hp]
                rw [hl2] at hl
                by_cases hobj : obj.isObj = true
                · rw [if_pos hobj] at hl
                  have hre := (Except.ok.inj hl).symm
                  rw [hre]
                  simp only [hbf, hp, Option.isSome_some, Bool.not_false,
                    Bool.and_true, Option.toList_some, List.singleton_append,
                    List.length_cons, if_true]
                  omega
                · rw [if_neg hobj] at hl
                  cases hl
    intro outs iss h
    exact main lines 1 outs iss h

/-- Witness for C9: a blank line yields nothing; the malformed line
`{oops` yields exactly the one E004 issue with id `line_2`; and on a
three-line file (blank, malformed, `{}`) exactly one output line is
written. -/
theorem fix_drops_blank_and_malformed_witness :
    fix_line false 1 "   " = .ok (none, []) ∧
    fix_line false 2 "\x7boops" = .ok (none,
      [mkIssue "ERROR" "E004_BAD_JSON" 2 "line_2" "$" "Invalid JSON: <parse error>"]) ∧
    (["\x7b\x7d"] : List String).length =
      ((["   ", "\x7boops", "\x7b\x7d"] : List String).filter (fun l =>
        !(rstripNl l.data).all charIsSpace &&
          (pyLoadsChars (rstripNl l.data)).isSome)).length :=
  ⟨fix_drops_blank_and_malformed.1 false 1 "   " (by decide),
   fix_drops_blank_and_malformed.2.1 false 2 "\x7boops" (by decide) rfl,
   fix_drops_blank_and_malformed.2.2 false ["   ", "\x7boops", "\x7b\x7d"]
     ["\x7b\x7d"]
     [mkIssue "ERROR" "E004_BAD_JSON" 2 "line_2" "$" "Invalid JSON: <parse error>"]
     rfl⟩

/-- The claim's untouchedness condition for the Safe-Fix Transform: no
message has role `usr`, and under strict-typed mode no content-block
mapping has a `text` key but no `type` key. -/
def untouchedByRules (strict_typed : Bool) (obj : Json) : Bool :=
  ((obj.getD "messages").toList.all (fun m => !(m.getD "role").eqStr "usr")) &&
  (!strict_typed ||
    (obj.getD "messages").toList.all (fun m =>
      !(m.getD "content").isList ||
        (m.getD "content").toList.all (fun it =>
          !(it.isObj && !it.hasKey "type" && it.hasKey "text"))))

/-- C4 counterexample: the compact record `{"id":"t","messages":[]}`
parses, is modified by neither safe-fix rule (in either mode), yet the
written output line `{"id": "t", "messages": []}` — the `json.dumps`
re-serialization with its default separators — differs from the input
line, refuting byte-identity. -/
theorem fix_not_byte_identical :
    pyLoads "\x7b\"id\":\"t\",\"messages\":[]\x7d" =
      some (.obj [("id", .str "t"), ("messages", .arr [])]) ∧
    untouchedByRules false (.obj [("id", .str "t"), ("messages", .arr [])]) = true ∧
    untouchedByRules true (.obj [("id", .str "t"), ("messages", .arr [])]) = true ∧
    fix_line false 1 "\x7b\"id\":\"t\",\"messages\":[]\x7d" =
      .ok (some "\x7b\"id\": \"t\", \"messages\": []\x7d", []) ∧
    ("\x7b\"id\": \"t\", \"messages\": []\x7d" : String) ≠
      "\x7b\"id\":\"t\",\"messages\":[]\x7d" :=
  ⟨rfl, rfl, rfl, rfl, by decide⟩

lemma alistSet_self {α : Type} (es : List (String × α)) (k : String) (v : α)
    (h : alistGet es k = some v) : alistSet es k v = es := by
  induction es with
  | nil => cases h
  | cons e rest ih =>
    unfold alistGet at h
    unfold alistSet
    by_cases hk : e.1 = k
    · rw [if_pos hk] at h
      rw [if_pos hk, ← Option.some.inj h, ← hk]
    · rw [if_neg hk] at h
      rw [if_neg hk, ih h]

lemma Json.set_self (j : Json) (k : String) (v : Json)
    (h : j.get? k = some v) : j.set k v = j := by
  cases j with
  | obj es =>
    show Json.obj (alistSet es k v) = Json.obj es
    rw [alistSet_self es k v h]
  | null => cases h
  | bool b => cases h
  | int n => cases h
  | str s => cases h
  | arr xs => cases h

lemma isList_arr_toList (c : Json) (h : c.isList = true) :
    Json.arr c.toList = c := by
  cases c <;> first | rfl | cases h

lemma getD_isList_get? (m : Json) (k : String)
    (h : (m.getD k).isList = true) : m.get? k = some (m.getD k) := by
  unfold Json.getD at h ⊢
  rcases hg : m.get? k with _ | v
  · rw [hg] at h
    simp [Option.getD, Json.isList] at h
  · rfl

lemma fix_item_id (it : Json)
    (h : (it.isObj && !it.hasKey "type" && it.hasKey "text") = false) :
    fix_item it = (it, false) := by
  unfold fix_item
  rw [h]
  rfl

lemma fix_items_id (l : List Json)
    (h : ∀ it ∈ l, (it.isObj && !it.hasKey "type" && it.hasKey "text") = false) :
    (l.map fix_item).map Prod.fst = l ∧
    ∀ (f : Json × Bool → Option Issue), (∀ x, f (x, false) = none) →
      (l.map fix_item).filterMap f = [] := by
  induction l with
  | nil => exact ⟨rfl, fun f _ => rfl⟩
  | cons it rest ih =>
    have hit := fix_item_id it (h it (List.mem_cons_self it rest))
    have ihr := ih (fun x hx => h x (List.mem_cons_of_mem it hx))
    constructor
    · simp only [List.map_cons, hit, ihr.1]
    · intro f hf
      simp only [List.map_cons, List.filterMap_cons, hit, hf]
      exact ihr.2 f hf

lemma band_true {a b : Bool} (h : (a && b) = true) : a = true ∧ b = true :=
  Bool.and_eq_true a b ▸ h

lemma bor_true {a b : Bool} (h : (a || b) = true) : a = true ∨ b = true :=
  Bool.or_eq_true a b ▸ h

lemma fix_message_id (strict : Bool) (ln : Nat) (sid : String) (m : Json)
    (hrole : (m.getD "role").eqStr "usr" = false)
    (hitems : strict = true → (m.getD "content").isList = true →
      ∀ it ∈ (m.getD "content").toList,
        (it.isObj && !it.hasKey "type" && it.hasKey "text") = false) :
    fix_message strict ln sid m = (m, []) := by
  unfold fix_message
  rw [hrole]
  simp only [Bool.false_eq_true, if_false]
  by_cases hc : (strict && (m.getD "content").isList) = true
  · rw [if_pos hc]
    have hstrict : strict = true := (band_true hc).1
    have hl : (m.getD "content").isList = true := (band_true hc).2
    have hfix := fix_items_id (m.getD "content").toList (hitems hstrict hl)
    rw [hfix.1, isList_arr_toList _ hl,
      Json.set_self m "content" _ (getD_isList_get? m "content" hl),
      hfix.2 _ (fun x => rfl), List.append_nil]
  · rw [if_neg hc]

lemma fix_msgs_id (strict : Bool) (ln : Nat) (sid : String) (l : List Json)
    (hrole : ∀ m ∈ l, (m.getD "role").eqStr "usr" = false)
    (hitems : strict = true → ∀ m ∈ l, (m.getD "content").isList = true →
      ∀ it ∈ (m.getD "content").toList,
        (it.isObj && !it.hasKey "type" && it.hasKey "text") = false) :
    fix_msgs strict ln sid l = (l, []) := by
  induction l with
  | nil => rfl
  | cons m rest ih =>
    unfold fix_msgs
    have hm : (if m.isObj = true then fix_message strict ln sid m else (m, [])) =
        (m, []) := by
      by_cases hob : m.isObj = true
      · rw [if_pos hob]
        refine fix_message_id strict ln sid m (hrole m (List.mem_cons_self m rest)) ?_
        intro hs hl
        exact hitems hs m (List.mem_cons_self m rest) hl
      · rw [if_neg hob]
    rw [hm, ih (fun x hx => hrole x (List.mem_cons_of_mem m hx))
      (fun hs x hx => hitems hs x (List.mem_cons_of_mem m hx))]
    rfl

lemma fix_obj_id (strict : Bool) (ln : Nat) (obj : Json)
    (h : untouchedByRules strict obj = true) :
    fix_obj strict ln obj = (obj, []) := by
  have hunf : fix_obj strict ln obj =
      (if (obj.getD "messages").isList = true then
        (obj.set "messages" (Json.arr (fix_msgs strict ln
            (pyStr ((obj.get? "id").getD (.str ("line_" ++ toString ln))))
            (obj.getD "messages").toList).1),
         (fix_msgs strict ln
            (pyStr ((obj.get? "id").getD (.str ("line_" ++ toString ln))))
            (obj.getD "messages").toList).2)
      else (obj, [])) := rfl
  rw [hunf]
  by_cases hl : (obj.getD "messages").isList = true
  · rw [if_pos hl]
    unfold untouchedByRules at h
    rcases band_true h with ⟨h1, h2⟩
    have hrole : ∀ m ∈ (obj.getD "messages").toList,
        (m.getD "role").eqStr "usr" = false := by
      intro m hm
      have := (List.all_eq_true.mp h1) m hm
      simpa using this
    have hitems : strict = true → ∀ m ∈ (obj.getD "messages").toList,
        (m.getD "content").isList = true →
        ∀ it ∈ (m.getD "content").toList,
          (it.isObj && !it.hasKey "type" && it.hasKey "text") = false := by
      intro hs m hm hcl it hit
      rcases bor_true h2 with hns | hall
      · rw [hs] at hns
        cases hns
      · have hm2 := (List.all_eq_true.mp hall) m hm
        rcases bor_true hm2 with hnl | hil
        · rw [hcl] at hnl
          cases hnl
        · have hx := (List.all_eq_true.mp hil) it hit
          exact Bool.eq_false_iff.mpr (fun habs => by rw [habs] at hx; cases hx)
    rw [fix_msgs_id strict ln _ _ hrole hitems]
    dsimp only
    rw [isList_arr_toList _ hl,
      Json.set_self obj "messages" _ (getD_isList_get? obj "messages" hl)]
  · rw [if_neg hl]

lemma allSpace_skipWs (cs : List Char) (h : cs.all charIsSpace = true) :
    skipWs cs = [] ∨
      ∃ c rest, skipWs cs = c :: rest ∧ (c = '\x0b' ∨ c = '\x0c') := by
  induction cs with
  | nil => exact Or.inl rfl
  | cons c rest ih =>
    have hc : charIsSpace c = true := by
      have := List.all_eq_true.mp h c (List.mem_cons_self c rest)
      simpa using this
    have hr : rest.all charIsSpace = true := by
      rw [List.all_eq_true]
      intro x hx
      have := List.all_eq_true.mp h x (List.mem_cons_of_mem c hx)
      simpa using this
    simp only [charIsSpace, Bool.or_eq_true, decide_eq_true_eq] at hc
    rcases hc with ((((rfl | rfl) | rfl) | rfl) | rfl) | rfl
    · exact (show skipWs (' ' :: rest) = skipWs rest from rfl) ▸ ih hr
    · exact (show skipWs ('\t' :: rest) = skipWs rest from rfl) ▸ ih hr
    · exact (show skipWs ('\n' :: rest) = skipWs rest from rfl) ▸ ih hr
    · exact (show skipWs ('\x0d' :: rest) = skipWs rest from rfl) ▸ ih hr
    · exact Or.inr ⟨'\x0b', rest, rfl, Or.inl rfl⟩
    · exact Or.inr ⟨'\x0c', rest, rfl, Or.inr rfl⟩

lemma allSpace_pyLoadsChars (cs : List Char) (h : cs.all charIsSpace = true) :
    pyLoadsChars cs = none := by
  have hp : parseF (cs.length + 1) PTask.value cs = none := by
    unfold parseF
    rcases allSpace_skipWs cs h with he | ⟨c, rest, he, hc⟩
    · rw [he]
    · rw [he]
      rcases hc with rfl | rfl <;> rfl
  unfold pyLoadsChars
  rw [hp]

/-- C4 amended: for every input line that parses and is modified by
neither safe-fix rule, `fix_jsonl` writes the `json.dumps`
re-serialization of the parsed record (default separators `", "`/`": "`)
and reports no issue; the output line is byte-identical to the input
exactly when the input is already in that serialization format, as in
the witness. -/
theorem fix_untouched_reserializes :
    ∀ (strict : Bool) (line_no : Nat) (line : String) (obj : Json),
      pyLoadsChars (rstripNl line.data) = some obj →
      obj.isObj = true →
      untouchedByRules strict obj = true →
      fix_line strict line_no line =
        .ok (some ⟨dumpFuel ((rstripNl line.data).length + 1) obj⟩, []) := by
  intro strict line_no line obj hp hobj huntouched
  have hnb : (rstripNl line.data).all charIsSpace = false := by
    rcases hb : (rstripNl line.data).all charIsSpace with _ | _
    · rfl
    · rw [allSpace_pyLoadsChars _ hb] at hp
      cases hp
  unfold fix_line
  rw [if_neg (by rw [hnb]; exact Bool.false_ne_true), hp]
  dsimp only
  rw [if_pos hobj, fix_obj_id strict line_no obj huntouched]

/-- Witness for the amended C4: a line already in the serializer's format
comes back byte-identical with no issues. -/
theorem fix_untouched_reserializes_witness :
    fix_line false 3 "\x7b\"id\": \"a\", \"messages\": []\x7d" =
      .ok (some "\x7b\"id\": \"a\", \"messages\": []\x7d", []) :=
  fix_untouched_reserializes false 3 "\x7b\"id\": \"a\", \"messages\": []\x7d"
    (.obj [("id", .str "a"), ("messages", .arr [])]) rfl rfl rfl

-- ---------------------------------------------------------------------
-- Render-visibility verifier (core.py verify_system_visibility_jsonl)
-- ---------------------------------------------------------------------

/-- Python `s.strip()`. -/
def pyStrip (s : String) : String :=
  ⟨((s.data.dropWhile charIsSpace).reverse.dropWhile charIsSpace).reverse⟩

/-- The injected render capability: the two call forms the verifier
uses, `render(messages=..., sample=obj)` and the single-argument fallback
`render(messages)`; each may raise. -/
structure RenderCap where
  kwCall : List Json → Json → Except PyErr Json
  posCall : List Json → Except PyErr Json

/-- Whether `needle` is a prefix of `hay`. -/
def startsWithChars : List Char → List Char → Bool
  | [], _ => true
  | _ :: _, [] => false
  | n :: ns, h :: hs => n = h && startsWithChars ns hs

/-- Python `needle in hay` on strings (substring containment). -/
def isSubChars (needle : List Char) : List Char → Bool
  | [] => needle.isEmpty
  | h :: hs => startsWithChars needle (h :: hs) || isSubChars needle hs

/-- The containment check of the verifier (lines 317-321): a non-empty
stripped system text must occur as a substring of `str(prompt)`. -/
def visibilityIssues (sys_text : String) (prompt : Json) (profile_obj : Profile)
    (line_no : Nat) (sample_id : String) : List Issue :=
  let st := pyStrip sys_text
  if st ≠ "" ∧ ¬(isSubChars st.data (pyStr prompt).data = true) then
    [mkIssue profile_obj.system_invisible_level "E002_SYSTEM_NOT_VISIBLE" line_no
      sample_id "messages"
      "System message exists but is not present in the rendered prompt (likely dropped by the pipeline)."]
  else []

/-- The per-record body of `core.verify_system_visibility_jsonl` (lines
290-321).  The `try` block calls `render(messages=..., sample=obj)`; a
`TypeError` is retried as `render(messages)` INSIDE the `except
TypeError` handler, where a second failure is caught by nothing and
propagates; any other exception of the first call is converted to one
E901 issue and the loop continues. -/
def verifyRecord (cap : RenderCap) (profile_obj : Profile) (strict_typed : Bool)
    (obj : Json) (line_no : Nat) : Except PyErr (List Issue) :=
  let sample_id := pyStr ((obj.get? "id").getD (.str ("line_" ++ toString line_no)))
  let messages := obj.getD "messages"
  let sch := validate_messages_schema messages line_no sample_id strict_typed
  if ¬messages.isList then .ok sch
  else
    let issues := sch ++
      system_presence_and_nonempty messages.toList line_no sample_id profile_obj
    let sys_text := String.intercalate "\n"
      ((messages.toList.filter (fun m => (m.getD "role").eqStr "system")).map
        (fun m => typed_text_of_content (m.getD "content")))
    if ¬profile_obj.system_visible then .ok issues
    else
      match cap.kwCall messages.toList obj with
      | .ok prompt =>
        .ok (issues ++ visibilityIssues sys_text prompt profile_obj line_no sample_id)
      | .error (.typeError _) =>
        match cap.posCall messages.toList with
        | .ok prompt =>
          .ok (issues ++ visibilityIssues sys_text prompt profile_obj line_no sample_id)
        | .error e => .error e
      | .error _ =>
        .ok (issues ++ [mkIssue "ERROR" "E901_RENDER_PLUGIN_ERROR" line_no sample_id
          "messages" "Render plugin error: <details>"])

/-- The line loop of `core.verify_system_visibility_jsonl`: blank lines
skipped, malformed lines produce one E004 issue, a record's uncaught
exception aborts the whole pass (no issues are returned at all). -/
def verifyLines (cap : RenderCap) (profile_obj : Profile) (strict_typed : Bool) :
    List String → Nat → Except PyErr (List Issue)
  | [], _ => .ok []
  | l :: rest, line_no =>
    let raw := (pyStrip l).data
    if raw.isEmpty then verifyLines cap profile_obj strict_typed rest (line_no + 1)
    else
      match pyLoadsChars raw with
      | none =>
        match verifyLines cap profile_obj strict_typed rest (line_no + 1) with
        | .error e => .error e
        | .ok iss =>
          .ok (mkIssue "ERROR" "E004_BAD_JSON" line_no ("line_" ++ toString line_no)
            "$" "Invalid JSON: <parse error>" :: iss)
      | some obj =>
        if obj.isObj then
          match verifyRecord cap profile_obj strict_typed obj line_no with
          | .error e => .error e
          | .ok iss =>
            match verifyLines cap profile_obj strict_typed rest (line_no + 1) with
            | .error e => .error e
            | .ok iss2 => .ok (iss ++ iss2)
        else .error (.attributeError "no attribute get")

/-- Function `core.verify_system_visibility_jsonl` over the input lines
(plugin loading and file handling are external collaborators; the
capability is injected). -/
def verify_system_visibility (cap : RenderCap) (profile_obj : Profile)
    (strict_typed : Bool) (lines : List String) : Except PyErr (List Issue) :=
  verifyLines cap profile_obj strict_typed lines 1

/-- A capability whose keyword-form call raises TypeError (a signature
without `**kwargs`) and whose single-argument fallback also raises
TypeError (a signature mismatch, e.g. a second required positional
argument). -/
def badRenderCap : RenderCap :=
  { kwCall := fun _ _ => .error (.typeError "unexpected keyword argument"),
    posCall := fun _ => .error (.typeError "missing required positional argument") }

/-- A capability whose keyword-form call raises a non-TypeError
exception. -/
def crashingRenderCap : RenderCap :=
  { kwCall := fun _ _ => .error (.otherError "boom"),
    posCall := fun _ => .ok (.str "") }

set_option maxRecDepth 16384 in
/-- C2, evaluated at the failing input: when the single-argument fallback
`render(messages)` fails after the keyword form raised TypeError, the
exception is caught by nothing — the whole pass aborts with it and NO
issue is reported for any record (the second, perfectly fine record is
never reached), contradicting the claimed one-issue-and-continue
behaviour; by contrast a non-TypeError failure of the keyword call is
recovered into exactly one E901_RENDER_PLUGIN_ERROR issue for the record
and the pass continues. -/
theorem render_fallback_failure_aborts :
    verify_system_visibility badRenderCap { name := "generic" } false
        ["\x7b\"id\": \"a\", \"messages\": [\x7b\"role\": \"system\", \"content\": \"s\"\x7d, \x7b\"role\": \"user\", \"content\": \"u\"\x7d, \x7b\"role\": \"assistant\", \"content\": \"v\"\x7d]\x7d",
         "\x7b\"id\": \"b\", \"messages\": [\x7b\"role\": \"system\", \"content\": \"s\"\x7d, \x7b\"role\": \"user\", \"content\": \"u\"\x7d, \x7b\"role\": \"assistant\", \"content\": \"v\"\x7d]\x7d"] =
      .error (.typeError "missing required positional argument") ∧
    verify_system_visibility crashingRenderCap { name := "generic" } false
        ["\x7b\"id\": \"a\", \"messages\": [\x7b\"role\": \"system\", \"content\": \"s\"\x7d, \x7b\"role\": \"user\", \"content\": \"u\"\x7d, \x7b\"role\": \"assistant\", \"content\": \"v\"\x7d]\x7d"] =
      .ok [mkIssue "ERROR" "E901_RENDER_PLUGIN_ERROR" 1 "a" "messages"
        "Render plugin error: <details>"] :=
  ⟨rfl, rfl⟩

-- ---------------------------------------------------------------------
-- Round-trip infrastructure for the idempotence of the safe-fix pass
-- ---------------------------------------------------------------------

lemma json_sizeOf_pos (j : Json) : 0 < sizeOf j := by
  cases j <;> simp

/-- Induction over JSON values with hypotheses for the members of nested
lists. -/
theorem Json.inductionMem {P : Json → Prop}
    (hnull : P .null) (hbool : ∀ b, P (.bool b)) (hint : ∀ n, P (.int n))
    (hstr : ∀ s, P (.str s))
    (harr : ∀ xs, (∀ x ∈ xs, P x) → P (.arr xs))
    (hobj : ∀ es, (∀ e ∈ es, P e.2) → P (.obj es)) : ∀ j, P j := by
  have main : ∀ (n : Nat) (j : Json), sizeOf j ≤ n → P j := by
    intro n
    induction n with
    | zero =>
      intro j hj
      exact absurd hj (by have := json_sizeOf_pos j; omega)
    | succ n ih =>
      intro j hj
      cases j with
      | null => exact hnull
      | bool b => exact hbool b
      | int m => exact hint m
      | str s => exact hstr s
      | arr xs =>
        refine harr xs (fun x hx => ih x ?_)
        have h1 := List.sizeOf_lt_of_mem hx
        simp only [Json.arr.sizeOf_spec] at hj
        omega
      | obj es =>
        refine hobj es (fun e he => ih e.2 ?_)
        have h1 := List.sizeOf_lt_of_mem he
        have h2 := sizeOf_snd_lt e
        simp only [Json.obj.sizeOf_spec] at hj
        omega
  intro j
  exact main (sizeOf j) j (le_refl _)

/-- The maximum of a list of naturals. -/
def listMax (l : List Nat) : Nat := l.foldr max 0

/-- Nesting depth of a JSON value (the recursion depth of `json.dumps`
on it). -/
def jdepth (j : Json) : Nat :=
  match j with
  | .arr xs => 1 + listMax (xs.attach.map (fun x => jdepth x.1))
  | .obj es => 1 + listMax (es.attach.map (fun e => jdepth e.1.2))
  | _ => 1
termination_by sizeOf j
decreasing_by
  · have := List.sizeOf_lt_of_mem x.2
    simp only [Json.arr.sizeOf_spec]
    omega
  · have h1 := List.sizeOf_lt_of_mem e.2
    have h2 := sizeOf_snd_lt e.1
    simp only [Json.obj.sizeOf_spec]
    omega

lemma attach_map_val {α β : Type} (l : List α) (f : α → β) :
    l.attach.map (fun x => f x.1) = l.map f := by
  rw [show (fun (x : {a // a ∈ l}) => f x.1) = (f ∘ Subtype.val) from rfl,
    ← List.map_map, List.attach_map_subtype_val]

lemma jdepth_scalar : jdepth .null = 1 ∧ (∀ b, jdepth (.bool b) = 1) ∧
    (∀ n, jdepth (.int n) = 1) ∧ (∀ s, jdepth (.str s) = 1) := by
  refine ⟨?_, ?_, ?_, ?_⟩ <;> intros <;> simp [jdepth]

lemma jdepth_arr (xs : List Json) :
    jdepth (.arr xs) = 1 + listMax (xs.map jdepth) := by
  rw [jdepth, attach_map_val]

lemma jdepth_obj (es : List (String × Json)) :
    jdepth (.obj es) = 1 + listMax (es.map (fun e => jdepth e.2)) := by
  rw [jdepth]
  congr 1
  rw [show (fun (e : {x // x ∈ es}) => jdepth e.1.2) =
    (fun (e : {x // x ∈ es}) => (fun x => jdepth x.2) e.1) from rfl]
  rw [attach_map_val es (fun x => jdepth x.2)]

lemma jdepth_pos (j : Json) : 1 ≤ jdepth j := by
  cases j with
  | arr xs => rw [jdepth_arr]; omega
  | obj es => rw [jdepth_obj]; omega
  | null => rw [jdepth_scalar.1]
  | bool b => rw [jdepth_scalar.2.1]
  | int n => rw [jdepth_scalar.2.2.1]
  | str s => rw [jdepth_scalar.2.2.2]

lemma listMax_le (l : List Nat) (b : Nat) :
    listMax l ≤ b ↔ ∀ x ∈ l, x ≤ b := by
  induction l with
  | nil => simp [listMax]
  | cons a rest ih =>
    simp only [listMax, List.foldr_cons, max_le_iff, List.mem_cons]
    constructor
    · rintro ⟨h1, h2⟩ x (rfl | hx)
      · exact h1
      · exact (ih.mp h2) x hx
    · intro h
      exact ⟨h a (Or.inl rfl), ih.mpr (fun x hx => h x (Or.inr hx))⟩

lemma le_listMax_of_mem {l : List Nat} {x : Nat} (h : x ∈ l) : x ≤ listMax l := by
  induction l with
  | nil => cases h
  | cons a rest ih =>
    rcases List.mem_cons.mp h with rfl | hx
    · simp [listMax]
    · simp only [listMax, List.foldr_cons]
      exact le_trans (ih hx) (le_max_right _ _)

/-- Structural well-formedness of a parsed JSON value: every object has
pairwise-distinct keys (as `json.loads` guarantees, since it builds each
object by dictionary assignment). -/
inductive JsonWF : Json → Prop where
  | null : JsonWF .null
  | bool (b : Bool) : JsonWF (.bool b)
  | int (n : Int) : JsonWF (.int n)
  | str (s : String) : JsonWF (.str s)
  | arr (xs : List Json) (h : ∀ x ∈ xs, JsonWF x) : JsonWF (.arr xs)
  | obj (es : List (String × Json)) (hkeys : (es.map Prod.fst).Nodup)
      (h : ∀ e ∈ es, JsonWF e.2) : JsonWF (.obj es)

lemma natDigitsAux_append : ∀ (fuel n : Nat) (acc : List Char),
    natDigitsAux fuel n acc = natDigitsAux fuel n [] ++ acc := by
  intro fuel
  induction fuel with
  | zero => intro n acc; rfl
  | succ f ih =>
    intro n acc
    unfold natDigitsAux
    by_cases h : n < 10
    · rw [if_pos h, if_pos h]
      rfl
    · rw [if_neg h, if_neg h, ih (n / 10) (_ :: acc), ih (n / 10) [_]]
      simp

lemma natDigitsAux_fuel : ∀ (n f1 f2 : Nat), n < f1 → n < f2 →
    natDigitsAux f1 n [] = natDigitsAux f2 n [] := by
  intro n
  induction n using Nat.strong_induction_on with
  | _ n ih =>
    intro f1 f2 h1 h2
    rcases f1 with _ | f1
    · omega
    rcases f2 with _ | f2
    · omega
    unfold natDigitsAux
    by_cases h : n < 10
    · rw [if_pos h, if_pos h]
    · rw [if_neg h, if_neg h]
      have hd : n / 10 < n := Nat.div_lt_self (by omega) (by omega)
      rw [natDigitsAux_append f1, natDigitsAux_append f2,
        ih (n / 10) hd f1 f2 (by omega) (by omega)]

lemma digit_char_spec : ∀ d, d < 10 →
    (Char.ofNat (48 + d)).isDigit = true ∧ (Char.ofNat (48 + d)).toNat = 48 + d := by
  intro d hd
  interval_cases d <;> exact ⟨by decide, by decide⟩

lemma digitsToNat_append_one (ds : List Char) (c : Char) :
    digitsToNat (ds ++ [c]) = digitsToNat ds * 10 + (c.toNat - '0'.toNat) := by
  unfold digitsToNat
  rw [List.foldl_append]
  rfl

lemma natToChars_spec : ∀ n : Nat, (natToChars n).all Char.isDigit = true ∧
    digitsToNat (natToChars n) = n ∧ natToChars n ≠ [] := by
  intro n
  induction n using Nat.strong_induction_on with
  | _ n ih =>
    by_cases h : n < 10
    · have hn : natToChars n = [Char.ofNat ('0'.toNat + n % 10)] := by
        unfold natToChars natDigitsAux
        rw [if_pos h]
      have hmod : n % 10 = n := Nat.mod_eq_of_lt h
      have hds := digit_char_spec n h
      rw [hn, hmod]
      refine ⟨?_, ?_, by simp⟩
      · simp only [List.all_cons, List.all_nil, Bool.and_true]
        exact (show ('0'.toNat + n : Nat) = 48 + n from rfl) ▸ hds.1
      · unfold digitsToNat
        simp only [List.foldl_cons, List.foldl_nil]
        rw [show ('0'.toNat + n : Nat) = 48 + n from rfl, hds.2,
          show '0'.toNat = 48 from rfl]
        omega
    · have hd : n / 10 < n := Nat.div_lt_self (by omega) (by omega)
      have hn : natToChars n =
          natToChars (n / 10) ++ [Char.ofNat ('0'.toNat + n % 10)] := by
        unfold natToChars
        conv =>
          lhs
          unfold natDigitsAux
        rw [if_neg h, natDigitsAux_append n]
        rw [natDigitsAux_fuel (n / 10) n (n / 10 + 1) (by omega) (by omega)]
      have hds := digit_char_spec (n % 10) (Nat.mod_lt n (by omega))
      rcases ih (n / 10) hd with ⟨ha, hv, hne⟩
      rw [hn]
      refine ⟨?_, ?_, by simp⟩
      · rw [List.all_append, ha]
        simp only [List.all_cons, List.all_nil, Bool.and_true, Bool.true_and]
        exact (show ('0'.toNat + n % 10 : Nat) = 48 + n % 10 from rfl) ▸ hds.1
      · rw [digitsToNat_append_one, hv]
        rw [show ('0'.toNat + n % 10 : Nat) = 48 + n % 10 from rfl, hds.2,
          show '0'.toNat = 48 from rfl]
        omega

/-- Whether a character list does not begin with a decimal digit (the
context in which a serialized number is re-parsed). -/
def noDigitHead : List Char → Bool
  | [] => true
  | c :: _ => !c.isDigit

lemma takeDigits_append (ds rest : List Char) (hds : ds.all Char.isDigit = true)
    (hrest : noDigitHead rest = true) : takeDigits (ds ++ rest) = (ds, rest) := by
  induction ds with
  | nil =>
    rcases rest with _ | ⟨c, rs⟩
    · rfl
    · have hc : c.isDigit = false := by
        have h2 : (!c.isDigit) = true := hrest
        rcases hb : c.isDigit with _ | _
        · rfl
        · rw [hb] at h2
          cases h2
      unfold takeDigits
      simp only [List.nil_append]
      rw [hc]
      simp
  | cons c cs ih =>
    have hc : c.isDigit = true := by
      have := List.all_eq_true.mp hds c (List.mem_cons_self c cs)
      simpa using this
    have hcs : cs.all Char.isDigit = true := by
      rw [List.all_eq_true]
      intro x hx
      have := List.all_eq_true.mp hds x (List.mem_cons_of_mem c hx)
      simpa using this
    unfold takeDigits
    simp only [List.cons_append]
    rw [if_pos hc, ih hcs]


lemma parseDigits_natToChars (n : Nat) (rest : List Char)
    (h : noDigitHead rest = true) :
    parseDigits (natToChars n ++ rest) = some (n, rest) := by
  rcases natToChars_spec n with ⟨ha, hv, hne⟩
  have hni : (natToChars n).isEmpty = false := by
    rcases hh : natToChars n with _ | ⟨c, cs⟩
    · exact absurd hh hne
    · rfl
  show (let r := takeDigits (natToChars n ++ rest);
    if r.1.isEmpty = true then none else some (digitsToNat r.1, r.2)) = _
  rw [takeDigits_append _ _ ha h]
  show (if (natToChars n).isEmpty = true then none
    else some (digitsToNat (natToChars n), rest)) = _
  rw [hni, hv]
  rfl

lemma hexVal_hexDigit : ∀ k, k < 16 → hexVal (hexDigitChar k) = some k := by
  intro k hk
  interval_cases k <;> rfl

lemma escapeString_cons (c : Char) (cs : List Char) :
    escapeString (c :: cs) = escapeChar c ++ escapeString cs := by
  unfold escapeString
  rw [List.map_cons, List.flatten_cons]

lemma parseStr_escape : ∀ (s acc rest : List Char),
    parseStrChars (escapeString s ++ '"' :: rest) acc =
      some (acc.reverse ++ s, rest) := by
  intro s
  induction s with
  | nil =>
    intro acc rest
    show parseStrChars ('"' :: rest) acc = _
    rw [parseStrChars.eq_def]
    dsimp only
    rw [if_pos rfl]
    simp
  | cons c cs ih =>
    intro acc rest
    rw [escapeString_cons, List.append_assoc]
    by_cases h1 : c = '"'
    · subst h1
      rw [show escapeChar '"' = ['\\', '"'] from rfl]
      simp only [List.cons_append, List.nil_append]
      rw [parseStrChars.eq_def]
      dsimp only
      rw [if_neg (by decide), if_pos (by decide)]
      simp only []
      rw [if_pos (by decide), ih]
      simp
    · by_cases h2 : c = '\\'
      · subst h2
        rw [show escapeChar '\\' = ['\\', '\\'] from rfl]
        simp only [List.cons_append, List.nil_append]
        rw [parseStrChars.eq_def]
        dsimp only
        rw [if_neg (by decide), if_pos (by decide)]
        simp only []
        rw [if_neg (by decide), if_pos (by decide), ih]
        simp
      · by_cases h3 : c = '\n'
        · subst h3
          rw [show escapeChar '\n' = ['\\', 'n'] from rfl]
          simp only [List.cons_append, List.nil_append]
          rw [parseStrChars.eq_def]
          dsimp only
          rw [if_neg (by decide), if_pos (by decide)]
          simp only []
          rw [if_neg (by decide), if_neg (by decide), if_neg (by decide),
            if_pos (by decide), ih]
          simp
        · by_cases h4 : c = '\r'
          · subst h4
            rw [show escapeChar '\r' = ['\\', 'r'] from rfl]
            simp only [List.cons_append, List.nil_append]
            rw [parseStrChars.eq_def]
            dsimp only
            rw [if_neg (by decide), if_pos (by decide)]
            simp only []
            rw [if_neg (by decide), if_neg (by decide), if_neg (by decide),
              if_neg (by decide), if_neg (by decide), if_pos (by decide), ih]
            simp
          · by_cases h5 : c = '\t'
            · subst h5
              rw [show escapeChar '\t' = ['\\', 't'] from rfl]
              simp only [List.cons_append, List.nil_append]
              rw [parseStrChars.eq_def]
              dsimp only
              rw [if_neg (by decide), if_pos (by decide)]
              simp only []
              rw [if_neg (by decide), if_neg (by decide), if_neg (by decide),
                if_neg (by decide), if_pos (by decide), ih]
              simp
            · by_cases h6 : c = '\x08'
              · subst h6
                rw [show escapeChar '\x08' = ['\\', 'b'] from rfl]
                simp only [List.cons_append, List.nil_append]
                rw [parseStrChars.eq_def]
                dsimp only
                rw [if_neg (by decide), if_pos (by decide)]
                simp only []
                rw [if_neg (by decide), if_neg (by decide), if_neg (by decide),
                  if_neg (by decide), if_neg (by decide), if_neg (by decide),
                  if_pos (by decide), ih]
                simp
              · by_cases h7 : c = '\x0c'
                · subst h7
                  rw [show escapeChar '\x0c' = ['\\', 'f'] from rfl]
                  simp only [List.cons_append, List.nil_append]
                  rw [parseStrChars.eq_def]
                  dsimp only
                  rw [if_neg (by decide), if_pos (by decide)]
                  simp only []
                  rw [if_neg (by decide), if_neg (by decide), if_neg (by decide),
                    if_neg (by decide), if_neg (by decide), if_neg (by decide),
                    if_neg (by decide), if_pos (by decide), ih]
                  simp
                · by_cases h8 : c.toNat < 0x20
                  · have hesc : escapeChar c =
                        ['\\', 'u', '0', '0', hexDigitChar (c.toNat / 16),
                          hexDigitChar (c.toNat % 16)] := by
                      unfold escapeChar
                      rw [if_neg h1, if_neg h2, if_neg h3, if_neg h4, if_neg h5,
                        if_neg h6, if_neg h7, if_pos h8]
                    rw [hesc]
                    simp only [List.cons_append, List.nil_append]
                    rw [parseStrChars.eq_def]
                    dsimp only
                    rw [if_neg (by decide), if_pos (by decide)]
                    simp only []
                    rw [if_neg (by decide), if_neg (by decide), if_neg (by decide),
                      if_neg (by decide), if_neg (by decide), if_neg (by decide),
                      if_neg (by decide), if_neg (by decide), if_pos (by decide)]
                    rw [show hexVal '0' = some 0 from rfl,
                      hexVal_hexDigit (c.toNat / 16) (by omega),
                      hexVal_hexDigit (c.toNat % 16) (by omega)]
                    simp only []
                    have hcc : Char.ofNat (((0 * 16 + 0) * 16 + c.toNat / 16) * 16 +
                        c.toNat % 16) = c := by
                      rw [show ((0 * 16 + 0) * 16 + c.toNat / 16) * 16 + c.toNat % 16 =
                        c.toNat from by omega, Char.ofNat_toNat]
                    rw [hcc, ih]
                    simp
                  · have hesc : escapeChar c = [c] := by
                      unfold escapeChar
                      rw [if_neg h1, if_neg h2, if_neg h3, if_neg h4, if_neg h5,
                        if_neg h6, if_neg h7, if_neg h8]
                    rw [hesc]
                    simp only [List.cons_append, List.nil_append]
                    rw [parseStrChars.eq_def]
                    dsimp only
                    rw [if_neg h1, if_neg h2, ih]
                    simp

lemma isDigit_bounds (c : Char) (h : c.isDigit = true) : '0' ≤ c ∧ c ≤ '9' := by
  simp [Char.isDigit] at h
  exact h

lemma digit_not_ws (c : Char) (h : c.isDigit = true) : jsonWs c = false := by
  have hb := isDigit_bounds c h
  have e1 : ¬(c = ' ') := fun he => by rw [he] at hb; exact absurd hb.1 (by decide)
  have e2 : ¬(c = '\t') := fun he => by rw [he] at hb; exact absurd hb.1 (by decide)
  have e3 : ¬(c = '\n') := fun he => by rw [he] at hb; exact absurd hb.1 (by decide)
  have e4 : ¬(c = '\r') := fun he => by rw [he] at hb; exact absurd hb.1 (by decide)
  simp [jsonWs, e1, e2, e3, e4]

lemma digit_ne (c : Char) (h : c.isDigit = true) :
    ¬(c = '"') ∧ ¬(c = '[') ∧ ¬(c = '\x7b') ∧ ¬(c = 'n') ∧ ¬(c = 't') ∧
    ¬(c = 'f') ∧ ¬(c = '-') ∧ ¬(c = ']') ∧ ¬(c = '\x7d') := by
  have hb := isDigit_bounds c h
  refine ⟨?_, ?_, ?_, ?_, ?_, ?_, ?_, ?_, ?_⟩ <;>
    exact fun he => by
      rw [he] at hb
      first
      | exact absurd hb.1 (by decide)
      | exact absurd hb.2 (by decide)

lemma skipWs_not_ws (c : Char) (cs : List Char) (h : jsonWs c = false) :
    skipWs (c :: cs) = c :: cs := by
  rw [skipWs.eq_def]
  dsimp only
  rw [h]
  simp

lemma skipWs_ws (c : Char) (cs : List Char) (h : jsonWs c = true) :
    skipWs (c :: cs) = skipWs cs := by
  rw [skipWs.eq_def]
  dsimp only
  rw [h]
  simp

lemma parseF_ws (f : Nat) (t : PTask) (c : Char) (cs : List Char)
    (h : jsonWs c = true) :
    parseF (f+1) t (c :: cs) = parseF (f+1) t cs := by
  rw [parseF.eq_def]
  conv => rhs; rw [parseF.eq_def]
  cases t <;> dsimp only <;> rw [skipWs_ws c cs h]

lemma headEq_cons (c x : Char) (cs : List Char) :
    headEq (c :: cs) x = decide (c = x) := rfl

/-- The serialization of one object entry (a key-value pair). -/
def entryChars (fd : Nat) (e : String × Json) : List Char :=
  '"' :: escapeString e.1.data ++ '"' :: ':' :: ' ' :: dumpFuel fd e.2

lemma dump_arr_eq (f : Nat) (xs : List Json) :
    dumpFuel (f+1) (.arr xs) = '[' :: joinComma (xs.map (dumpFuel f)) ++ [']'] := by
  rw [dumpFuel.eq_def]

lemma dump_obj_eq (f : Nat) (es : List (String × Json)) :
    dumpFuel (f+1) (.obj es) =
      '\x7b' :: joinComma (es.map (entryChars f)) ++ ['\x7d'] := by
  rw [dumpFuel.eq_def]
  rfl

lemma joinComma_cons (a : List Char) (l : List (List Char)) :
    joinComma (a :: l) = a ++ (l.map (fun e => ',' :: ' ' :: e)).flatten := by
  induction l generalizing a with
  | nil => simp [joinComma]
  | cons b t ih =>
    rw [joinComma.eq_def]
    dsimp only
    rw [ih b]
    simp

lemma alistSet_fresh {α : Type} (es : List (String × α)) (k : String) (v : α)
    (h : k ∉ es.map Prod.fst) : alistSet es k v = es ++ [(k, v)] := by
  induction es with
  | nil => rfl
  | cons e t ih =>
    have hne : ¬(e.1 = k) := by
      intro he
      exact h (by simp [he])
    have ht : k ∉ t.map Prod.fst := by
      intro hm
      exact h (by simp [hm])
    rw [show alistSet (e :: t) k v =
      if e.1 = k then (k, v) :: t else e :: alistSet t k v from by
        rw [alistSet.eq_def]]
    rw [if_neg hne, ih ht]
    simp

lemma noDigitHead_flatten {α : Type} (g : α → List Char) (l : List α) (X : Char)
    (rest : List Char) (hX : X.isDigit = false) :
    noDigitHead ((l.map (fun e => ',' :: ' ' :: g e)).flatten ++ X :: rest) = true := by
  cases l with
  | nil => simp [noDigitHead, hX]
  | cons a t => rfl

lemma dump_head_safe (f : Nat) (v : Json) : ∃ c t, dumpFuel (f+1) v = c :: t ∧
    jsonWs c = false ∧ ¬(c = ']') ∧ ¬(c = '\x7d') := by
  cases v with
  | null =>
    refine ⟨'n', _, rfl, ?_, ?_, ?_⟩ <;> decide
  | bool b =>
    cases b
    · refine ⟨'f', _, rfl, ?_, ?_, ?_⟩ <;> decide
    · refine ⟨'t', _, rfl, ?_, ?_, ?_⟩ <;> decide
  | str s =>
    refine ⟨'"', _, rfl, ?_, ?_, ?_⟩ <;> decide
  | arr xs =>
    refine ⟨'[', joinComma (xs.map (dumpFuel f)) ++ [']'], ?_,
      by decide, by decide, by decide⟩
    rw [dump_arr_eq]
    simp
  | obj es =>
    refine ⟨'\x7b', joinComma (es.map (entryChars f)) ++ ['\x7d'], ?_,
      by decide, by decide, by decide⟩
    rw [dump_obj_eq]
    simp
  | int n =>
    show ∃ c t, intToChars n = c :: t ∧ _
    unfold intToChars
    by_cases hn : n < 0
    · rw [if_pos hn]
      refine ⟨'-', _, rfl, ?_, ?_, ?_⟩ <;> decide
    · rw [if_neg hn]
      rcases natToChars_spec n.toNat with ⟨ha, _, hne⟩
      rcases hh : natToChars n.toNat with _ | ⟨c, cs⟩
      · exact absurd hh hne
      · have hc : c.isDigit = true := by
          rw [hh] at ha
          simpa using (List.all_eq_true.mp ha c (List.mem_cons_self c cs))
        have hd := digit_ne c hc
        exact ⟨c, cs, rfl, digit_not_ws c hc, hd.2.2.2.2.2.2.2.1, hd.2.2.2.2.2.2.2.2⟩

lemma parseF_value_null (f : Nat) (r : List Char) :
    parseF (f+1) .value ('n' :: 'u' :: 'l' :: 'l' :: r) = some (.null, r) := rfl

lemma parseF_value_true (f : Nat) (r : List Char) :
    parseF (f+1) .value ('t' :: 'r' :: 'u' :: 'e' :: r) = some (.bool true, r) := rfl

lemma parseF_value_false (f : Nat) (r : List Char) :
    parseF (f+1) .value ('f' :: 'a' :: 'l' :: 's' :: 'e' :: r) =
      some (.bool false, r) := rfl

lemma parseF_value_str (f : Nat) (s : String) (rest : List Char) :
    parseF (f+1) .value ('"' :: (escapeString s.data ++ '"' :: rest)) =
      some (.str s, rest) := by
  have hp : parseStrChars (escapeString s.data ++ '"' :: rest) [] =
      some (s.data, rest) := by
    rw [parseStr_escape]
    simp
  rw [parseF.eq_def]
  dsimp only
  rw [skipWs_not_ws '"' _ (by decide)]
  dsimp only
  rw [if_pos rfl, hp]

lemma parseF_value_nat (f n : Nat) (rest : List Char)
    (h : noDigitHead rest = true) :
    parseF (f+1) .value (natToChars n ++ rest) = some (.int (n : Int), rest) := by
  rcases natToChars_spec n with ⟨ha, _, hne⟩
  rcases hh : natToChars n with _ | ⟨c, cs⟩
  · exact absurd hh hne
  have hc : c.isDigit = true := by
    rw [hh] at ha
    simpa using (List.all_eq_true.mp ha c (List.mem_cons_self c cs))
  have hd := digit_ne c hc
  rw [parseF.eq_def]
  dsimp only
  simp only [List.cons_append]
  rw [skipWs_not_ws c _ (digit_not_ws c hc)]
  dsimp only
  rw [if_neg hd.1, if_neg hd.2.1, if_neg hd.2.2.1, if_neg hd.2.2.2.1,
    if_neg hd.2.2.2.2.1, if_neg hd.2.2.2.2.2.1, if_neg hd.2.2.2.2.2.2.1,
    if_pos hc]
  rw [show (c :: (cs ++ rest) : List Char) = (c :: cs) ++ rest from by simp, ← hh,
    parseDigits_natToChars n rest h]

lemma parseF_value_int (f : Nat) (n : Int) (rest : List Char)
    (h : noDigitHead rest = true) :
    parseF (f+1) .value (intToChars n ++ rest) = some (.int n, rest) := by
  unfold intToChars
  by_cases hn : n < 0
  · rw [if_pos hn]
    simp only [List.cons_append]
    rw [parseF.eq_def]
    dsimp only
    rw [skipWs_not_ws '-' _ (by decide)]
    dsimp only
    rw [if_neg (by decide), if_neg (by decide), if_neg (by decide),
      if_neg (by decide), if_neg (by decide), if_neg (by decide), if_pos rfl,
      parseDigits_natToChars n.natAbs rest h]
    dsimp only
    rw [show -(n.natAbs : Int) = n from by omega]
  · rw [if_neg hn, parseF_value_nat f n.toNat rest h,
      show ((n.toNat : Int)) = n from by omega]

lemma parse_objStep (fd fp : Nat) (y : String × Json) (done : List (String × Json))
    (TAIL : List Char)
    (hv : parseF fp .value (' ' :: (dumpFuel fd y.2 ++ TAIL)) = some (y.2, TAIL))
    (hfresh : y.1 ∉ done.map Prod.fst) :
    parseF (fp+1) (.objRest done) (entryChars fd y ++ TAIL) =
      (if headEq (skipWs TAIL) '\x7d' then
        some (.obj (done ++ [y]), (skipWs TAIL).tail)
       else if headEq (skipWs TAIL) ',' then
         parseF fp (.objRest (done ++ [y])) (skipWs TAIL).tail
       else none) := by
  have hp : parseStrChars
      (escapeString y.1.data ++ '"' :: (':' :: ' ' :: (dumpFuel fd y.2 ++ TAIL))) [] =
      some (y.1.data, ':' :: ' ' :: (dumpFuel fd y.2 ++ TAIL)) := by
    rw [parseStr_escape]
    simp
  rw [show entryChars fd y ++ TAIL =
    '"' :: (escapeString y.1.data ++ '"' ::
      (':' :: ' ' :: (dumpFuel fd y.2 ++ TAIL))) from by
    simp [entryChars]]
  rw [parseF.eq_def]
  dsimp only
  rw [skipWs_not_ws '"' _ (by decide)]
  simp only [headEq_cons, List.tail_cons]
  rw [if_pos (by decide), hp]
  dsimp only
  rw [skipWs_not_ws ':' _ (by decide)]
  simp only [headEq_cons, List.tail_cons]
  rw [if_pos (by decide), hv]
  dsimp only
  rw [show (⟨y.1.data⟩ : String) = y.1 from rfl,
    alistSet_fresh done y.1 y.2 hfresh,
    show ((y.1, y.2) : String × Json) = y from rfl]

lemma parse_arrRest (fd : Nat) :
    ∀ (ys : List Json),
      (∀ y ∈ ys, ∀ (fp : Nat) (rest : List Char),
        (dumpFuel fd y ++ rest).length < fp → noDigitHead rest = true →
        parseF fp .value (dumpFuel fd y ++ rest) = some (y, rest)) →
      ∀ (fp : Nat) (done : List Json) (rest : List Char),
        ((ys.map (fun y => ',' :: ' ' :: dumpFuel fd y)).flatten ++
          ']' :: rest).length < fp →
        noDigitHead rest = true →
        parseF fp (.arrRest done)
          ((ys.map (fun y => ',' :: ' ' :: dumpFuel fd y)).flatten ++ ']' :: rest) =
          some (.arr (done ++ ys), rest) := by
  intro ys
  induction ys with
  | nil =>
    intro _ fp done rest hlen _
    simp only [List.map_nil, List.flatten_nil, List.nil_append] at hlen ⊢
    simp only [List.length_cons] at hlen
    rcases fp with _ | fp
    · omega
    rw [parseF.eq_def]
    dsimp only
    rw [skipWs_not_ws ']' _ (by decide)]
    simp only [headEq_cons, List.tail_cons]
    rw [if_pos (by decide)]
    simp
  | cons y t ih =>
    intro hys fp done rest hlen hnd
    have hy := hys y (List.mem_cons_self y t)
    have ht : ∀ e ∈ t, ∀ (fp : Nat) (rest : List Char),
        (dumpFuel fd e ++ rest).length < fp → noDigitHead rest = true →
        parseF fp .value (dumpFuel fd e ++ rest) = some (e, rest) :=
      fun e he => hys e (List.mem_cons_of_mem y he)
    simp only [List.map_cons, List.flatten_cons, List.cons_append,
      List.append_assoc] at hlen ⊢
    simp only [List.length_cons, List.length_append] at hlen
    rcases fp with _ | fp
    · omega
    rcases fp with _ | fp
    · omega
    rw [parseF.eq_def]
    dsimp only
    rw [skipWs_not_ws ',' _ (by decide)]
    simp only [headEq_cons, List.tail_cons]
    rw [if_neg (by decide), if_pos (by decide)]
    rw [parseF_ws fp .value ' ' _ (by decide)]
    rw [hy (fp+1) ((t.map (fun y => ',' :: ' ' :: dumpFuel fd y)).flatten ++
        ']' :: rest)
      (by simp only [List.length_cons, List.length_append]; omega)
      (noDigitHead_flatten (dumpFuel fd) t ']' rest (by decide))]
    dsimp only
    rw [ih ht (fp+1) (done ++ [y]) rest
      (by simp only [List.length_cons, List.length_append]; omega) hnd]
    simp

lemma parse_objRest (fd : Nat) :
    ∀ (t : List (String × Json)),
      (∀ e ∈ t, ∀ (fp : Nat) (rest : List Char),
        (dumpFuel fd e.2 ++ rest).length < fp → noDigitHead rest = true →
        parseF fp .value (dumpFuel fd e.2 ++ rest) = some (e.2, rest)) →
      ∀ (y : String × Json),
        (∀ (fp : Nat) (rest : List Char),
          (dumpFuel fd y.2 ++ rest).length < fp → noDigitHead rest = true →
          parseF fp .value (dumpFuel fd y.2 ++ rest) = some (y.2, rest)) →
      ∀ (fp : Nat) (done : List (String × Json)) (rest : List Char),
        ((entryChars fd y ++
          ((t.map (fun e => ',' :: ' ' :: entryChars fd e)).flatten ++
            '\x7d' :: rest)).length < fp) →
        noDigitHead rest = true →
        ((done ++ y :: t).map Prod.fst).Nodup →
        parseF fp (.objRest done)
          (entryChars fd y ++
            ((t.map (fun e => ',' :: ' ' :: entryChars fd e)).flatten ++
              '\x7d' :: rest)) =
          some (.obj (done ++ y :: t), rest) := by
  intro t
  induction t with
  | nil =>
    intro _ y hy fp done rest hlen hnd hnodup
    have hfresh : y.1 ∉ done.map Prod.fst := by
      have h1 : (done.map Prod.fst ++ y.1 :: ([] : List (String × Json)).map
          Prod.fst).Nodup := by
        have h0 := hnodup
        rw [List.map_append, List.map_cons] at h0
        exact h0
      have h2 := (List.nodup_middle.mp h1)
      exact fun hm => (List.nodup_cons.mp h2).1 (List.mem_append_left _ hm)
    simp only [List.map_nil, List.flatten_nil, List.nil_append] at hlen ⊢
    simp only [entryChars, List.length_cons, List.length_append] at hlen
    rcases fp with _ | fp
    · omega
    rcases fp with _ | fp
    · omega
    rw [parse_objStep fd (fp+1) y done ('\x7d' :: rest) ?hv hfresh]
    case hv =>
      rw [parseF_ws fp .value ' ' _ (by decide)]
      exact hy (fp+1) ('\x7d' :: rest)
        (by simp only [List.length_cons, List.length_append]; omega) rfl
    rw [skipWs_not_ws '\x7d' _ (by decide)]
    simp only [headEq_cons, List.tail_cons]
    rw [if_pos (by decide)]
  | cons y2 t2 ih =>
    intro ht y hy fp done rest hlen hnd hnodup
    have hy2 := ht y2 (List.mem_cons_self y2 t2)
    have ht2 : ∀ e ∈ t2, ∀ (fp : Nat) (rest : List Char),
        (dumpFuel fd e.2 ++ rest).length < fp → noDigitHead rest = true →
        parseF fp .value (dumpFuel fd e.2 ++ rest) = some (e.2, rest) :=
      fun e he => ht e (List.mem_cons_of_mem y2 he)
    have hfresh : y.1 ∉ done.map Prod.fst := by
      have h1 : (done.map Prod.fst ++ y.1 :: (y2 :: t2).map Prod.fst).Nodup := by
        have h0 := hnodup
        rw [List.map_append, List.map_cons] at h0
        exact h0
      have h2 := (List.nodup_middle.mp h1)
      exact fun hm => (List.nodup_cons.mp h2).1 (List.mem_append_left _ hm)
    simp only [List.map_cons, List.flatten_cons, List.cons_append,
      List.append_assoc] at hlen ⊢
    simp only [entryChars, List.length_cons, List.length_append] at hlen
    rcases fp with _ | fp
    · omega
    rcases fp with _ | fp
    · omega
    rw [parse_objStep fd (fp+1) y done
      (',' :: ' ' :: (entryChars fd y2 ++
        ((t2.map (fun e => ',' :: ' ' :: entryChars fd e)).flatten ++
          '\x7d' :: rest))) ?hv hfresh]
    case hv =>
      rw [parseF_ws fp .value ' ' _ (by decide)]
      exact hy (fp+1) _
        (by simp only [entryChars, List.length_cons, List.length_append]; omega) rfl
    rw [skipWs_not_ws ',' _ (by decide)]
    simp only [headEq_cons, List.tail_cons]
    rw [if_neg (by decide), if_pos (by decide)]
    rw [parseF_ws fp (.objRest (done ++ [y])) ' ' _ (by decide)]
    rw [ih ht2 y2 hy2 (fp+1) (done ++ [y]) rest
      (by simp only [entryChars, List.length_cons, List.length_append]; omega)
      hnd
      (by rw [show (done ++ [y]) ++ y2 :: t2 = done ++ y :: y2 :: t2 from by simp]
          exact hnodup)]
    simp

theorem parse_dumpFuel :
    ∀ (v : Json), JsonWF v → ∀ (fd fp : Nat) (rest : List Char),
      jdepth v ≤ fd → (dumpFuel fd v ++ rest).length < fp →
      noDigitHead rest = true →
      parseF fp .value (dumpFuel fd v ++ rest) = some (v, rest) := by
  intro v
  induction v using Json.inductionMem with
  | hnull =>
    intro _ fd fp rest hdep hlen hnd
    rcases fd with _ | fd
    · rw [jdepth_scalar.1] at hdep; omega
    rcases fp with _ | fp
    · exact absurd hlen (Nat.not_lt_zero _)
    show parseF (fp+1) .value (['n', 'u', 'l', 'l'] ++ rest) = some (.null, rest)
    simp only [List.cons_append, List.nil_append]
    exact parseF_value_null fp rest
  | hbool b =>
    intro _ fd fp rest hdep hlen hnd
    rcases fd with _ | fd
    · rw [jdepth_scalar.2.1 b] at hdep; omega
    rcases fp with _ | fp
    · exact absurd hlen (Nat.not_lt_zero _)
    cases b with
    | true =>
      show parseF (fp+1) .value (['t', 'r', 'u', 'e'] ++ rest) =
        some (.bool true, rest)
      simp only [List.cons_append, List.nil_append]
      exact parseF_value_true fp rest
    | false =>
      show parseF (fp+1) .value (['f', 'a', 'l', 's', 'e'] ++ rest) =
        some (.bool false, rest)
      simp only [List.cons_append, List.nil_append]
      exact parseF_value_false fp rest
  | hint n =>
    intro _ fd fp rest hdep hlen hnd
    rcases fd with _ | fd
    · rw [jdepth_scalar.2.2.1 n] at hdep; omega
    rcases fp with _ | fp
    · exact absurd hlen (Nat.not_lt_zero _)
    show parseF (fp+1) .value (intToChars n ++ rest) = some (.int n, rest)
    exact parseF_value_int fp n rest hnd
  | hstr s =>
    intro _ fd fp rest hdep hlen hnd
    rcases fd with _ | fd
    · rw [jdepth_scalar.2.2.2 s] at hdep; omega
    rcases fp with _ | fp
    · exact absurd hlen (Nat.not_lt_zero _)
    show parseF (fp+1) .value (('"' :: escapeString s.data ++ ['"']) ++ rest) =
      some (.str s, rest)
    simp only [List.cons_append, List.append_assoc, List.singleton_append]
    exact parseF_value_str fp s rest
  | harr xs hmem =>
    intro hwf fd fp rest hdep hlen hnd
    rcases fd with _ | fd
    · rw [jdepth_arr] at hdep; omega
    have hwfx : ∀ x ∈ xs, JsonWF x := by
      cases hwf with | arr _ h => exact h
    have hdepx : ∀ x ∈ xs, jdepth x ≤ fd := by
      intro x hx
      rw [jdepth_arr] at hdep
      have := le_listMax_of_mem (List.mem_map_of_mem jdepth hx)
      omega
    have hRT : ∀ x ∈ xs, ∀ (fq : Nat) (r : List Char),
        (dumpFuel fd x ++ r).length < fq → noDigitHead r = true →
        parseF fq .value (dumpFuel fd x ++ r) = some (x, r) :=
      fun x hx fq r h1 h2 => hmem x hx (hwfx x hx) fd fq r (hdepx x hx) h1 h2
    rw [dump_arr_eq] at hlen ⊢
    cases xs with
    | nil =>
      simp only [List.map_nil, show joinComma ([] : List (List Char)) = [] from rfl,
        List.append_nil, List.cons_append, List.nil_append,
        List.singleton_append] at hlen ⊢
      simp only [List.length_cons] at hlen
      rcases fp with _ | fp
      · omega
      rw [parseF.eq_def]
      dsimp only
      rw [skipWs_not_ws '[' _ (by decide)]
      dsimp only
      rw [if_neg (by decide), if_pos rfl]
      rw [skipWs_not_ws ']' _ (by decide)]
      simp only [headEq_cons, List.tail_cons]
      rw [if_pos (by decide)]
    | cons x xs' =>
      have hdx1 : jdepth x ≤ fd := hdepx x (List.mem_cons_self x xs')
      have hdx0 := jdepth_pos x
      rcases fd with _ | fd
      · omega
      simp only [List.map_cons] at hlen ⊢
      rw [joinComma_cons] at hlen ⊢
      simp only [List.map_map, Function.comp_def] at hlen ⊢
      simp only [List.cons_append, List.append_assoc, List.nil_append,
        List.singleton_append] at hlen ⊢
      simp only [List.length_cons, List.length_append] at hlen
      rcases fp with _ | fp
      · omega
      obtain ⟨c0, t0, hd0, hws0, hne0, -⟩ := dump_head_safe fd x
      generalize hZ : ((xs'.map (fun y => ',' :: ' ' :: dumpFuel (fd+1) y)).flatten ++
        ']' :: rest) = Z
      rw [parseF.eq_def]
      dsimp only
      rw [skipWs_not_ws '[' _ (by decide)]
      dsimp only
      rw [if_neg (by decide), if_pos rfl]
      rw [show skipWs (dumpFuel (fd+1) x ++ Z) = dumpFuel (fd+1) x ++ Z from by
        rw [hd0]; exact skipWs_not_ws c0 _ hws0]
      rw [if_neg (show ¬(headEq (dumpFuel (fd+1) x ++ Z) ']' = true) from by
        rw [hd0]; simp [List.cons_append, headEq_cons, hne0])]
      rw [← hZ]
      rw [hRT x (List.mem_cons_self x xs') fp _
        (by simp only [List.length_cons, List.length_append]; omega)
        (noDigitHead_flatten (dumpFuel (fd+1)) xs' ']' rest (by decide))]
      dsimp only
      rw [parse_arrRest (fd+1) xs'
        (fun e he => hRT e (List.mem_cons_of_mem x he)) fp [x] rest
        (by simp only [List.length_cons, List.length_append]; omega) hnd]
      simp
  | hobj es hmem =>
    intro hwf fd fp rest hdep hlen hnd
    rcases fd with _ | fd
    · rw [jdepth_obj] at hdep; omega
    have hkeys : (es.map Prod.fst).Nodup := by
      cases hwf with | obj _ hk _ => exact hk
    have hwfe : ∀ e ∈ es, JsonWF e.2 := by
      cases hwf with | obj _ _ h => exact h
    have hdepe : ∀ e ∈ es, jdepth e.2 ≤ fd := by
      intro e he
      rw [jdepth_obj] at hdep
      have h2 : jdepth e.2 ≤ listMax (es.map (fun e => jdepth e.2)) :=
        le_listMax_of_mem (List.mem_map_of_mem (fun e => jdepth e.2) he)
      omega
    have hRT : ∀ e ∈ es, ∀ (fq : Nat) (r : List Char),
        (dumpFuel fd e.2 ++ r).length < fq → noDigitHead r = true →
        parseF fq .value (dumpFuel fd e.2 ++ r) = some (e.2, r) :=
      fun e he fq r h1 h2 => hmem e he (hwfe e he) fd fq r (hdepe e he) h1 h2
    rw [dump_obj_eq] at hlen ⊢
    cases es with
    | nil =>
      simp only [List.map_nil, show joinComma ([] : List (List Char)) = [] from rfl,
        List.append_nil, List.cons_append, List.nil_append,
        List.singleton_append] at hlen ⊢
      simp only [List.length_cons] at hlen
      rcases fp with _ | fp
      · omega
      rw [parseF.eq_def]
      dsimp only
      rw [skipWs_not_ws '\x7b' _ (by decide)]
      dsimp only
      rw [if_neg (by decide), if_neg (by decide), if_pos rfl]
      rw [skipWs_not_ws '\x7d' _ (by decide)]
      simp only [headEq_cons, List.tail_cons]
      rw [if_pos (by decide)]
    | cons e es' =>
      have hde1 : jdepth e.2 ≤ fd := hdepe e (List.mem_cons_self e es')
      have hde0 := jdepth_pos e.2
      rcases fd with _ | fd
      · omega
      simp only [List.map_cons] at hlen ⊢
      rw [joinComma_cons] at hlen ⊢
      simp only [List.map_map, Function.comp_def] at hlen ⊢
      simp only [List.cons_append, List.append_assoc, List.nil_append,
        List.singleton_append] at hlen ⊢
      simp only [entryChars, List.length_cons, List.length_append] at hlen
      rcases fp with _ | fp
      · omega
      generalize hZ : ((es'.map (fun y => ',' :: ' ' :: entryChars (fd+1) y)).flatten ++
        '\x7d' :: rest) = Z
      rw [parseF.eq_def]
      dsimp only
      rw [skipWs_not_ws '\x7b' _ (by decide)]
      dsimp only
      rw [if_neg (by decide), if_neg (by decide), if_pos rfl]
      rw [show skipWs (entryChars (fd+1) e ++ Z) = entryChars (fd+1) e ++ Z from
        skipWs_not_ws '"' _ (by decide)]
      rw [if_neg (show ¬(headEq (entryChars (fd+1) e ++ Z) '\x7d' = true) from by
        simp [entryChars, List.cons_append, headEq_cons])]
      rw [← hZ]
      rw [parse_objRest (fd+1) es'
        (fun e2 he2 => hRT e2 (List.mem_cons_of_mem e he2)) e
        (hRT e (List.mem_cons_self e es')) fp [] rest
        (by simp only [entryChars, List.length_cons, List.length_append]; omega)
        hnd
        (by simpa using hkeys)]
      simp

lemma alistGet_mem {α : Type} (es : List (String × α)) (k : String) (v : α)
    (h : alistGet es k = some v) : (k, v) ∈ es := by
  induction es with
  | nil => cases h
  | cons e t ih =>
    rw [show alistGet (e :: t) k =
      (if e.1 = k then some e.2 else alistGet t k) from by
        rcases e with ⟨a, b⟩; rfl] at h
    by_cases hk : e.1 = k
    · rw [if_pos hk] at h
      have hv := Option.some.inj h
      have he : e = (k, v) := by rw [← hk, ← hv]
      exact List.mem_cons.mpr (Or.inl he.symm)
    · rw [if_neg hk] at h
      exact List.mem_cons_of_mem e (ih h)

lemma alistSet_mem {α : Type} (es : List (String × α)) (k : String) (v : α)
    (e : String × α) (h : e ∈ alistSet es k v) : e = (k, v) ∨ e ∈ es := by
  induction es with
  | nil =>
    rcases List.mem_cons.mp (show e ∈ [(k, v)] from h) with h1 | h1
    · exact Or.inl h1
    · cases h1
  | cons e0 t ih =>
    rw [show alistSet (e0 :: t) k v =
      (if e0.1 = k then (k, v) :: t else e0 :: alistSet t k v) from by
        rcases e0 with ⟨a, b⟩; rfl] at h
    by_cases hk : e0.1 = k
    · rw [if_pos hk] at h
      rcases List.mem_cons.mp h with h1 | h1
      · exact Or.inl h1
      · exact Or.inr (List.mem_cons_of_mem e0 h1)
    · rw [if_neg hk] at h
      rcases List.mem_cons.mp h with h1 | h1
      · exact Or.inr (h1 ▸ List.mem_cons_self e0 t)
      · rcases ih h1 with h2 | h2
        · exact Or.inl h2
        · exact Or.inr (List.mem_cons_of_mem e0 h2)

lemma alistSet_keys_eq {α : Type} (es : List (String × α)) (k : String) (v : α) :
    (alistSet es k v).map Prod.fst =
      (if k ∈ es.map Prod.fst then es.map Prod.fst
       else es.map Prod.fst ++ [k]) := by
  induction es with
  | nil =>
    rw [if_neg (by simp)]
    rfl
  | cons e0 t ih =>
    rw [show alistSet (e0 :: t) k v =
      (if e0.1 = k then (k, v) :: t else e0 :: alistSet t k v) from by
        rcases e0 with ⟨a, b⟩; rfl]
    by_cases hk : e0.1 = k
    · rw [if_pos hk]
      rw [if_pos (by simp [hk])]
      simp [hk]
    · rw [if_neg hk]
      by_cases hmem : k ∈ t.map Prod.fst
    
      · rw [if_pos (by simp [hmem])]
        simp only [List.map_cons, ih, if_pos hmem]
      · rw [if_neg (by
          simp only [List.map_cons, List.mem_cons]
          exact fun hc => hc.elim (fun h1 => hk h1.symm) hmem)]
        simp only [List.map_cons, ih, if_neg hmem]
        simp

lemma alistSet_keys_nodup {α : Type} (es : List (String × α)) (k : String)
    (v : α) (h : (es.map Prod.fst).Nodup) :
    ((alistSet es k v).map Prod.fst).Nodup := by
  rw [alistSet_keys_eq]
  by_cases hmem : k ∈ es.map Prod.fst
  · rw [if_pos hmem]
    exact h
  · rw [if_neg hmem]
    rw [List.nodup_append]
    exact ⟨h, List.nodup_singleton k,
      fun a ha hak => hmem ((List.mem_singleton.mp hak) ▸ ha)⟩

lemma jdepth_mem_arr {xs : List Json} {x : Json} (h : x ∈ xs) :
    jdepth x + 1 ≤ jdepth (.arr xs) := by
  rw [jdepth_arr]
  have := le_listMax_of_mem (List.mem_map_of_mem jdepth h)
  omega

lemma jdepth_mem_obj {es : List (String × Json)} {e : String × Json}
    (h : e ∈ es) : jdepth e.2 + 1 ≤ jdepth (.obj es) := by
  rw [jdepth_obj]
  have h2 : jdepth e.2 ≤ listMax (es.map (fun e => jdepth e.2)) :=
    le_listMax_of_mem (List.mem_map_of_mem (fun e => jdepth e.2) h)
  omega

lemma jdepth_get (j : Json) (k : String) (w : Json) (h : j.get? k = some w) :
    jdepth w + 1 ≤ jdepth j := by
  cases j with
  | obj es => exact jdepth_mem_obj (alistGet_mem es k w h)
  | null => cases h
  | bool b => cases h
  | int n => cases h
  | str s => cases h
  | arr xs => cases h

lemma jdepth_set_le (j : Json) (k : String) (w : Json) :
    jdepth (j.set k w) ≤ max (jdepth j) (1 + jdepth w) := by
  cases j with
  | obj es =>
    show jdepth (.obj (alistSet es k w)) ≤ _
    rw [jdepth_obj, jdepth_obj]
    have hb : listMax ((alistSet es k w).map (fun e => jdepth e.2)) ≤
        max (listMax (es.map (fun e => jdepth e.2))) (jdepth w) := by
      rw [listMax_le]
      intro x hx
      rcases List.mem_map.mp hx with ⟨e, he, hxe⟩
      rcases alistSet_mem es k w e he with rfl | hmem
      · simp only [← hxe]
        exact le_max_right _ _
      · have h3 : jdepth e.2 ≤ listMax (es.map (fun e => jdepth e.2)) :=
          le_listMax_of_mem (List.mem_map_of_mem (fun e => jdepth e.2) hmem)
        rw [← hxe]
        exact le_trans h3 (le_max_left _ _)
    omega
  | null => exact le_max_left _ _
  | bool b => exact le_max_left _ _
  | int n => exact le_max_left _ _
  | str s => exact le_max_left _ _
  | arr xs => exact le_max_left _ _

lemma JsonWF_set (j : Json) (k : String) (w : Json) (hj : JsonWF j)
    (hw : JsonWF w) : JsonWF (j.set k w) := by
  cases j with
  | obj es =>
    cases hj with
    | obj _ hk h =>
      refine JsonWF.obj _ (alistSet_keys_nodup es k w hk) ?_
      intro e he
      rcases alistSet_mem es k w e he with rfl | hmem
      · exact hw
      · exact h e hmem
  | null => exact hj
  | bool b => exact hj
  | int n => exact hj
  | str s => exact hj
  | arr xs => exact hj

lemma alistGet_set_self {α : Type} (es : List (String × α)) (k : String)
    (v : α) : alistGet (alistSet es k v) k = some v := by
  induction es with
  | nil => simp [alistSet, alistGet]
  | cons e0 t ih =>
    rw [show alistSet (e0 :: t) k v =
      (if e0.1 = k then (k, v) :: t else e0 :: alistSet t k v) from by
        rcases e0 with ⟨a, b⟩; rfl]
    by_cases hk : e0.1 = k
    · rw [if_pos hk]
      show (if k = k then some v else alistGet t k) = some v
      rw [if_pos rfl]
    · rw [if_neg hk]
      show (if e0.1 = k then some e0.2 else alistGet (alistSet t k v) k) = some v
      rw [if_neg hk, ih]

lemma alistGet_set_ne {α : Type} (es : List (String × α)) (k k2 : String)
    (v : α) (h : ¬(k2 = k)) : alistGet (alistSet es k v) k2 = alistGet es k2 := by
  induction es with
  | nil =>
    show (if k = k2 then some v else none) = none
    rw [if_neg (fun hc => h hc.symm)]
  | cons e0 t ih =>
    rw [show alistSet (e0 :: t) k v =
      (if e0.1 = k then (k, v) :: t else e0 :: alistSet t k v) from by
        rcases e0 with ⟨a, b⟩; rfl]
    by_cases hk : e0.1 = k
    · rw [if_pos hk]
      show (if k = k2 then some v else alistGet t k2) = _
      rw [if_neg (fun hc => h hc.symm)]
      show _ = (if e0.1 = k2 then some e0.2 else alistGet t k2)
      rw [if_neg (fun hc => h (by rw [← hc, hk]))]
    · rw [if_neg hk]
      show (if e0.1 = k2 then some e0.2 else alistGet (alistSet t k v) k2) = _
      show _ = (if e0.1 = k2 then some e0.2 else alistGet t k2)
      by_cases h2 : e0.1 = k2
      · rw [if_pos h2, if_pos h2]
      · rw [if_neg h2, if_neg h2, ih]

lemma get_set_self (j : Json) (k : String) (w : Json) (hj : j.isObj = true) :
    (j.set k w).get? k = some w := by
  cases j with
  | obj es => exact alistGet_set_self es k w
  | null => cases hj
  | bool b => cases hj
  | int n => cases hj
  | str s => cases hj
  | arr xs => cases hj

lemma get_set_ne (j : Json) (k k2 : String) (w : Json) (h : ¬(k2 = k)) :
    (j.set k w).get? k2 = j.get? k2 := by
  cases j with
  | obj es => exact alistGet_set_ne es k k2 w h
  | null => rfl
  | bool b => rfl
  | int n => rfl
  | str s => rfl
  | arr xs => rfl

lemma set_isObj (j : Json) (k : String) (w : Json) :
    (j.set k w).isObj = j.isObj := by
  cases j <;> rfl

lemma parseF_inv : ∀ (n : Nat) (task : PTask) (cs : List Char) (v : Json)
    (rest : List Char), parseF n task cs = some (v, rest) →
    (match task with
     | .value => jdepth v ≤ n ∧ JsonWF v
     | .arrRest acc => ∀ B, (∀ a ∈ acc, jdepth a ≤ B ∧ JsonWF a) →
         jdepth v ≤ max (B + 1) n ∧ JsonWF v
     | .objRest acc => ∀ B, ((acc.map Prod.fst).Nodup ∧
           ∀ e ∈ acc, jdepth e.2 ≤ B ∧ JsonWF e.2) →
         jdepth v ≤ max (B + 1) n ∧ JsonWF v) := by
  intro n
  induction n with
  | zero =>
    intro task cs v rest h
    exact Option.noConfusion h
  | succ m ih =>
    intro task cs v rest h
    rw [parseF.eq_def] at h
    dsimp only at h
    cases task with
    | value =>
      dsimp only at h
      cases hsw : skipWs cs with
      | nil =>
        rw [hsw] at h
        exact Option.noConfusion h
      | cons c r =>
        rw [hsw] at h
        dsimp only at h
        split at h
        · -- string
          cases hps : parseStrChars r [] with
          | none => rw [hps] at h; exact Option.noConfusion h
          | some p =>
            obtain ⟨chars, rest2⟩ := p
            rw [hps] at h
            dsimp only at h
            simp only [Option.some.injEq, Prod.mk.injEq] at h
            obtain ⟨hv, hr⟩ := h
            subst hv
            exact ⟨by rw [jdepth_scalar.2.2.2]; omega, JsonWF.str _⟩
        · split at h
          · -- array
            split at h
            · simp only [Option.some.injEq, Prod.mk.injEq] at h
              obtain ⟨hv, hr⟩ := h
              subst hv
              refine ⟨?_, JsonWF.arr [] (by intro x hx; cases hx)⟩
              rw [jdepth_arr]
              simp only [List.map_nil]
              show 1 + listMax [] ≤ m + 1
              simp [listMax]
            · cases hpv : parseF m .value (skipWs r) with
              | none => rw [hpv] at h; exact Option.noConfusion h
              | some p =>
                obtain ⟨v2, r2⟩ := p
                rw [hpv] at h
                dsimp only at h
                have h1 : jdepth v2 ≤ m ∧ JsonWF v2 := ih .value _ v2 r2 hpv
                have h2 : jdepth v ≤ max (m + 1) m ∧ JsonWF v :=
                  ih (.arrRest [v2]) r2 v rest h m (by
                    intro a ha
                    rw [List.mem_singleton.mp ha]
                    exact h1)
                exact ⟨by omega, h2.2⟩
          · split at h
            · -- object
              split at h
              · simp only [Option.some.injEq, Prod.mk.injEq] at h
                obtain ⟨hv, hr⟩ := h
                subst hv
                refine ⟨?_, JsonWF.obj [] (by simp) (by intro e he; cases he)⟩
                rw [jdepth_obj]
                simp only [List.map_nil]
                show 1 + listMax [] ≤ m + 1
                simp [listMax]
              · have h2 : jdepth v ≤ max (0 + 1) m ∧ JsonWF v :=
                  ih (.objRest []) _ v rest h 0
                    ⟨by simp, by intro e he; cases he⟩
                exact ⟨by omega, h2.2⟩
            · split at h
              · -- null literal
                split at h
                · simp only [Option.some.injEq, Prod.mk.injEq] at h
                  obtain ⟨hv, hr⟩ := h
                  subst hv
                  exact ⟨by rw [jdepth_scalar.1]; omega, JsonWF.null⟩
                · exact Option.noConfusion h
              · split at h
                · -- true literal
                  split at h
                  · simp only [Option.some.injEq, Prod.mk.injEq] at h
                    obtain ⟨hv, hr⟩ := h
                    subst hv
                    exact ⟨by rw [jdepth_scalar.2.1]; omega, JsonWF.bool _⟩
                  · exact Option.noConfusion h
                · split at h
                  · -- false literal
                    split at h
                    · simp only [Option.some.injEq, Prod.mk.injEq] at h
                      obtain ⟨hv, hr⟩ := h
                      subst hv
                      exact ⟨by rw [jdepth_scalar.2.1]; omega, JsonWF.bool _⟩
                    · exact Option.noConfusion h
                  · split at h
                    · -- negative number
                      cases hpd : parseDigits r with
                      | none => rw [hpd] at h; exact Option.noConfusion h
                      | some p =>
                        obtain ⟨k, r2⟩ := p
                        rw [hpd] at h
                        dsimp only at h
                        simp only [Option.some.injEq, Prod.mk.injEq] at h
                        obtain ⟨hv, hr⟩ := h
                        subst hv
                        exact ⟨by rw [jdepth_scalar.2.2.1]; omega, JsonWF.int _⟩
                    · split at h
                      · -- number
                        cases hpd : parseDigits (c :: r) with
                        | none => rw [hpd] at h; exact Option.noConfusion h
                        | some p =>
                          obtain ⟨k, r2⟩ := p
                          rw [hpd] at h
                          dsimp only at h
                          simp only [Option.some.injEq, Prod.mk.injEq] at h
                          obtain ⟨hv, hr⟩ := h
                          subst hv
                          exact ⟨by rw [jdepth_scalar.2.2.1]; omega, JsonWF.int _⟩
                      · exact Option.noConfusion h
    | arrRest acc =>
      dsimp only at h
      intro B hB
      split at h
      · simp only [Option.some.injEq, Prod.mk.injEq] at h
        obtain ⟨hv, hr⟩ := h
        subst hv
        constructor
        · rw [jdepth_arr]
          have hm : listMax (acc.map jdepth) ≤ B := by
            rw [listMax_le]
            intro x hx
            rcases List.mem_map.mp hx with ⟨a, ha, hxa⟩
            rw [← hxa]
            exact (hB a ha).1
          have := le_max_left (B + 1) (m + 1)
          omega
        · exact JsonWF.arr acc (fun a ha => (hB a ha).2)
      · split at h
        · cases hpv : parseF m .value (skipWs cs).tail with
          | none => rw [hpv] at h; exact Option.noConfusion h
          | some p =>
            obtain ⟨v2, r2⟩ := p
            rw [hpv] at h
            dsimp only at h
            have h1 : jdepth v2 ≤ m ∧ JsonWF v2 := ih .value _ v2 r2 hpv
            have h2 : jdepth v ≤ max (max B m + 1) m ∧ JsonWF v :=
              ih (.arrRest (acc ++ [v2])) r2 v rest h (max B m) (by
                intro a ha
                rcases List.mem_append.mp ha with h3 | h3
                · exact ⟨le_trans (hB a h3).1 (le_max_left _ _), (hB a h3).2⟩
                · rw [List.mem_singleton.mp h3]
                  exact ⟨le_trans h1.1 (le_max_right _ _), h1.2⟩)
            exact ⟨by omega, h2.2⟩
        · exact Option.noConfusion h
    | objRest acc =>
      dsimp only at h
      intro B hB
      split at h
      · cases hps : parseStrChars (skipWs cs).tail [] with
        | none => rw [hps] at h; exact Option.noConfusion h
        | some p =>
          obtain ⟨kchars, r2⟩ := p
          rw [hps] at h
          dsimp only at h
          split at h
          · cases hpv : parseF m .value (skipWs r2).tail with
            | none => rw [hpv] at h; exact Option.noConfusion h
            | some q =>
              obtain ⟨v4, r4⟩ := q
              rw [hpv] at h
              dsimp only at h
              have h1 : jdepth v4 ≤ m ∧ JsonWF v4 := ih .value _ v4 r4 hpv
              have hnd : ((alistSet acc ⟨kchars⟩ v4).map Prod.fst).Nodup :=
                alistSet_keys_nodup acc _ v4 hB.1
              have hmem : ∀ e ∈ alistSet acc ⟨kchars⟩ v4,
                  jdepth e.2 ≤ max B m ∧ JsonWF e.2 := by
                intro e he
                rcases alistSet_mem acc _ v4 e he with rfl | h3
                · exact ⟨le_trans h1.1 (le_max_right _ _), h1.2⟩
                · exact ⟨le_trans (hB.2 e h3).1 (le_max_left _ _), (hB.2 e h3).2⟩
              split at h
              · simp only [Option.some.injEq, Prod.mk.injEq] at h
                obtain ⟨hv, hr⟩ := h
                subst hv
                constructor
                · rw [jdepth_obj]
                  have hm2 : listMax ((alistSet acc ⟨kchars⟩ v4).map
                      (fun e => jdepth e.2)) ≤ max B m := by
                    rw [listMax_le]
                    intro x hx
                    rcases List.mem_map.mp hx with ⟨e, he, hxe⟩
                    rw [← hxe]
                    exact (hmem e he).1
                  have := le_max_left (B + 1) (m + 1)
                  have := le_max_right (B + 1) (m + 1)
                  omega
                · exact JsonWF.obj _ hnd (fun e he => (hmem e he).2)
              · split at h
                · have h2 : jdepth v ≤ max (max B m + 1) m ∧ JsonWF v :=
                    ih (.objRest (alistSet acc ⟨kchars⟩ v4)) _ v rest h
                      (max B m) ⟨hnd, hmem⟩
                  exact ⟨by omega, h2.2⟩
                · exact Option.noConfusion h
          · exact Option.noConfusion h
      · exact Option.noConfusion h

lemma pyLoadsChars_inv (cs : List Char) (v : Json)
    (h : pyLoadsChars cs = some v) : jdepth v ≤ cs.length + 1 ∧ JsonWF v := by
  unfold pyLoadsChars at h
  cases hp : parseF (cs.length + 1) .value cs with
  | none => rw [hp] at h; exact Option.noConfusion h
  | some p =>
    obtain ⟨w, r⟩ := p
    rw [hp] at h
    dsimp only at h
    split at h
    · have hinv : jdepth w ≤ cs.length + 1 ∧ JsonWF w :=
        parseF_inv (cs.length + 1) .value cs w r hp
      rw [← Option.some.inj h]
      exact hinv
    · exact Option.noConfusion h

lemma listMax_attained (l : List Nat) : listMax l = 0 ∨ listMax l ∈ l := by
  induction l with
  | nil => exact Or.inl rfl
  | cons a t ih =>
    simp only [listMax, List.foldr_cons]
    rcases max_choice a (t.foldr max 0) with h | h
    · rw [h]
      exact Or.inr (List.mem_cons_self a t)
    · rw [h]
      rcases ih with h2 | h2
      · exact Or.inl h2
      · exact Or.inr (List.mem_cons_of_mem a h2)

lemma flatten_ge_mem {α : Type} (f : α → List Char) (t : List α) (a : α)
    (h : a ∈ t) : (f a).length ≤ ((t.map f).flatten).length := by
  induction t with
  | nil => cases h
  | cons x t2 ih =>
    simp only [List.map_cons, List.flatten_cons, List.length_append]
    rcases List.mem_cons.mp h with rfl | hx
    · omega
    · have := ih hx
      omega

lemma joinComma_ge_mem (L : List (List Char)) (a : List Char) (h : a ∈ L) :
    a.length ≤ (joinComma L).length := by
  induction L with
  | nil => cases h
  | cons x t ih =>
    rw [joinComma_cons]
    rw [List.length_append]
    rcases List.mem_cons.mp h with rfl | hx
    · omega
    · have h2 := flatten_ge_mem (fun e => ',' :: ' ' :: e) t a hx
      simp only [List.length_cons] at h2
      omega

lemma dumpFuel_irrel : ∀ (v : Json) (f1 f2 : Nat), jdepth v ≤ f1 →
    jdepth v ≤ f2 → dumpFuel f1 v = dumpFuel f2 v := by
  intro v
  induction v using Json.inductionMem with
  | hnull =>
    intro f1 f2 h1 h2
    rw [jdepth_scalar.1] at h1 h2
    rcases f1 with _ | f1
    · omega
    rcases f2 with _ | f2
    · omega
    rfl
  | hbool b =>
    intro f1 f2 h1 h2
    rw [jdepth_scalar.2.1 b] at h1 h2
    rcases f1 with _ | f1
    · omega
    rcases f2 with _ | f2
    · omega
    cases b <;> rfl
  | hint n =>
    intro f1 f2 h1 h2
    rw [jdepth_scalar.2.2.1 n] at h1 h2
    rcases f1 with _ | f1
    · omega
    rcases f2 with _ | f2
    · omega
    rfl
  | hstr s =>
    intro f1 f2 h1 h2
    rw [jdepth_scalar.2.2.2 s] at h1 h2
    rcases f1 with _ | f1
    · omega
    rcases f2 with _ | f2
    · omega
    rfl
  | harr xs hmem =>
    intro f1 f2 h1 h2
    rw [jdepth_arr] at h1 h2
    rcases f1 with _ | f1
    · omega
    rcases f2 with _ | f2
    · omega
    rw [dump_arr_eq, dump_arr_eq]
    have hm : xs.map (dumpFuel f1) = xs.map (dumpFuel f2) := by
      apply List.map_congr_left
      intro x hx
      have hd : jdepth x ≤ listMax (xs.map jdepth) :=
        le_listMax_of_mem (List.mem_map_of_mem jdepth hx)
      exact hmem x hx f1 f2 (by omega) (by omega)
    rw [hm]
  | hobj es hmem =>
    intro f1 f2 h1 h2
    rw [jdepth_obj] at h1 h2
    rcases f1 with _ | f1
    · omega
    rcases f2 with _ | f2
    · omega
    rw [dump_obj_eq, dump_obj_eq]
    have hm : es.map (entryChars f1) = es.map (entryChars f2) := by
      apply List.map_congr_left
      intro e he
      have hd : jdepth e.2 ≤ listMax (es.map (fun e => jdepth e.2)) :=
        le_listMax_of_mem (List.mem_map_of_mem (fun e => jdepth e.2) he)
      unfold entryChars
      rw [hmem e he f1 f2 (by omega) (by omega)]
    rw [hm]

lemma jdepth_le_dumpLen : ∀ (v : Json) (f : Nat), jdepth v ≤ f →
    jdepth v ≤ (dumpFuel f v).length + 1 := by
  intro v
  induction v using Json.inductionMem with
  | hnull => intro f h; rw [jdepth_scalar.1]; omega
  | hbool b => intro f h; rw [jdepth_scalar.2.1 b]; omega
  | hint n => intro f h; rw [jdepth_scalar.2.2.1 n]; omega
  | hstr s => intro f h; rw [jdepth_scalar.2.2.2 s]; omega
  | harr xs hmem =>
    intro f h
    rw [jdepth_arr] at h ⊢
    rcases f with _ | f
    · omega
    rw [dump_arr_eq]
    rcases listMax_attained (xs.map jdepth) with h0 | hmem2
    · simp only [List.length_append, List.length_cons]
      omega
    · rcases List.mem_map.mp hmem2 with ⟨x, hx, hxd⟩
      have hd : jdepth x ≤ listMax (xs.map jdepth) := by rw [hxd]
      have hih := hmem x hx f (by omega)
      have hjc : (dumpFuel f x).length ≤
          (joinComma (xs.map (dumpFuel f))).length :=
        joinComma_ge_mem _ _ (List.mem_map_of_mem (dumpFuel f) hx)
      simp only [List.length_append, List.length_cons]
      omega
  | hobj es hmem =>
    intro f h
    rw [jdepth_obj] at h ⊢
    rcases f with _ | f
    · omega
    rw [dump_obj_eq]
    rcases listMax_attained (es.map (fun e => jdepth e.2)) with h0 | hmem2
    · simp only [List.length_append, List.length_cons]
      omega
    · rcases List.mem_map.mp hmem2 with ⟨e, he, hed⟩
      have hd : jdepth e.2 ≤ listMax (es.map (fun e => jdepth e.2)) := by
        rw [hed]
      have hih := hmem e he f (by omega)
      have hjc : (entryChars f e).length ≤
          (joinComma (es.map (entryChars f))).length :=
        joinComma_ge_mem _ _ (List.mem_map_of_mem (entryChars f) he)
      have hent : (dumpFuel f e.2).length ≤ (entryChars f e).length := by
        unfold entryChars
        simp only [List.length_cons, List.length_append]
        omega
      simp only [List.length_append, List.length_cons]
      omega

lemma rstripNl_last (s : List Char) (c : Char) (hc : ¬(c = '\n')) :
    rstripNl (s ++ [c]) = s ++ [c] := by
  unfold rstripNl
  rw [List.reverse_append]
  rw [show ([c] : List Char).reverse = [c] from rfl, List.singleton_append]
  rw [List.dropWhile_cons]
  rw [if_neg (by simp [hc])]
  rw [List.reverse_cons, List.reverse_reverse]

lemma pyLoadsChars_dump (v : Json) (hwf : JsonWF v) (fd : Nat)
    (hd : jdepth v ≤ fd) : pyLoadsChars (dumpFuel fd v) = some v := by
  unfold pyLoadsChars
  have hp := parse_dumpFuel v hwf fd ((dumpFuel fd v).length + 1) [] hd
    (by rw [List.append_nil]; omega) rfl
  rw [List.append_nil] at hp
  rw [hp]
  rfl

lemma jdepth_ge_two_of_hasKey (j : Json) (k : String) (h : j.hasKey k = true) :
    2 ≤ jdepth j := by
  unfold Json.hasKey at h
  rcases hg : j.get? k with _ | w
  · rw [hg] at h
    cases h
  · have h1 := jdepth_get j k w hg
    have h2 := jdepth_pos w
    omega

lemma getD_eqStr_get? (m : Json) (k : String) (s : String)
    (h : (m.getD k).eqStr s = true) : m.get? k = some (.str s) := by
  unfold Json.getD at h
  rcases hg : m.get? k with _ | w
  · rw [hg] at h
    cases h
  · rw [hg] at h
    cases w with
    | str t =>
      have ht : t = s := of_decide_eq_true h
      rw [ht]
    | null => cases h
    | bool b => cases h
    | int n => cases h
    | arr xs => cases h
    | obj es => cases h

lemma JsonWF_get (j : Json) (k : String) (w : Json) (hwf : JsonWF j)
    (h : j.get? k = some w) : JsonWF w := by
  cases j with
  | obj es =>
    cases hwf with
    | obj _ _ hm => exact hm _ (alistGet_mem es k w h)
  | null => cases h
  | bool b => cases h
  | int n => cases h
  | str s => cases h
  | arr xs => cases h

lemma JsonWF_arr_mem {xs : List Json} {x : Json} (hwf : JsonWF (.arr xs))
    (h : x ∈ xs) : JsonWF x := by
  cases hwf with
  | arr _ hm => exact hm x h

lemma toList_nonlist (j : Json) (h : j.isList = false) : j.toList = [] := by
  cases j <;> first | rfl | cases h

lemma listMax_map_le {α : Type} (f g : α → Nat) (l : List α)
    (h : ∀ x ∈ l, f x ≤ g x) : listMax (l.map f) ≤ listMax (l.map g) := by
  rw [listMax_le]
  intro x hx
  rcases List.mem_map.mp hx with ⟨a, ha, hxa⟩
  rw [← hxa]
  exact le_trans (h a ha) (le_listMax_of_mem (List.mem_map_of_mem g ha))

lemma fix_item_props (it : Json) :
    jdepth (fix_item it).1 ≤ jdepth it ∧
    (JsonWF it → JsonWF (fix_item it).1) ∧
    ((fix_item it).1.isObj && !(fix_item it).1.hasKey "type" &&
      (fix_item it).1.hasKey "text") = false := by
  unfold fix_item
  by_cases hc : (it.isObj && !it.hasKey "type" && it.hasKey "text") = true
  · rw [if_pos hc]
    dsimp only
    rcases band_true hc with ⟨hc1, htext⟩
    rcases band_true hc1 with ⟨hobj, hntype⟩
    have h2 : 2 ≤ jdepth it := jdepth_ge_two_of_hasKey it "text" htext
    refine ⟨?_, ?_, ?_⟩
    · have := jdepth_set_le it "type" (.str "text")
      rw [jdepth_scalar.2.2.2] at this
      omega
    · intro hwf
      exact JsonWF_set it "type" (.str "text") hwf (JsonWF.str _)
    · have hk : (it.set "type" (.str "text")).hasKey "type" = true := by
        unfold Json.hasKey
        rw [get_set_self it "type" (.str "text") hobj]
        rfl
      rw [hk]
      simp
  · rw [if_neg hc]
    dsimp only
    exact ⟨le_refl _, fun h => h, Bool.eq_false_iff.mpr hc⟩

lemma fix_message_props (strict : Bool) (ln : Nat) (sid : String) (m : Json)
    (hwf : JsonWF m) :
    jdepth (fix_message strict ln sid m).1 ≤ jdepth m ∧
    JsonWF (fix_message strict ln sid m).1 ∧
    ((fix_message strict ln sid m).1.getD "role").eqStr "usr" = false ∧
    (strict = true →
      ((fix_message strict ln sid m).1.getD "content").isList = true →
      ∀ it ∈ ((fix_message strict ln sid m).1.getD "content").toList,
        (it.isObj && !it.hasKey "type" && it.hasKey "text") = false) := by
  have hr1 : ∀ (r1 : Json × List Issue),
      (r1 = (if (m.getD "role").eqStr "usr" = true then
        (m.set "role" (.str "user"),
         [mkIssue "INFO" "I901_FIX_ROLE_USR" ln sid "messages[].role"
           "Fixed role 'usr' -> 'user'."])
       else (m, []))) →
      jdepth r1.1 ≤ jdepth m ∧ JsonWF r1.1 ∧
        ((r1.1.getD "role").eqStr "usr" = false) := by
    intro r1 hd
    by_cases hu : (m.getD "role").eqStr "usr" = true
    · rw [if_pos hu] at hd
      have hget : m.get? "role" = some (.str "usr") := getD_eqStr_get? m _ _ hu
      have hobj : m.isObj = true := by
        cases m with
        | obj es => rfl
        | null => cases hget
        | bool b => cases hget
        | int n => cases hget
        | str s => cases hget
        | arr xs => cases hget
      have hdep : 2 ≤ jdepth m := by
        have h1 := jdepth_get m "role" _ hget
        have h2 := jdepth_pos (.str "usr")
        omega
      subst hd
      refine ⟨?_, ?_, ?_⟩
      · dsimp only
        have := jdepth_set_le m "role" (.str "user")
        rw [jdepth_scalar.2.2.2] at this
        omega
      · exact JsonWF_set m "role" (.str "user") hwf (JsonWF.str _)
      · show ((m.set "role" (.str "user")).getD "role").eqStr "usr" = false
        unfold Json.getD
        rw [get_set_self m "role" (.str "user") hobj]
        rfl
    · rw [if_neg hu] at hd
      subst hd
      exact ⟨le_refl _, hwf, Bool.eq_false_iff.mpr hu⟩
  rcases hr1 _ rfl with ⟨hd1, hw1, hrole1⟩
  unfold fix_message
  set r1 := (if (m.getD "role").eqStr "usr" = true then
    (m.set "role" (.str "user"),
     [mkIssue "INFO" "I901_FIX_ROLE_USR" ln sid "messages[].role"
       "Fixed role 'usr' -> 'user'."])
    else (m, [])) with hr1def
  by_cases hb : (strict && (r1.1.getD "content").isList) = true
  · rw [if_pos hb]
    dsimp only
    rcases band_true hb with ⟨hstrict, hlist⟩
    have hget : r1.1.get? "content" = some (r1.1.getD "content") :=
      getD_isList_get? r1.1 "content" hlist
    have hobj : r1.1.isObj = true := by
      rcases h : r1.1 with _ | _ | _ | _ | _ | es <;> rw [h] at hget
      · cases hget
      · cases hget
      · cases hget
      · cases hget
      · cases hget
      · rfl
    have hcdep : jdepth (r1.1.getD "content") + 1 ≤ jdepth r1.1 :=
      jdepth_get r1.1 "content" _ hget
    have hcwf : JsonWF (r1.1.getD "content") := JsonWF_get r1.1 "content" _ hw1 hget
    have hitems : ∀ it ∈ (r1.1.getD "content").toList, JsonWF it := by
      intro it hit
      refine JsonWF_arr_mem ?_ hit
      rw [isList_arr_toList _ hlist]
      exact hcwf
    have hmap : ((r1.1.getD "content").toList.map fix_item).map Prod.fst =
        (r1.1.getD "content").toList.map (fun it => (fix_item it).1) := by
      rw [List.map_map]
      rfl
    have hR : jdepth (r1.1.getD "content") =
        1 + listMax ((r1.1.getD "content").toList.map jdepth) := by
      conv_lhs => rw [← isList_arr_toList _ hlist]
      rw [jdepth_arr]
    have harrdep : jdepth (.arr (((r1.1.getD "content").toList.map
        fix_item).map Prod.fst)) ≤ jdepth (r1.1.getD "content") := by
      have hle := listMax_map_le (fun it => jdepth (fix_item it).1) jdepth
        (r1.1.getD "content").toList (fun it _ => (fix_item_props it).1)
      rw [hmap, jdepth_arr, hR, List.map_map]
      simp only [Function.comp_def]
      omega
    refine ⟨?_, ?_, ?_, ?_⟩
    · have := jdepth_set_le r1.1 "content"
        (.arr (((r1.1.getD "content").toList.map fix_item).map Prod.fst))
      omega
    · refine JsonWF_set r1.1 "content" _ hw1 ?_
      refine JsonWF.arr _ ?_
      intro x hx
      rw [hmap] at hx
      rcases List.mem_map.mp hx with ⟨it, hit, hxit⟩
      rw [← hxit]
      exact (fix_item_props it).2.1 (hitems it hit)
    · show ((r1.1.set "content" _).getD "role").eqStr "usr" = false
      unfold Json.getD
      rw [get_set_ne r1.1 "content" "role" _ (by decide)]
      exact hrole1
    · intro _ _ it hit
      rw [show ((r1.1.set "content" (.arr (((r1.1.getD "content").toList.map
          fix_item).map Prod.fst))).getD "content") =
          .arr (((r1.1.getD "content").toList.map fix_item).map Prod.fst) from by
        unfold Json.getD
        rw [get_set_self r1.1 "content" _ hobj]
        rfl] at hit
      rw [show (Json.arr (((r1.1.getD "content").toList.map
          fix_item).map Prod.fst)).toList =
          ((r1.1.getD "content").toList.map fix_item).map Prod.fst from rfl,
        hmap] at hit
      rcases List.mem_map.mp hit with ⟨it0, hit0, hitit⟩
      rw [← hitit]
      exact (fix_item_props it0).2.2
  · rw [if_neg hb]
    refine ⟨hd1, hw1, hrole1, ?_⟩
    intro hstrict hlist
    rw [hstrict] at hb
    simp only [Bool.true_and] at hb
    rw [hlist] at hb
    cases hb rfl

lemma fix_msgs_fst (strict : Bool) (ln : Nat) (sid : String) (l : List Json) :
    (fix_msgs strict ln sid l).1 = l.map (fun m =>
      if m.isObj = true then (fix_message strict ln sid m).1 else m) := by
  induction l with
  | nil => rfl
  | cons m rest ih =>
    show ((if m.isObj = true then fix_message strict ln sid m else (m, [])).1 ::
      (fix_msgs strict ln sid rest).1, _).1 = _
    rw [List.map_cons]
    dsimp only
    rw [ih, apply_ite Prod.fst]

lemma fix_obj_props (strict : Bool) (ln : Nat) (obj : Json)
    (hwf : JsonWF obj) :
    jdepth (fix_obj strict ln obj).1 ≤ jdepth obj ∧
    JsonWF (fix_obj strict ln obj).1 ∧
    (fix_obj strict ln obj).1.isObj = obj.isObj ∧
    untouchedByRules strict (fix_obj strict ln obj).1 = true := by
  have hunf : fix_obj strict ln obj =
      (if (obj.getD "messages").isList = true then
        (obj.set "messages" (Json.arr (fix_msgs strict ln
            (pyStr ((obj.get? "id").getD (.str ("line_" ++ toString ln))))
            (obj.getD "messages").toList).1),
         (fix_msgs strict ln
            (pyStr ((obj.get? "id").getD (.str ("line_" ++ toString ln))))
            (obj.getD "messages").toList).2)
      else (obj, [])) := rfl
  rw [hunf]
  by_cases hl : (obj.getD "messages").isList = true
  · rw [if_pos hl]
    dsimp only
    set sid := pyStr ((obj.get? "id").getD (.str ("line_" ++ toString ln)))
      with hsid
    have hget : obj.get? "messages" = some (obj.getD "messages") :=
      getD_isList_get? obj "messages" hl
    have hobj : obj.isObj = true := by
      rcases h : obj with _ | _ | _ | _ | _ | es <;> rw [h] at hget
      · cases hget
      · cases hget
      · cases hget
      · cases hget
      · cases hget
      · rfl
    have hmdep : jdepth (obj.getD "messages") + 1 ≤ jdepth obj :=
      jdepth_get obj "messages" _ hget
    have hmwf : JsonWF (obj.getD "messages") :=
      JsonWF_get obj "messages" _ hwf hget
    have hmemwf : ∀ m ∈ (obj.getD "messages").toList, JsonWF m := by
      intro m hm
      refine JsonWF_arr_mem ?_ hm
      rw [isList_arr_toList _ hl]
      exact hmwf
    have hfst := fix_msgs_fst strict ln sid (obj.getD "messages").toList
    have hpt : ∀ m ∈ (obj.getD "messages").toList,
        jdepth (if m.isObj = true then (fix_message strict ln sid m).1 else m) ≤
          jdepth m ∧
        JsonWF (if m.isObj = true then (fix_message strict ln sid m).1 else m) ∧
        (((if m.isObj = true then (fix_message strict ln sid m).1 else m).getD
          "role").eqStr "usr" = false) ∧
        (strict = true →
          ((if m.isObj = true then (fix_message strict ln sid m).1 else
            m).getD "content").isList = true →
          ∀ it ∈ ((if m.isObj = true then (fix_message strict ln sid m).1 else
            m).getD "content").toList,
            (it.isObj && !it.hasKey "type" && it.hasKey "text") = false) := by
      intro m hm
      by_cases ho : m.isObj = true
      · rw [if_pos ho]
        exact fix_message_props strict ln sid m (hmemwf m hm)
      · rw [if_neg ho]
        have hgn : ∀ k, m.get? k = none := by
          intro k
          rcases h : m with _ | _ | _ | _ | _ | es
          · rfl
          · rfl
          · rfl
          · rfl
          · rfl
          · rw [h] at ho
            exact absurd rfl ho
        refine ⟨le_refl _, hmemwf m hm, ?_, ?_⟩
        · unfold Json.getD
          rw [hgn "role"]
          rfl
        · intro _ hcl
          unfold Json.getD at hcl
          rw [hgn "content"] at hcl
          cases hcl
    have hR : jdepth (obj.getD "messages") =
        1 + listMax ((obj.getD "messages").toList.map jdepth) := by
      conv_lhs => rw [← isList_arr_toList _ hl]
      rw [jdepth_arr]
    refine ⟨?_, ?_, ?_, ?_⟩
    · have hset := jdepth_set_le obj "messages"
        (.arr (fix_msgs strict ln sid (obj.getD "messages").toList).1)
      have harr : jdepth (.arr (fix_msgs strict ln sid
          (obj.getD "messages").toList).1) ≤ jdepth (obj.getD "messages") := by
        rw [hfst, jdepth_arr, hR, List.map_map]
        simp only [Function.comp_def]
        have hle := listMax_map_le
          (fun m => jdepth (if m.isObj = true then
            (fix_message strict ln sid m).1 else m)) jdepth
          (obj.getD "messages").toList (fun m hm => (hpt m hm).1)
        omega
      omega
    · refine JsonWF_set obj "messages" _ hwf ?_
      refine JsonWF.arr _ ?_
      intro x hx
      rw [hfst] at hx
      rcases List.mem_map.mp hx with ⟨m, hm, hxm⟩
      rw [← hxm]
      exact (hpt m hm).2.1
    · exact set_isObj obj "messages" _
    · unfold untouchedByRules
      have hgets : (obj.set "messages" (Json.arr (fix_msgs strict ln sid
          (obj.getD "messages").toList).1)).getD "messages" =
          .arr (fix_msgs strict ln sid (obj.getD "messages").toList).1 := by
        unfold Json.getD
        rw [get_set_self obj "messages" _ hobj]
        rfl
      rw [hgets]
      rw [show (Json.arr (fix_msgs strict ln sid
          (obj.getD "messages").toList).1).toList =
          (fix_msgs strict ln sid (obj.getD "messages").toList).1 from rfl]
      rw [hfst]
      apply (Bool.and_eq_true _ _).mpr
      constructor
      · rw [List.all_eq_true]
        intro x hx
        rcases List.mem_map.mp hx with ⟨m, hm, hxm⟩
        rw [← hxm]
        simp only [Bool.not_eq_true']
        exact (hpt m hm).2.2.1
      · by_cases hst : strict = true
        swap
        · apply (Bool.or_eq_true _ _).mpr
          left
          rw [Bool.eq_false_iff.mpr hst]
          rfl
        · apply (Bool.or_eq_true _ _).mpr
          right
          rw [List.all_eq_true]
          intro x hx
          rcases List.mem_map.mp hx with ⟨m, hm, hxm⟩
          rw [← hxm]
          by_cases hcl : ((if m.isObj = true then
              (fix_message strict ln sid m).1 else m).getD "content").isList = true
          · apply (Bool.or_eq_true _ _).mpr
            right
            rw [List.all_eq_true]
            intro it hit
            simp only [Bool.not_eq_true']
            exact (hpt m hm).2.2.2 hst hcl it hit
          · apply (Bool.or_eq_true _ _).mpr
            left
            simp only [Bool.not_eq_true']
            exact Bool.eq_false_iff.mpr hcl
  · rw [if_neg hl]
    refine ⟨le_refl _, hwf, rfl, ?_⟩
    unfold untouchedByRules
    rw [toList_nonlist _ (Bool.eq_false_iff.mpr hl)]
    rcases strict with _ | _
    · rfl
    · rfl

lemma fix_line_stable (strict : Bool) (n m : Nat) (line : String)
    (o : String) (iss : List Issue)
    (h : fix_line strict n line = .ok (some o, iss)) :
    fix_line strict m o = .ok (some o, []) := by
  unfold fix_line at h
  by_cases hblank : (rstripNl line.data).all charIsSpace = true
  · rw [if_pos hblank] at h
    have := Except.ok.inj h
    rw [Prod.mk.injEq] at this
    exact absurd this.1 (by simp)
  · rw [if_neg hblank] at h
    cases hp : pyLoadsChars (rstripNl line.data) with
    | none =>
      rw [hp] at h
      dsimp only at h
      have := Except.ok.inj h
      rw [Prod.mk.injEq] at this
      exact absurd this.1 (by simp)
    | some obj =>
      rw [hp] at h
      dsimp only at h
      by_cases hobj : obj.isObj = true
      · rw [if_pos hobj] at h
        have hinj := Except.ok.inj h
        rw [Prod.mk.injEq] at hinj
        have ho2 : o = ⟨dumpFuel ((rstripNl line.data).length + 1)
            (fix_obj strict n obj).1⟩ := (Option.some.inj hinj.1).symm
        have hinv := pyLoadsChars_inv _ _ hp
        have hprops := fix_obj_props strict n obj hinv.2
        have hdv : jdepth (fix_obj strict n obj).1 ≤
            (rstripNl line.data).length + 1 := le_trans hprops.1 hinv.1
        have hwv : JsonWF (fix_obj strict n obj).1 := hprops.2.1
        have hov : (fix_obj strict n obj).1.isObj = true := by
          rw [hprops.2.2.1]
          exact hobj
        have hu : untouchedByRules strict (fix_obj strict n obj).1 = true :=
          hprops.2.2.2
        have hodata : o.data = dumpFuel ((rstripNl line.data).length + 1)
            (fix_obj strict n obj).1 := by rw [ho2]
        have hdump : ∃ s : List Char,
            dumpFuel ((rstripNl line.data).length + 1)
              (fix_obj strict n obj).1 = s ++ ['\x7d'] := by
          rcases hveq : (fix_obj strict n obj).1 with _ | _ | _ | _ | _ | es <;>
            rw [hveq] at hov
          · cases hov
          · cases hov
          · cases hov
          · cases hov
          · cases hov
          · exact ⟨'\x7b' :: joinComma (es.map
              (entryChars (rstripNl line.data).length)), dump_obj_eq _ es⟩
        rcases hdump with ⟨s, hs⟩
        have hrs : rstripNl o.data = o.data := by
          rw [hodata, hs]
          exact rstripNl_last s '\x7d' (by decide)
        have hp2 : pyLoadsChars (rstripNl o.data) =
            some (fix_obj strict n obj).1 := by
          rw [hrs, hodata]
          exact pyLoadsChars_dump _ hwv _ hdv
        have hfix := fix_untouched_reserializes strict m o
          (fix_obj strict n obj).1 hp2 hov hu
        rw [hfix]
        have hd2 : jdepth (fix_obj strict n obj).1 ≤ o.data.length + 1 := by
          rw [hodata]
          exact jdepth_le_dumpLen _ _ hdv
        have hsame : dumpFuel ((rstripNl o.data).length + 1)
            (fix_obj strict n obj).1 = o.data := by
          rw [hrs, hodata]
          exact dumpFuel_irrel _ _ _ (by rw [← hodata]; exact hd2) hdv
        rw [hsame]
      · rw [if_neg hobj] at h
        cases h

theorem fixLines_stable_out (strict : Bool) :
    ∀ (ls : List String) (n : Nat) (outs : List String) (iss : List Issue),
      fixLines strict ls n = .ok (outs, iss) →
      ∀ o ∈ outs, ∀ (m : Nat), fix_line strict m o = .ok (some o, []) := by
  intro ls
  induction ls with
  | nil =>
    intro n outs iss h o ho m
    have := Except.ok.inj h
    rw [Prod.mk.injEq] at this
    rw [← this.1] at ho
    cases ho
  | cons l rest ih =>
    intro n outs iss h o ho m
    unfold fixLines at h
    cases hl : fix_line strict n l with
    | error e => rw [hl] at h; cases h
    | ok r =>
      rw [hl] at h
      cases hr : fixLines strict rest (n + 1) with
      | error e => rw [hr] at h; cases h
      | ok r2 =>
        rw [hr] at h
        dsimp only at h
        have hinj := Except.ok.inj h
        rw [Prod.mk.injEq] at hinj
        rw [← hinj.1] at ho
        rcases List.mem_append.mp ho with h1 | h1
        · cases hro : r.1 with
          | none => rw [hro] at h1; cases h1
          | some o2 =>
            rw [hro] at h1
            have ho2 : o = o2 := List.mem_singleton.mp h1
            subst ho2
            exact fix_line_stable strict n m l o r.2 (by rw [hl, ← hro])
        · exact ih (n + 1) r2.1 r2.2 (by rw [hr]) o h1 m

lemma fixLines_of_stable (strict : Bool) :
    ∀ (os : List String) (m : Nat),
      (∀ o ∈ os, ∀ (m2 : Nat), fix_line strict m2 o = .ok (some o, [])) →
      fixLines strict os m = .ok (os, []) := by
  intro os
  induction os with
  | nil => intro m _; rfl
  | cons o t ih =>
    intro m hst
    unfold fixLines
    rw [hst o (List.mem_cons_self o t) m,
      ih (m + 1) (fun x hx m2 => hst x (List.mem_cons_of_mem o hx) m2)]
    rfl

/-- C5: the Safe-Fix Transform is idempotent: whenever `fix_jsonl`
succeeds on a file, running `fix_jsonl` again (with the same strict-typed
flag) on the lines it wrote reproduces exactly those lines and reports no
fix issues. -/
theorem fix_idempotent (strict : Bool) (lines outs : List String)
    (iss : List Issue) (h : fix_jsonl strict lines = .ok (outs, iss)) :
    fix_jsonl strict outs = .ok (outs, []) := by
  unfold fix_jsonl at h ⊢
  exact fixLines_of_stable strict outs 1
    (fixLines_stable_out strict lines 1 outs iss h)

set_option maxRecDepth 16384 in
/-- Witness for C5: a strict-typed run that fires both rules (role
`usr` -> `user` and a missing `type: "text"`) writes one rewritten line
with two INFO issues, and the second run reproduces that line with no
issues. -/
theorem fix_idempotent_witness :
    fix_jsonl true
      ["\x7b\"id\":\"t\",\"messages\":[\x7b\"role\":\"usr\",\"content\":[\x7b\"text\":\"hi\"\x7d]\x7d]\x7d"] =
      .ok (["\x7b\"id\": \"t\", \"messages\": [\x7b\"role\": \"user\", \"content\": [\x7b\"text\": \"hi\", \"type\": \"text\"\x7d]\x7d]\x7d"],
        [mkIssue "INFO" "I901_FIX_ROLE_USR" 1 "t" "messages[].role"
          "Fixed role 'usr' -> 'user'.",
         mkIssue "INFO" "I902_FIX_ADD_TYPE_TEXT" 1 "t"
          "messages[].content[].type"
          "Added missing type='text' for item with 'text' field."]) ∧
    fix_jsonl true
      ["\x7b\"id\": \"t\", \"messages\": [\x7b\"role\": \"user\", \"content\": [\x7b\"text\": \"hi\", \"type\": \"text\"\x7d]\x7d]\x7d"] =
      .ok (["\x7b\"id\": \"t\", \"messages\": [\x7b\"role\": \"user\", \"content\": [\x7b\"text\": \"hi\", \"type\": \"text\"\x7d]\x7d]\x7d"], []) :=
  ⟨rfl,
   fix_idempotent true
     ["\x7b\"id\":\"t\",\"messages\":[\x7b\"role\":\"usr\",\"content\":[\x7b\"text\":\"hi\"\x7d]\x7d]\x7d"]
     ["\x7b\"id\": \"t\", \"messages\": [\x7b\"role\": \"user\", \"content\": [\x7b\"text\": \"hi\", \"type\": \"text\"\x7d]\x7d]\x7d"]
     [mkIssue "INFO" "I901_FIX_ROLE_USR" 1 "t" "messages[].role"
       "Fixed role 'usr' -> 'user'.",
      mkIssue "INFO" "I902_FIX_ADD_TYPE_TEXT" 1 "t"
       "messages[].content[].type"
       "Added missing type='text' for item with 'text' field."]
     rfl⟩

end Mmqlint
